import Mathlib

/-!
# The TINY parser of `PARSE.C`

A shallow embedding of the recursive-descent parser in `src/PARSE.C` and the
properties of it that the specification states.

The parser's globals (`token`, the scanner's `tokenString` and `lineno`, the
flag `Error`, the stream `listing`) and the scanner's remaining input are the
fields of `PState`; every C function becomes a function on `PState`.  The rules
that loop or recurse take a fuel argument and return `none` when it runs out;
`Returns` says that enough fuel gives a result.

Storage allocation is modelled as always succeeding, so the `t != NULL` guards
that follow an allocation are taken.
-/

namespace Parse

/-! ## Data model -/

/-- Modelled from the spec: the enumeration `TokenType` of `globals.h`, which is
not part of `PARSE.C`.  The members are the classifications that section 3 of
the specification lists and `PARSE.C` names; `OTHER` stands for any further
member of the enumeration, none of which `PARSE.C` mentions. -/
inductive TokenType where
  | ENDFILE | ERROR
  | IF | THEN | ELSE | END | REPEAT | UNTIL | READ | WRITE
  | INT | BOOL | STRING | DO | WHILE
  | ID | NUM | STR
  | ASSIGN | EQ | LT | LTE | GT | GTE | PLUS | MINUS | TIMES | OVER
  | LPAREN | RPAREN | SEMI | COMMA
  | OTHER (code : Nat)
  deriving DecidableEq

/-- Modelled from the spec: a token as the scanner delivers it, the
classification with the lexeme text and the source line. -/
structure Token where
  type : TokenType
  string : String
  lineno : Nat
  deriving DecidableEq

/-- Modelled from the spec: the declaration kinds of `globals.h`. -/
inductive DeclKind where
  | IntK | BoolK | StringK
  deriving DecidableEq

/-- Modelled from the spec: the statement kinds of `globals.h`. -/
inductive StmtKind where
  | IfK | RepeatK | WhileK | AssignK | ReadK | WriteK
  deriving DecidableEq

/-- Modelled from the spec: the expression kinds of `globals.h`. -/
inductive ExpKind where
  | OpK | ConstK | IdK
  deriving DecidableEq

/-- Modelled from the spec: the category of a node together with its kind
within the category (`nodekind` and `kind` of `globals.h`); `RootK` is the
category of the node that `newRootNode` makes. -/
inductive NodeKind where
  | RootK
  | DeclK (kind : DeclKind)
  | StmtK (kind : StmtKind)
  | ExpK (kind : ExpKind)
  deriving DecidableEq

/-- Modelled from the spec: the type `ExpType` of `globals.h`. -/
inductive ExpType where
  | Void | Integer | Boolean | String
  deriving DecidableEq

/-- Modelled from the spec: the union `attr` of a node.  `unset` is the union
of a node to which the parser has assigned no member. -/
inductive Attr where
  | unset
  | op (token : TokenType)
  | val (value : Int)
  | name (text : String)
  deriving DecidableEq

/-- Modelled from the spec: a value of type `TreeNode*` together with the
storage it points to (`globals.h`).  `NULL` is the null pointer and `node` a
pointer to an initialised node with its three child slots and its sibling
link.  `uninit` is a pointer to storage obtained from `malloc` that no
constructor has initialised, of which only the `sibling` field can have been
written; `indeterminate` is the value of a pointer field that was never
written. -/
inductive TreeNode where
  | NULL : TreeNode
  | indeterminate : TreeNode
  | uninit (sibling : TreeNode) : TreeNode
  | node (kind : NodeKind) (attr : Attr) (type : ExpType) (lineno : Nat)
      (child0 child1 child2 sibling : TreeNode) : TreeNode
  deriving DecidableEq

/-- One write to the stream `listing`. -/
inductive Output where
  /-- The two `fprintf` calls of `syntaxError`. -/
  | syntaxError (lineno : Nat) (message : String)
  /-- A call `printToken(token, tokenString)`. -/
  | printToken (token : TokenType) (tokenString : String)
  /-- Any other `fprintf(listing, text)`. -/
  | text (text : String)
  deriving DecidableEq

/-- The state the parser works on: its lookahead `token`, the scanner's
`tokenString` and `lineno`, the tokens the scanner has yet to deliver, the
flag `Error` and what has been written to `listing`. -/
structure PState where
  token : TokenType
  tokenString : String
  lineno : Nat
  input : List Token
  Error : Bool
  listing : List Output
  deriving DecidableEq

namespace TreeNode

/-- The test `t == NULL`. -/
def isNULL : TreeNode → Bool
  | NULL => true
  | _ => false

/-- The field `t->child[i]`. -/
def child : TreeNode → Nat → TreeNode
  | node _ _ _ _ c0 c1 c2 _, i =>
    match i with
    | 0 => c0
    | 1 => c1
    | 2 => c2
    | _ => indeterminate
  | _, _ => indeterminate

/-- The field `t->sibling`. -/
def sibling : TreeNode → TreeNode
  | node _ _ _ _ _ _ _ sib => sib
  | uninit sib => sib
  | _ => indeterminate

/-- The assignment `t->child[i] = q`. -/
def setChild : TreeNode → Nat → TreeNode → TreeNode
  | node k a ty l c0 c1 c2 sib, i, q =>
    match i with
    | 0 => node k a ty l q c1 c2 sib
    | 1 => node k a ty l c0 q c2 sib
    | 2 => node k a ty l c0 c1 q sib
    | _ => node k a ty l c0 c1 c2 sib
  | t, _, _ => t

/-- The assignment `t->sibling = q`. -/
def setSibling : TreeNode → TreeNode → TreeNode
  | node k a ty l c0 c1 c2 _, q => node k a ty l c0 c1 c2 q
  | uninit _, q => uninit q
  | t, _ => t

/-- An assignment to a member of `t->attr`. -/
def setAttr : TreeNode → Attr → TreeNode
  | node k _ ty l c0 c1 c2 sib, a => node k a ty l c0 c1 c2 sib
  | t, _ => t

/-- The assignment `t->type = ty`. -/
def setType : TreeNode → ExpType → TreeNode
  | node k a _ l c0 c1 c2 sib, ty => node k a ty l c0 c1 c2 sib
  | t, _ => t

/-- The kind of an initialised node. -/
def kind? : TreeNode → Option NodeKind
  | node k _ _ _ _ _ _ _ => some k
  | _ => none

/-- The member of `t->attr` that was assigned. -/
def attr : TreeNode → Attr
  | node _ a _ _ _ _ _ _ => a
  | _ => Attr.unset

/-- The field `t->type` of an initialised node. -/
def type? : TreeNode → Option ExpType
  | node _ _ ty _ _ _ _ _ => some ty
  | _ => none

end TreeNode

/-- What `malloc(sizeof(TreeNode))` returns: storage no field of which has
been written. -/
def malloc : TreeNode := TreeNode.uninit TreeNode.indeterminate

/-- Modelled from the spec: `newRootNode` of `util.c`, a node of the root
category with empty child slots and no sibling. -/
def newRootNode (s : PState) : TreeNode :=
  TreeNode.node NodeKind.RootK Attr.unset ExpType.Void s.lineno
    TreeNode.NULL TreeNode.NULL TreeNode.NULL TreeNode.NULL

/-- Modelled from the spec: the type a declaration node is given when it is
made. -/
def DeclKind.expType : DeclKind → ExpType
  | DeclKind.IntK => ExpType.Integer
  | DeclKind.BoolK => ExpType.Boolean
  | DeclKind.StringK => ExpType.String

/-- Modelled from the spec: `newDeclNode` of `util.c`, a declaration node of
the given kind with empty child slots and no sibling. -/
def newDeclNode (kind : DeclKind) (s : PState) : TreeNode :=
  TreeNode.node (NodeKind.DeclK kind) Attr.unset kind.expType s.lineno
    TreeNode.NULL TreeNode.NULL TreeNode.NULL TreeNode.NULL

/-- Modelled from the spec: `newStmtNode` of `util.c`, a statement node of the
given kind with empty child slots and no sibling. -/
def newStmtNode (kind : StmtKind) (s : PState) : TreeNode :=
  TreeNode.node (NodeKind.StmtK kind) Attr.unset ExpType.Void s.lineno
    TreeNode.NULL TreeNode.NULL TreeNode.NULL TreeNode.NULL

/-- Modelled from the spec: `newExpNode` of `util.c`, an expression node of the
given kind with empty child slots, no sibling and type `Void`. -/
def newExpNode (kind : ExpKind) (s : PState) : TreeNode :=
  TreeNode.node (NodeKind.ExpK kind) Attr.unset ExpType.Void s.lineno
    TreeNode.NULL TreeNode.NULL TreeNode.NULL TreeNode.NULL

/-- The value of a decimal digit. -/
def digitVal (c : Char) : Nat := c.toNat - 48

/-- The C library function `isspace` in the C locale: space, horizontal tab,
line feed, vertical tab, form feed and carriage return. -/
def isspace (c : Char) : Bool :=
  c.toNat = 32 || (9 ≤ c.toNat && c.toNat ≤ 13)

/-- The conversion of a value to `int`, 32 bits in two's complement: the
value is reduced modulo `2^32` into the range from `-2^31` to `2^31 - 1`. -/
def toInt32 (v : Int) : Int :=
  (v + 2 ^ 31) % 2 ^ 32 - 2 ^ 31

/-- The C library function `atoi`: optional white space, an optional sign and
the decimal digits that follow, as an `int`.  (For a value outside the range
of `int` the C standard leaves the result open; here it is reduced to 32
bits.) -/
def atoi (str : String) : Int :=
  let cs := str.toList.dropWhile isspace
  let num := fun (ds : List Char) =>
    ((ds.takeWhile Char.isDigit).foldl (fun acc c => 10 * acc + digitVal c) 0 : Nat)
  match cs with
  | '-' :: ds => toInt32 (- (num ds : Int))
  | '+' :: ds => toInt32 (num ds : Int)
  | ds => toInt32 (num ds : Int)

/-! ## The scanner and the error plumbing -/

/-- Modelled from the spec: the scanner's `getToken`, a pull interface that
delivers the next token with its lexeme and line, and the end-of-file token
forever once the source is exhausted. -/
def getToken (s : PState) : TokenType × PState :=
  match s.input with
  | [] => (TokenType.ENDFILE, { s with tokenString := "" })
  | tk :: rest =>
    (tk.type, { s with tokenString := tk.string, lineno := tk.lineno, input := rest })

/-- The assignment `token = getToken()`. -/
def advance (s : PState) : PState :=
  { (getToken s).2 with token := (getToken s).1 }

/-- The C function `syntaxError`. -/
def syntaxError (message : String) (s : PState) : PState :=
  { s with listing := s.listing ++ [Output.syntaxError s.lineno message], Error := true }

/-- The call `printToken(token, tokenString)`. -/
def printToken (s : PState) : PState :=
  { s with listing := s.listing ++ [Output.printToken s.token s.tokenString] }

/-- A call `fprintf(listing, text)`. -/
def fprintf (text : String) (s : PState) : PState :=
  { s with listing := s.listing ++ [Output.text text] }

/-- The C function `match`. -/
def match_ (expected : TokenType) (s : PState) : PState :=
  if s.token = expected then advance s
  else fprintf "      " (printToken (syntaxError "unexpected token -> " s))

/-! ## Lists built through a trailing pointer

The list loops keep a pointer `p` to the last node linked so far and append a
node `q` by `p->sibling = q; p = q` (`p->child[0] = q; p = q` in the typed
declarations).  The model keeps the nodes linked so far as a list, the last
element being `*p` and the first `*t`; the tree the rule returns is the first
node after every write through `p`. -/

/-- The sibling chain of the nodes: each node's `sibling` field has been
overwritten with the next node, the last node keeps its own. -/
def chain : List TreeNode → TreeNode
  | [] => TreeNode.NULL
  | [n] => n
  | n :: m :: rest => n.setSibling (chain (m :: rest))

/-- The `child[0]` spine of the nodes: each node's `child[0]` field has been
overwritten with the next node, the last node keeps its own. -/
def spine : List TreeNode → TreeNode
  | [] => TreeNode.NULL
  | [n] => n
  | n :: m :: rest => n.setChild 0 (spine (m :: rest))

/-- The body `if (q != NULL) { if (t == NULL) t = p = q; else { p->sibling = q;
p = q; } }` of the list loops, on the list of the nodes linked so far. -/
def link (nodes : List TreeNode) (q : TreeNode) : List TreeNode :=
  if q.isNULL then nodes else nodes ++ [q]

/-! ## The typed declarations -/

/-- The `while (token == COMMA)` loop of `int_stmt`, `bool_stmt` and
`string_stmt` (the three loops are the same text); `ids` are the Identifier
nodes linked so far, the last of them being `*p`. -/
def comma_loop : Nat → List TreeNode → PState → Option (List TreeNode × PState)
  | 0, _, _ => none
  | fuel + 1, ids, s =>
    if s.token = TokenType.COMMA then
      let s1 := match_ TokenType.COMMA s
      let q := newExpNode ExpKind.IdK s1
      let q := if s1.token = TokenType.ID then q.setAttr (Attr.name s1.tokenString) else q
      let s2 := match_ TokenType.ID s1
      comma_loop fuel (link ids q) s2
    else some (ids, s)

/-- The C function `int_stmt`. -/
def int_stmt (fuel : Nat) (s : PState) : Option (TreeNode × PState) :=
  let t := newDeclNode DeclKind.IntK s
  let t := if s.token = TokenType.ID then t.setAttr (Attr.name s.tokenString) else t
  let s1 := match_ TokenType.INT s
  let p := newExpNode ExpKind.IdK s1
  let p := if s1.token = TokenType.ID then p.setAttr (Attr.name s1.tokenString) else p
  let s2 := match_ TokenType.ID s1
  match comma_loop fuel [p] s2 with
  | none => none
  | some (ids, s3) => some (t.setChild 0 (spine ids), s3)

/-- The C function `bool_stmt`. -/
def bool_stmt (fuel : Nat) (s : PState) : Option (TreeNode × PState) :=
  let t := newDeclNode DeclKind.BoolK s
  let t := if s.token = TokenType.ID then t.setAttr (Attr.name s.tokenString) else t
  let s1 := match_ TokenType.BOOL s
  let p := newExpNode ExpKind.IdK s1
  let p := if s1.token = TokenType.ID then p.setAttr (Attr.name s1.tokenString) else p
  let s2 := match_ TokenType.ID s1
  match comma_loop fuel [p] s2 with
  | none => none
  | some (ids, s3) => some (t.setChild 0 (spine ids), s3)

/-- The C function `string_stmt`. -/
def string_stmt (fuel : Nat) (s : PState) : Option (TreeNode × PState) :=
  let t := newDeclNode DeclKind.StringK s
  let t := if s.token = TokenType.ID then t.setAttr (Attr.name s.tokenString) else t
  let s1 := match_ TokenType.STRING s
  let p := newExpNode ExpKind.IdK s1
  let p := if s1.token = TokenType.ID then p.setAttr (Attr.name s1.tokenString) else p
  let s2 := match_ TokenType.ID s1
  match comma_loop fuel [p] s2 with
  | none => none
  | some (ids, s3) => some (t.setChild 0 (spine ids), s3)

/-- The C function `decl`. -/
def decl (fuel : Nat) (s : PState) : Option (TreeNode × PState) :=
  let t := malloc
  match s.token with
  | TokenType.INT => int_stmt fuel s
  | TokenType.BOOL => bool_stmt fuel s
  | TokenType.STRING => string_stmt fuel s
  | _ => some (t, advance (printToken (syntaxError "unexpected token -> " s)))

/-- The `while` loop of `declarations`; `nodes` are the declaration nodes
linked so far. -/
def declarations_loop : Nat → List TreeNode → PState → Option (List TreeNode × PState)
  | 0, _, _ => none
  | fuel + 1, nodes, s =>
    if s.token ≠ TokenType.ENDFILE ∧ s.token ≠ TokenType.END then
      let s1 := match_ TokenType.SEMI s
      if s1.token ≠ TokenType.INT ∧ s1.token ≠ TokenType.BOOL ∧ s1.token ≠ TokenType.STRING then
        some (nodes, s1)
      else
        match decl fuel s1 with
        | none => none
        | some (q, s2) => declarations_loop fuel (link nodes q) s2
    else some (nodes, s)

/-- The C function `declarations`. -/
def declarations (fuel : Nat) (s : PState) : Option (TreeNode × PState) :=
  match decl fuel s with
  | none => none
  | some (t, s1) =>
    match declarations_loop fuel (link [] t) s1 with
    | none => none
    | some (nodes, s2) => some (chain nodes, s2)

/-! ## Expressions -/

/-- The node `p` that `exp`, `simple_exp` and `term` make for an operator: a
new Operator node with `child[0] = t` and `attr.op = token`. -/
def opNode (t : TreeNode) (s : PState) : TreeNode :=
  ((newExpNode ExpKind.OpK s).setChild 0 t).setAttr (Attr.op s.token)

mutual

/-- The C function `exp`. -/
def exp : Nat → PState → Option (TreeNode × PState)
  | 0, _ => none
  | fuel + 1, s =>
    match simple_exp fuel s with
    | none => none
    | some (t, s1) =>
      if s1.token = TokenType.LT ∨ s1.token = TokenType.EQ ∨ s1.token = TokenType.LTE
          ∨ s1.token = TokenType.GT ∨ s1.token = TokenType.GTE then
        let t1 := opNode t s1
        let s2 := match_ s1.token s1
        match simple_exp fuel s2 with
        | none => none
        | some (r, s3) => some (t1.setChild 1 r, s3)
      else some (t, s1)

/-- The C function `simple_exp`. -/
def simple_exp : Nat → PState → Option (TreeNode × PState)
  | 0, _ => none
  | fuel + 1, s =>
    match term fuel s with
    | none => none
    | some (t, s1) => simple_exp_loop fuel t s1

/-- The `while` loop of `simple_exp`, with the current value of `t`. -/
def simple_exp_loop : Nat → TreeNode → PState → Option (TreeNode × PState)
  | 0, _, _ => none
  | fuel + 1, t, s =>
    if s.token = TokenType.PLUS ∨ s.token = TokenType.MINUS then
      let t1 := opNode t s
      let s1 := match_ s.token s
      match term fuel s1 with
      | none => none
      | some (r, s2) => simple_exp_loop fuel (t1.setChild 1 r) s2
    else some (t, s)

/-- The C function `term`. -/
def term : Nat → PState → Option (TreeNode × PState)
  | 0, _ => none
  | fuel + 1, s =>
    match factor fuel s with
    | none => none
    | some (t, s1) => term_loop fuel t s1

/-- The `while` loop of `term`, with the current value of `t`. -/
def term_loop : Nat → TreeNode → PState → Option (TreeNode × PState)
  | 0, _, _ => none
  | fuel + 1, t, s =>
    if s.token = TokenType.TIMES ∨ s.token = TokenType.OVER then
      let t1 := opNode t s
      let s1 := match_ s.token s
      match factor fuel s1 with
      | none => none
      | some (r, s2) => term_loop fuel (t1.setChild 1 r) s2
    else some (t, s)

/-- The C function `factor`. -/
def factor : Nat → PState → Option (TreeNode × PState)
  | 0, _ => none
  | fuel + 1, s =>
    match s.token with
    | TokenType.NUM =>
      let t := newExpNode ExpKind.ConstK s
      let t := t.setType ExpType.Integer
      let t := t.setAttr (Attr.val (atoi s.tokenString))
      some (t, match_ TokenType.NUM s)
    | TokenType.ID =>
      let t := newExpNode ExpKind.IdK s
      let t := t.setAttr (Attr.name s.tokenString)
      some (t, match_ TokenType.ID s)
    | TokenType.LPAREN =>
      let s1 := match_ TokenType.LPAREN s
      match exp fuel s1 with
      | none => none
      | some (t, s2) => some (t, match_ TokenType.RPAREN s2)
    | _ => some (TreeNode.NULL, advance (printToken (syntaxError "unexpected token -> " s)))

end

/-! ## Statements -/

/-- The C function `read_stmt`. -/
def read_stmt (s : PState) : TreeNode × PState :=
  let t := newStmtNode StmtKind.ReadK s
  let s1 := match_ TokenType.READ s
  let t := if s1.token = TokenType.ID then t.setAttr (Attr.name s1.tokenString) else t
  (t, match_ TokenType.ID s1)

/-- The C function `write_stmt`. -/
def write_stmt (fuel : Nat) (s : PState) : Option (TreeNode × PState) :=
  let t := newStmtNode StmtKind.WriteK s
  let s1 := match_ TokenType.WRITE s
  match exp fuel s1 with
  | none => none
  | some (e, s2) => some (t.setChild 0 e, s2)

/-- The C function `assign_stmt`. -/
def assign_stmt (fuel : Nat) (s : PState) : Option (TreeNode × PState) :=
  let t := newStmtNode StmtKind.AssignK s
  let t := if s.token = TokenType.ID then t.setAttr (Attr.name s.tokenString) else t
  let s1 := match_ TokenType.ID s
  let s2 := match_ TokenType.ASSIGN s1
  if s2.token = TokenType.STR then
    let c := newExpNode ExpKind.ConstK s2
    let c := c.setAttr (Attr.name s2.tokenString)
    let c := c.setType ExpType.String
    some (t.setChild 0 c, match_ TokenType.STR s2)
  else
    match exp fuel s2 with
    | none => none
    | some (e, s3) => some (t.setChild 0 e, s3)

mutual

/-- The C function `stmt_sequence`. -/
def stmt_sequence : Nat → PState → Option (TreeNode × PState)
  | 0, _ => none
  | fuel + 1, s =>
    match statement fuel s with
    | none => none
    | some (t, s1) =>
      match stmt_sequence_loop fuel (link [] t) s1 with
      | none => none
      | some (nodes, s2) => some (chain nodes, s2)

/-- The `while` loop of `stmt_sequence`; `nodes` are the statement nodes
linked so far. -/
def stmt_sequence_loop : Nat → List TreeNode → PState → Option (List TreeNode × PState)
  | 0, _, _ => none
  | fuel + 1, nodes, s =>
    if s.token ≠ TokenType.ENDFILE ∧ s.token ≠ TokenType.END ∧ s.token ≠ TokenType.ELSE
        ∧ s.token ≠ TokenType.UNTIL ∧ s.token ≠ TokenType.WHILE then
      let s1 := match_ TokenType.SEMI s
      match statement fuel s1 with
      | none => none
      | some (q, s2) => stmt_sequence_loop fuel (link nodes q) s2
    else some (nodes, s)

/-- The C function `statement`. -/
def statement : Nat → PState → Option (TreeNode × PState)
  | 0, _ => none
  | fuel + 1, s =>
    let t := malloc
    match s.token with
    | TokenType.IF => if_stmt fuel s
    | TokenType.REPEAT => repeat_stmt fuel s
    | TokenType.DO => while_stmt fuel s
    | TokenType.ID => assign_stmt fuel s
    | TokenType.READ => some (read_stmt s)
    | TokenType.WRITE => write_stmt fuel s
    | _ => some (t, advance (printToken (syntaxError "unexpected token -> " s)))

/-- The C function `if_stmt`. -/
def if_stmt : Nat → PState → Option (TreeNode × PState)
  | 0, _ => none
  | fuel + 1, s =>
    let t := newStmtNode StmtKind.IfK s
    let s1 := match_ TokenType.IF s
    match exp fuel s1 with
    | none => none
    | some (c, s2) =>
      let t := t.setChild 0 c
      let s3 := match_ TokenType.THEN s2
      match stmt_sequence fuel s3 with
      | none => none
      | some (b, s4) =>
        let t := t.setChild 1 b
        if s4.token = TokenType.ELSE then
          let s5 := match_ TokenType.ELSE s4
          match stmt_sequence fuel s5 with
          | none => none
          | some (e, s6) => some (t.setChild 2 e, match_ TokenType.END s6)
        else some (t, match_ TokenType.END s4)

/-- The C function `repeat_stmt`. -/
def repeat_stmt : Nat → PState → Option (TreeNode × PState)
  | 0, _ => none
  | fuel + 1, s =>
    let t := newStmtNode StmtKind.RepeatK s
    let s1 := match_ TokenType.REPEAT s
    match stmt_sequence fuel s1 with
    | none => none
    | some (b, s2) =>
      let t := t.setChild 0 b
      let s3 := match_ TokenType.UNTIL s2
      match exp fuel s3 with
      | none => none
      | some (c, s4) => some (t.setChild 1 c, s4)

/-- The C function `while_stmt`. -/
def while_stmt : Nat → PState → Option (TreeNode × PState)
  | 0, _ => none
  | fuel + 1, s =>
    let t := newStmtNode StmtKind.WhileK s
    let s1 := match_ TokenType.DO s
    match stmt_sequence fuel s1 with
    | none => none
    | some (b, s2) =>
      let t := t.setChild 0 b
      let s3 := match_ TokenType.WHILE s2
      match exp fuel s3 with
      | none => none
      | some (c, s4) => some (t.setChild 1 c, s4)

end

/-! ## The program rule and the driver -/

/-- The C function `program`. -/
def program (fuel : Nat) (s : PState) : Option (TreeNode × PState) :=
  let t := newRootNode s
  match declarations fuel s with
  | none => none
  | some (d, s1) =>
    let t := t.setChild 0 d
    match stmt_sequence fuel s1 with
    | none => none
    | some (b, s2) => some (t.setChild 1 b, s2)

/-- The C function `parse`. -/
def parse (fuel : Nat) (s : PState) : Option (TreeNode × PState) :=
  let s1 := advance s
  match program fuel s1 with
  | none => none
  | some (t, s2) =>
    if s2.token ≠ TokenType.ENDFILE then some (t, syntaxError "Code ends before file\n" s2)
    else some (t, s2)

/-- The state in which `parse` is called on the tokens `input`: nothing
scanned yet, the flag clear, nothing listed. -/
def initial (input : List Token) : PState :=
  { token := TokenType.ENDFILE, tokenString := "", lineno := 0, input := input,
    Error := false, listing := [] }

/-! ## Results and fuel -/

/-- With enough fuel the rule `f`, started in state `s`, returns `r`: there is
a bound from which on every amount of fuel gives `r`. -/
def Returns {α : Type} (f : Nat → PState → Option (α × PState)) (s : PState)
    (r : α × PState) : Prop :=
  ∃ N, ∀ n, N ≤ n → f n s = some r

/-- A result is not changed by more fuel. -/
def Stable {α : Type} (f : Nat → PState → Option (α × PState)) : Prop :=
  ∀ n s, f n s ≠ none → f (n + 1) s = f n s

/-- The default branch of the dispatch in `decl`, `statement` and `factor`:
report the lookahead, print it and fetch the next token. -/
def unexpected (s : PState) : PState :=
  advance (printToken (syntaxError "unexpected token -> " s))

/-- The ways the parser changes its state: it fetches a token, reports a syntax
error, prints the lookahead or writes a text to the listing. -/
inductive Steps : PState → PState → Prop where
  | refl (s : PState) : Steps s s
  | adv {s a : PState} : Steps s a → Steps s (advance a)
  | err {s a : PState} (message : String) : Steps s a → Steps s (syntaxError message a)
  | prt {s a : PState} : Steps s a → Steps s (printToken a)
  | txt {s a : PState} (text : String) : Steps s a → Steps s (fprintf text a)

/-- The number of tokens still to be consumed: those the scanner has yet to
deliver, and the lookahead unless it is the end-of-file token. -/
def remaining (s : PState) : Nat :=
  s.input.length + (if s.token = TokenType.ENDFILE then 0 else 1)

/-- The number of syntax-error diagnostics in a listing. -/
def diagnostics (listing : List Output) : Nat :=
  (listing.filter (fun o => match o with
    | Output.syntaxError _ _ => true
    | _ => false)).length

/-- The rule `f` started in state `s` comes to an end: some amount of fuel is
enough for it to return. -/
def Halts {α : Type} (f : Nat → PState → Option (α × PState)) (s : PState) : Prop :=
  ∃ n, (f n s).isSome = true

/-! ## Token streams of the examples -/

/-- A token on line 1 of the source. -/
def tk (type : TokenType) (string : String) : Token := ⟨type, string, 1⟩

/-- The tokens of `int a, b, c`. -/
def tokens_int_abc : List Token :=
  [tk TokenType.INT "int", tk TokenType.ID "a", tk TokenType.COMMA ",", tk TokenType.ID "b",
    tk TokenType.COMMA ",", tk TokenType.ID "c"]

/-- The tokens of `read x ; write x + 1`. -/
def tokens_read_write : List Token :=
  [tk TokenType.READ "read", tk TokenType.ID "x", tk TokenType.SEMI ";",
    tk TokenType.WRITE "write", tk TokenType.ID "x", tk TokenType.PLUS "+",
    tk TokenType.NUM "1"]

/-- The tokens of `int x ; read x ; write x + 1`. -/
def tokens_decl_read_write : List Token :=
  [tk TokenType.INT "int", tk TokenType.ID "x", tk TokenType.SEMI ";"] ++ tokens_read_write

/-- An expression or statement node on line 1 without sibling, as the examples
build them. -/
def node1 (kind : NodeKind) (attr : Attr) (type : ExpType) (child0 child1 child2 : TreeNode)
    (sibling : TreeNode) : TreeNode :=
  TreeNode.node kind attr type 1 child0 child1 child2 sibling

/-- The Identifier node of `name` on line 1, without children. -/
def idNode1 (name : String) : TreeNode :=
  node1 (NodeKind.ExpK ExpKind.IdK) (Attr.name name) ExpType.Void
    TreeNode.NULL TreeNode.NULL TreeNode.NULL TreeNode.NULL

/-- The Constant node of the integer `value` on line 1. -/
def constNode1 (value : Int) : TreeNode :=
  node1 (NodeKind.ExpK ExpKind.ConstK) (Attr.val value) ExpType.Integer
    TreeNode.NULL TreeNode.NULL TreeNode.NULL TreeNode.NULL

/-- The Operator node `Op(op, left, right)` on line 1. -/
def opNode1 (op : TokenType) (left right : TreeNode) : TreeNode :=
  node1 (NodeKind.ExpK ExpKind.OpK) (Attr.op op) ExpType.Void left right TreeNode.NULL
    TreeNode.NULL

/-- The statement chain of `read x ; write x + 1`: a Read node named `x` whose
sibling is the Write node of `x + 1`, which has no sibling. -/
def tree_read_write : TreeNode :=
  node1 (NodeKind.StmtK StmtKind.ReadK) (Attr.name "x") ExpType.Void
    TreeNode.NULL TreeNode.NULL TreeNode.NULL
    (node1 (NodeKind.StmtK StmtKind.WriteK) Attr.unset ExpType.Void
      (opNode1 TokenType.PLUS (idNode1 "x") (constNode1 1))
      TreeNode.NULL TreeNode.NULL TreeNode.NULL)

/-- The tokens of `int x ; if x < 1 then write x`, an `if` without its `end`. -/
def tokens_missing_end : List Token :=
  [tk TokenType.INT "int", tk TokenType.ID "x", tk TokenType.SEMI ";", tk TokenType.IF "if",
    tk TokenType.ID "x", tk TokenType.LT "<", tk TokenType.NUM "1", tk TokenType.THEN "then",
    tk TokenType.WRITE "write", tk TokenType.ID "x"]

/-- The declaration node of `int x` on line 1. -/
def tree_int_x : TreeNode :=
  node1 (NodeKind.DeclK DeclKind.IntK) Attr.unset ExpType.Integer (idNode1 "x") TreeNode.NULL
    TreeNode.NULL TreeNode.NULL

/-- The Write node of `write x` on line 1. -/
def tree_write_x : TreeNode :=
  node1 (NodeKind.StmtK StmtKind.WriteK) Attr.unset ExpType.Void (idNode1 "x") TreeNode.NULL
    TreeNode.NULL TreeNode.NULL

/-- The tokens of `read x ; ; read y`, a statement sequence with a stray `;`. -/
def tokens_stray_semi : List Token :=
  [tk TokenType.READ "read", tk TokenType.ID "x", tk TokenType.SEMI ";", tk TokenType.SEMI ";",
    tk TokenType.READ "read", tk TokenType.ID "y"]

/-- The Read node of `read name` on line 1 with the given sibling. -/
def readNode1 (name : String) (sibling : TreeNode) : TreeNode :=
  node1 (NodeKind.StmtK StmtKind.ReadK) (Attr.name name) ExpType.Void
    TreeNode.NULL TreeNode.NULL TreeNode.NULL sibling

/-- The tokens of `int x ; read x end write x`: the statement list ends at a
stray `end`. -/
def tokens_stray_end : List Token :=
  [tk TokenType.INT "int", tk TokenType.ID "x", tk TokenType.SEMI ";", tk TokenType.READ "read",
    tk TokenType.ID "x", tk TokenType.END "end", tk TokenType.WRITE "write",
    tk TokenType.ID "x"]

/-- The tokens at which a statement sequence stops. -/
def stopsSequence (t : TokenType) : Prop :=
  t = TokenType.ENDFILE ∨ t = TokenType.END ∨ t = TokenType.ELSE ∨ t = TokenType.UNTIL
    ∨ t = TokenType.WHILE

/-- The rule `f` returns from every state, and when the flag `Error` is
set before it runs the flag is still set after. -/
def KeepsError {α : Type} (f : Nat → PState → Option (α × PState)) : Prop :=
  ∀ s, ∃ r, Returns f s r ∧ (s.Error = true → r.2.Error = true)

/-! ## Left folds -/

/-- The multiplicative operators, the test of the loop of `term`. -/
def isMulOp (t : TokenType) : Prop := t = TokenType.TIMES ∨ t = TokenType.OVER

/-- The additive operators, the test of the loop of `simple_exp`. -/
def isAddOp (t : TokenType) : Prop := t = TokenType.PLUS ∨ t = TokenType.MINUS

/-- The relational operators, the test of `exp`. -/
def isRelOp (t : TokenType) : Prop :=
  t = TokenType.LT ∨ t = TokenType.EQ ∨ t = TokenType.LTE ∨ t = TokenType.GT ∨ t = TokenType.GTE

/-- Following the spec: the left fold `Op(op(n-1), ... Op(op1, f1, f2) ..., fn)`
of a first operand `t` and the further operands, each given with the state in
which its operator is the lookahead (the operator and its line go into the
Operator node). -/
def leftFold (t : TreeNode) : List (PState × TreeNode) → TreeNode
  | [] => t
  | (s, r) :: more => leftFold ((opNode t s).setChild 1 r) more

/-- The input continues with `op operand op operand ...`: in state `s` the
lookahead is an operator, past it the rule `operand` returns `r`, and so on
for the remaining steps, until the state `e` is reached.  Each step is listed
with the state at its operator and the tree of its operand. -/
def OperandRun (operand : Nat → PState → Option (TreeNode × PState))
    (isOp : TokenType → Prop) : PState → List (PState × TreeNode) → PState → Prop
  | s, [], e => e = s
  | s, (a, r) :: more, e =>
    a = s ∧ isOp s.token ∧
      ∃ s', Returns operand (match_ s.token s) (r, s') ∧ OperandRun operand isOp s' more e

/-- The tokens of `1 - 2 - 3`. -/
def tokens_1_minus_2_minus_3 : List Token :=
  [tk TokenType.NUM "1", tk TokenType.MINUS "-", tk TokenType.NUM "2", tk TokenType.MINUS "-",
    tk TokenType.NUM "3"]

/-- The tokens of `1 < 2 < 3`. -/
def tokens_1_lt_2_lt_3 : List Token :=
  [tk TokenType.NUM "1", tk TokenType.LT "<", tk TokenType.NUM "2", tk TokenType.LT "<",
    tk TokenType.NUM "3"]

/-! ## Operator precedence -/

/-- The operator of an Operator node. -/
def TreeNode.op? : TreeNode → Option TokenType
  | TreeNode.node (NodeKind.ExpK ExpKind.OpK) (Attr.op t) _ _ _ _ _ _ => some t
  | _ => none

/-- An Operator node with a multiplicative operator. -/
def TreeNode.mulNode (t : TreeNode) : Bool :=
  decide (t.op? = some TokenType.TIMES ∨ t.op? = some TokenType.OVER)

/-- An Operator node with an additive operator. -/
def TreeNode.addNode (t : TreeNode) : Bool :=
  decide (t.op? = some TokenType.PLUS ∨ t.op? = some TokenType.MINUS)

/-- An Operator node with a relational operator. -/
def TreeNode.relNode (t : TreeNode) : Bool :=
  decide (t.op? = some TokenType.LT ∨ t.op? = some TokenType.EQ ∨ t.op? = some TokenType.LTE
    ∨ t.op? = some TokenType.GT ∨ t.op? = some TokenType.GTE)

/-- Following the spec: in the tree no multiplicative Operator node has an
additive or relational Operator node as a child, and no additive Operator
node has a relational Operator node as a child. -/
def precedenceOk : TreeNode → Bool
  | TreeNode.node k a ty l c0 c1 c2 sib =>
    (!(TreeNode.node k a ty l c0 c1 c2 sib).mulNode ||
      !(c0.addNode || c0.relNode || c1.addNode || c1.relNode || c2.addNode || c2.relNode)) &&
    (!(TreeNode.node k a ty l c0 c1 c2 sib).addNode ||
      !(c0.relNode || c1.relNode || c2.relNode)) &&
    precedenceOk c0 && precedenceOk c1 && precedenceOk c2 && precedenceOk sib
  | TreeNode.uninit sib => precedenceOk sib
  | _ => true

/-- What `factor` returns when it meets no parenthesis: no node, a Constant
node or an Identifier node, without children. -/
def atomTree : TreeNode → Bool
  | TreeNode.NULL => true
  | TreeNode.node k _ _ _ c0 c1 c2 sib =>
    decide (k = NodeKind.ExpK ExpKind.ConstK ∨ k = NodeKind.ExpK ExpKind.IdK) &&
      c0.isNULL && c1.isNULL && c2.isNULL && sib.isNULL
  | _ => false

/-- The trees of the multiplicative tier: an atom, or a multiplicative
Operator node over such a tree and an atom. -/
def termTree : TreeNode → Bool
  | TreeNode.node k a ty l c0 c1 c2 sib =>
    ((TreeNode.node k a ty l c0 c1 c2 sib).mulNode && termTree c0 && atomTree c1 &&
      c2.isNULL && sib.isNULL) || atomTree (TreeNode.node k a ty l c0 c1 c2 sib)
  | t => atomTree t

/-- The trees of the additive tier: a tree of the multiplicative tier, or an
additive Operator node over a tree of the additive tier and one of the
multiplicative tier. -/
def simpleTree : TreeNode → Bool
  | TreeNode.node k a ty l c0 c1 c2 sib =>
    ((TreeNode.node k a ty l c0 c1 c2 sib).addNode && simpleTree c0 && termTree c1 &&
      c2.isNULL && sib.isNULL) || termTree (TreeNode.node k a ty l c0 c1 c2 sib)
  | t => termTree t

/-- The trees of the relational tier: a tree of the additive tier, or a
relational Operator node over two of them. -/
def expTree : TreeNode → Bool
  | TreeNode.node k a ty l c0 c1 c2 sib =>
    ((TreeNode.node k a ty l c0 c1 c2 sib).relNode && simpleTree c0 && simpleTree c1 &&
      c2.isNULL && sib.isNULL) || simpleTree (TreeNode.node k a ty l c0 c1 c2 sib)
  | t => simpleTree t

/-- Neither the lookahead nor a token of the input is an opening parenthesis. -/
def NoParen (s : PState) : Prop :=
  s.token ≠ TokenType.LPAREN ∧ ∀ t ∈ s.input, t.type ≠ TokenType.LPAREN

/-- The tokens of `a + b * c`. -/
def tokens_a_plus_b_times_c : List Token :=
  [tk TokenType.ID "a", tk TokenType.PLUS "+", tk TokenType.ID "b", tk TokenType.TIMES "*",
    tk TokenType.ID "c"]

/-- The tokens of `a < b + c`. -/
def tokens_a_lt_b_plus_c : List Token :=
  [tk TokenType.ID "a", tk TokenType.LT "<", tk TokenType.ID "b", tk TokenType.PLUS "+",
    tk TokenType.ID "c"]

/-! ## Token streams of the statement examples -/

/-- The tokens of `if x < 1 then write x end`. -/
def tokens_if_end : List Token :=
  [tk TokenType.IF "if", tk TokenType.ID "x", tk TokenType.LT "<", tk TokenType.NUM "1",
    tk TokenType.THEN "then", tk TokenType.WRITE "write", tk TokenType.ID "x",
    tk TokenType.END "end"]

/-- The tokens of `if x < 1 then write x else read x end`. -/
def tokens_if_else_end : List Token :=
  [tk TokenType.IF "if", tk TokenType.ID "x", tk TokenType.LT "<", tk TokenType.NUM "1",
    tk TokenType.THEN "then", tk TokenType.WRITE "write", tk TokenType.ID "x",
    tk TokenType.ELSE "else", tk TokenType.READ "read", tk TokenType.ID "x",
    tk TokenType.END "end"]

/-- The tokens of `do do x := 1 while a while b`, a loop whose body ends with a
nested loop. -/
def tokens_nested_do : List Token :=
  [tk TokenType.DO "do", tk TokenType.DO "do", tk TokenType.ID "x", tk TokenType.ASSIGN ":=",
    tk TokenType.NUM "1", tk TokenType.WHILE "while", tk TokenType.ID "a",
    tk TokenType.WHILE "while", tk TokenType.ID "b"]

/-- The tokens of `repeat x := 1 until a`. -/
def tokens_repeat : List Token :=
  [tk TokenType.REPEAT "repeat", tk TokenType.ID "x", tk TokenType.ASSIGN ":=",
    tk TokenType.NUM "1", tk TokenType.UNTIL "until", tk TokenType.ID "a"]

/-- The Assign node of `x := 1` on line 1. -/
def tree_x_assign_1 : TreeNode :=
  node1 (NodeKind.StmtK StmtKind.AssignK) (Attr.name "x") ExpType.Void (constNode1 1)
    TreeNode.NULL TreeNode.NULL TreeNode.NULL

/-- The While node of `do x := 1 while a` on line 1. -/
def tree_do_while : TreeNode :=
  node1 (NodeKind.StmtK StmtKind.WhileK) Attr.unset ExpType.Void tree_x_assign_1 (idNode1 "a")
    TreeNode.NULL TreeNode.NULL

/-- The tokens of `x := "hi" ; y`. -/
def tokens_assign_string : List Token :=
  [tk TokenType.ID "x", tk TokenType.ASSIGN ":=", tk TokenType.STR "\"hi\"",
    tk TokenType.SEMI ";", tk TokenType.ID "y"]

/-- The tokens of `x := 1 + 2`. -/
def tokens_assign_sum : List Token :=
  [tk TokenType.ID "x", tk TokenType.ASSIGN ":=", tk TokenType.NUM "1", tk TokenType.PLUS "+",
    tk TokenType.NUM "2"]

/-! ## Sibling chains and spines -/

/-- The nodes of a sibling chain in order, each cut off from its sibling. -/
def siblings : TreeNode → List TreeNode
  | TreeNode.node k a ty l c0 c1 c2 sib =>
    TreeNode.node k a ty l c0 c1 c2 TreeNode.NULL :: siblings sib
  | TreeNode.uninit sib => TreeNode.uninit TreeNode.indeterminate :: siblings sib
  | _ => []

/-- What ends the sibling chain from `t`: the value found in the `sibling`
field of the last node of the chain.  It is `NULL` when the chain is
terminated; it is a never-written pointer or raw storage when the chain runs
into one; it is `t` itself when `t` points to no node. -/
def chainEnd : TreeNode → TreeNode
  | TreeNode.node _ _ _ _ _ _ _ sib => chainEnd sib
  | t => t

/-- An initialised node without sibling, as a rule returns it. -/
def single (q : TreeNode) : Prop :=
  q.kind? ≠ none ∧ q.sibling = TreeNode.NULL

/-- The input continues with `; statement ; statement ...`: in state `s` the
lookahead is `;`, past it `statement` returns `q` without listing anything,
and so on for the remaining steps, until the state `e` is reached.  Each step
is listed with the node of its statement and the state after it. -/
def StatementRun : PState → List (TreeNode × PState) → PState → Prop
  | s, [], e => e = s
  | s, (q, a) :: more, e =>
    s.token = TokenType.SEMI ∧ Returns statement (advance s) (q, a) ∧
      a.listing = s.listing ∧ StatementRun a more e

/-- The tokens of `read x ; x := 1 ; write x end`. -/
def tokens_three_statements : List Token :=
  [tk TokenType.READ "read", tk TokenType.ID "x", tk TokenType.SEMI ";", tk TokenType.ID "x",
    tk TokenType.ASSIGN ":=", tk TokenType.NUM "1", tk TokenType.SEMI ";",
    tk TokenType.WRITE "write", tk TokenType.ID "x", tk TokenType.END "end"]

/-- The declaration kind a type keyword stands for. -/
def declKind? : TokenType → Option DeclKind
  | TokenType.INT => some DeclKind.IntK
  | TokenType.BOOL => some DeclKind.BoolK
  | TokenType.STRING => some DeclKind.StringK
  | _ => none

/-- The input continues with `; declaration ; declaration ... ;` and then a
token that starts no declaration: in state `s` the lookahead is `;`, past it
comes the type keyword `kw` and `decl` returns `q` without listing anything,
and so on; after the last declaration the lookahead is `;` and the token
after it, the lookahead of the final state `e`, is no type keyword.  Each step
is listed with its keyword, the node of its declaration and the state after
it. -/
def DeclarationRun : PState → List (TokenType × TreeNode × PState) → PState → Prop
  | s, [], e => s.token = TokenType.SEMI ∧ e = advance s ∧ declKind? e.token = none
  | s, (kw, q, a) :: more, e =>
    s.token = TokenType.SEMI ∧ (advance s).token = kw ∧ declKind? kw ≠ none ∧
      Returns decl (advance s) (q, a) ∧ a.listing = s.listing ∧ DeclarationRun a more e

/-- The tokens of `int a ; bool b ; string c ; read x`. -/
def tokens_three_declarations : List Token :=
  [tk TokenType.INT "int", tk TokenType.ID "a", tk TokenType.SEMI ";",
    tk TokenType.BOOL "bool", tk TokenType.ID "b", tk TokenType.SEMI ";",
    tk TokenType.STRING "string", tk TokenType.ID "c", tk TokenType.SEMI ";",
    tk TokenType.READ "read", tk TokenType.ID "x"]

/-- The declaration node of kind `kind` for the single identifier `name`, on
line 1. -/
def declNode1 (kind : DeclKind) (name : String) : TreeNode :=
  node1 (NodeKind.DeclK kind) Attr.unset kind.expType (idNode1 name) TreeNode.NULL
    TreeNode.NULL TreeNode.NULL

/-- The tokens `, x` of the identifiers after the first: each identifier is
given as the lexeme and line of its comma followed by its own lexeme and
line. -/
def commaIds : List (String × Nat × String × Nat) → List Token
  | [] => []
  | (c, cl, x, l) :: more =>
    ⟨TokenType.COMMA, c, cl⟩ :: ⟨TokenType.ID, x, l⟩ :: commaIds more

/-- The Identifier node named `x` made on line `l`, without children. -/
def idNodeAt (x : String) (l : Nat) : TreeNode :=
  TreeNode.node (NodeKind.ExpK ExpKind.IdK) (Attr.name x) ExpType.Void l
    TreeNode.NULL TreeNode.NULL TreeNode.NULL TreeNode.NULL

/-- The nodes of a `child[0]` spine in order, each cut off from its
`child[0]`. -/
def spineNodes : TreeNode → List TreeNode
  | TreeNode.node k a ty l c0 c1 c2 sib =>
    TreeNode.node k a ty l TreeNode.NULL c1 c2 sib :: spineNodes c0
  | _ => []

/-- What ends the `child[0]` spine from `t`: the value found in the `child[0]`
field of the last node of the spine.  It is `NULL` when the last node has no
child; it is a never-written pointer or raw storage when the spine runs into
one; it is `t` itself when `t` points to no node. -/
def spineEnd : TreeNode → TreeNode
  | TreeNode.node _ _ _ _ c0 _ _ _ => spineEnd c0
  | t => t

/-! ## Complete trees -/

/-- The pointer points to an initialised node: it is not `NULL`, not a
never-written pointer and not raw storage. -/
def TreeNode.isNode : TreeNode → Bool
  | TreeNode.node _ _ _ _ _ _ _ _ => true
  | _ => false

/-- The member `name` of `attr` has been assigned. -/
def Attr.isName : Attr → Bool
  | Attr.name _ => true
  | _ => false

/-- Following the spec: what is required of a single node of a complete tree.
An Operator node has both operands, an If node its condition and then-branch,
a Repeat or While node its body and condition, an Assign and a Write node
their `child[0]`, and an Assign, a Read and an Identifier node have their
name.  A child that is required is a node. -/
def nodeComplete (k : NodeKind) (a : Attr) (c0 c1 : TreeNode) : Bool :=
  match k with
  | NodeKind.ExpK ExpKind.OpK => c0.isNode && c1.isNode
  | NodeKind.ExpK ExpKind.IdK => a.isName
  | NodeKind.StmtK StmtKind.IfK => c0.isNode && c1.isNode
  | NodeKind.StmtK StmtKind.RepeatK => c0.isNode && c1.isNode
  | NodeKind.StmtK StmtKind.WhileK => c0.isNode && c1.isNode
  | NodeKind.StmtK StmtKind.AssignK => c0.isNode && a.isName
  | NodeKind.StmtK StmtKind.WriteK => c0.isNode
  | NodeKind.StmtK StmtKind.ReadK => a.isName
  | _ => true

/-- Following the spec: every node of the tree, through children and
siblings, is complete.  An empty slot (`NULL`) has nothing to check; a
never-written pointer or raw storage in the tree makes it incomplete. -/
def complete : TreeNode → Bool
  | TreeNode.NULL => true
  | TreeNode.node k a _ _ c0 c1 c2 sib =>
    nodeComplete k a c0 c1 && complete c0 && complete c1 && complete c2 && complete sib
  | _ => false

/-- A tree that is there and complete. -/
def good (t : TreeNode) : Prop := t.isNode = true ∧ complete t = true

/-- The tokens of `int x ; read x ; if x < 1 then x := x + 1 end ; write x`. -/
def tokens_error_free : List Token :=
  [tk TokenType.INT "int", tk TokenType.ID "x", tk TokenType.SEMI ";",
   tk TokenType.READ "read", tk TokenType.ID "x", tk TokenType.SEMI ";",
   tk TokenType.IF "if", tk TokenType.ID "x", tk TokenType.LT "<", tk TokenType.NUM "1",
   tk TokenType.THEN "then", tk TokenType.ID "x", tk TokenType.ASSIGN ":=",
   tk TokenType.ID "x", tk TokenType.PLUS "+", tk TokenType.NUM "1", tk TokenType.END "end",
   tk TokenType.SEMI ";", tk TokenType.WRITE "write", tk TokenType.ID "x"]

/-! ## The expression rules with checked pointers

The rules `exp`, `simple_exp`, `term` and `factor` once more, with every
access `x->field` of the C text made through a checked pointer: an access
through a pointer that points to no storage is a fault, and a fault ends the
rule.  A pointer that is only stored, passed or returned is not looked
through.  As in the rules above, `newExpNode` returns a node, so the tests
`p != NULL` and `t != NULL` that guard the accesses are passed. -/

/-- What goes wrong when a field is read or written through a pointer that
points to no storage. -/
inductive Fault where
  | deref
  deriving DecidableEq

/-- The pointer can be dereferenced: it points to a node or to allocated
storage; it is neither `NULL` nor a never-written pointer. -/
def TreeNode.valid : TreeNode → Bool
  | TreeNode.NULL => false
  | TreeNode.indeterminate => false
  | _ => true

/-- The assignment `t->child[i] = q` through the checked pointer `t`.  The
pointer `q` is stored as it is. -/
def storeChild (t : TreeNode) (i : Nat) (q : TreeNode) : Except Fault TreeNode :=
  if t.valid then Except.ok (t.setChild i q) else Except.error Fault.deref

/-- The assignment to a member of `t->attr` through the checked pointer `t`. -/
def storeAttr (t : TreeNode) (a : Attr) : Except Fault TreeNode :=
  if t.valid then Except.ok (t.setAttr a) else Except.error Fault.deref

/-- The assignment `t->type = ty` through the checked pointer `t`. -/
def storeType (t : TreeNode) (ty : ExpType) : Except Fault TreeNode :=
  if t.valid then Except.ok (t.setType ty) else Except.error Fault.deref

/-- Go on with `k` on the result of a checked access, unless it faulted. -/
def andThen {α β : Type} (x : Except Fault α) (k : α → Option (Except Fault β)) :
    Option (Except Fault β) :=
  match x with
  | Except.error f => some (Except.error f)
  | Except.ok a => k a

/-- Go on with `k` on the node and the state that a checked rule returned,
unless it ran out of fuel or faulted. -/
def call {β : Type} (x : Option (Except Fault (TreeNode × PState)))
    (k : TreeNode → PState → Option (Except Fault β)) : Option (Except Fault β) :=
  match x with
  | none => none
  | some (Except.error f) => some (Except.error f)
  | some (Except.ok (t, s)) => k t s

namespace Checked

/-- The statements `p->child[0] = t; p->attr.op = token;` on the new Operator
node `p`, through the checked pointer `p`. -/
def opNode (t : TreeNode) (s : PState) : Except Fault TreeNode :=
  match storeChild (newExpNode ExpKind.OpK s) 0 t with
  | Except.error f => Except.error f
  | Except.ok p => storeAttr p (Attr.op s.token)

mutual

/-- The C function `exp`, with checked pointers. -/
def exp : Nat → PState → Option (Except Fault (TreeNode × PState))
  | 0, _ => none
  | fuel + 1, s =>
    call (simple_exp fuel s) fun t s1 =>
      if s1.token = TokenType.LT ∨ s1.token = TokenType.EQ ∨ s1.token = TokenType.LTE
          ∨ s1.token = TokenType.GT ∨ s1.token = TokenType.GTE then
        andThen (opNode t s1) fun t1 =>
          call (simple_exp fuel (match_ s1.token s1)) fun r s3 =>
            andThen (storeChild t1 1 r) fun t2 => some (Except.ok (t2, s3))
      else some (Except.ok (t, s1))

/-- The C function `simple_exp`, with checked pointers. -/
def simple_exp : Nat → PState → Option (Except Fault (TreeNode × PState))
  | 0, _ => none
  | fuel + 1, s => call (term fuel s) fun t s1 => simple_exp_loop fuel t s1

/-- The `while` loop of `simple_exp`, with checked pointers. -/
def simple_exp_loop : Nat → TreeNode → PState → Option (Except Fault (TreeNode × PState))
  | 0, _, _ => none
  | fuel + 1, t, s =>
    if s.token = TokenType.PLUS ∨ s.token = TokenType.MINUS then
      andThen (opNode t s) fun t1 =>
        call (term fuel (match_ s.token s)) fun r s2 =>
          andThen (storeChild t1 1 r) fun t2 => simple_exp_loop fuel t2 s2
    else some (Except.ok (t, s))

/-- The C function `term`, with checked pointers. -/
def term : Nat → PState → Option (Except Fault (TreeNode × PState))
  | 0, _ => none
  | fuel + 1, s => call (factor fuel s) fun t s1 => term_loop fuel t s1

/-- The `while` loop of `term`, with checked pointers. -/
def term_loop : Nat → TreeNode → PState → Option (Except Fault (TreeNode × PState))
  | 0, _, _ => none
  | fuel + 1, t, s =>
    if s.token = TokenType.TIMES ∨ s.token = TokenType.OVER then
      andThen (opNode t s) fun t1 =>
        call (factor fuel (match_ s.token s)) fun r s2 =>
          andThen (storeChild t1 1 r) fun t2 => term_loop fuel t2 s2
    else some (Except.ok (t, s))

/-- The C function `factor`, with checked pointers. -/
def factor : Nat → PState → Option (Except Fault (TreeNode × PState))
  | 0, _ => none
  | fuel + 1, s =>
    match s.token with
    | TokenType.NUM =>
      andThen (storeType (newExpNode ExpKind.ConstK s) ExpType.Integer) fun t =>
        andThen (storeAttr t (Attr.val (atoi s.tokenString))) fun t =>
          some (Except.ok (t, match_ TokenType.NUM s))
    | TokenType.ID =>
      andThen (storeAttr (newExpNode ExpKind.IdK s) (Attr.name s.tokenString)) fun t =>
        some (Except.ok (t, match_ TokenType.ID s))
    | TokenType.LPAREN =>
      call (exp fuel (match_ TokenType.LPAREN s)) fun t s2 =>
        some (Except.ok (t, match_ TokenType.RPAREN s2))
    | _ =>
      some (Except.ok (TreeNode.NULL,
        advance (printToken (syntaxError "unexpected token -> " s))))

end

end Checked

/-! # Theorems -/

/-! ## More fuel does not change a result -/

theorem Stable.le {α : Type} {f : Nat → PState → Option (α × PState)} (hf : Stable f)
    {n m : Nat} {s : PState} {r : α × PState} (h : f n s = some r) (hnm : n ≤ m) :
    f m s = some r := by
  induction hnm with
  | refl => exact h
  | step _ ih => rw [hf _ s (by simp [ih]), ih]

theorem Stable.returns {α : Type} {f : Nat → PState → Option (α × PState)} (hf : Stable f)
    {n : Nat} {s : PState} {r : α × PState} (h : f n s = some r) : Returns f s r :=
  ⟨n, fun _ hm => hf.le h hm⟩

theorem Returns.unique {α : Type} {f : Nat → PState → Option (α × PState)} {s : PState}
    {r r' : α × PState} (h : Returns f s r) (h' : Returns f s r') : r = r' := by
  obtain ⟨N, hN⟩ := h
  obtain ⟨N', hN'⟩ := h'
  have h1 := hN (max N N') (le_max_left _ _)
  have h2 := hN' (max N N') (le_max_right _ _)
  rw [h1] at h2
  exact Prod.ext_iff.mpr (Prod.ext_iff.mp (Option.some.inj h2))

theorem Returns.eq_of_le {α : Type} {f : Nat → PState → Option (α × PState)} {s : PState}
    {r : α × PState} (h : Returns f s r) : ∃ n, f n s = some r := by
  obtain ⟨N, hN⟩ := h
  exact ⟨N, hN N le_rfl⟩

theorem comma_loop_stable (n : Nat) :
    ∀ ids s, comma_loop n ids s ≠ none → comma_loop (n + 1) ids s = comma_loop n ids s := by
  induction n with
  | zero => simp [comma_loop]
  | succ n ih =>
    intro ids s h
    rw [comma_loop] at h
    conv_lhs => rw [comma_loop]
    conv_rhs => rw [comma_loop]
    try dsimp only at h ⊢
    repeat' split at h
    all_goals try simp only [*, ↓reduceIte]
    all_goals simp_all

theorem int_stmt_stable : Stable int_stmt := by
  intro n s h
  simp only [int_stmt] at h ⊢
  repeat' split at h
  all_goals try simp only [*, ↓reduceIte]
  all_goals simp_all [comma_loop_stable]

theorem bool_stmt_stable : Stable bool_stmt := by
  intro n s h
  simp only [bool_stmt] at h ⊢
  repeat' split at h
  all_goals try simp only [*, ↓reduceIte]
  all_goals simp_all [comma_loop_stable]

theorem string_stmt_stable : Stable string_stmt := by
  intro n s h
  simp only [string_stmt] at h ⊢
  repeat' split at h
  all_goals try simp only [*, ↓reduceIte]
  all_goals simp_all [comma_loop_stable]

theorem decl_stable : Stable decl := by
  intro n s h
  simp only [decl] at h ⊢
  split at h
  · simp_all [int_stmt_stable n s]
  · simp_all [bool_stmt_stable n s]
  · simp_all [string_stmt_stable n s]
  · simp_all

theorem declarations_loop_stable (n : Nat) :
    ∀ nodes s, declarations_loop n nodes s ≠ none →
      declarations_loop (n + 1) nodes s = declarations_loop n nodes s := by
  induction n with
  | zero => simp [declarations_loop]
  | succ n ih =>
    intro nodes s h
    rw [declarations_loop] at h
    conv_lhs => rw [declarations_loop]
    conv_rhs => rw [declarations_loop]
    try dsimp only at h ⊢
    have hd := decl_stable n
    repeat' split at h
    all_goals try simp only [*, ↓reduceIte]
    all_goals simp_all

theorem declarations_stable : Stable declarations := by
  intro n s h
  simp only [declarations] at h ⊢
  have hd := decl_stable n
  have hl := declarations_loop_stable n
  repeat' split at h
  all_goals simp_all

theorem exp_block_stable (n : Nat) :
    (∀ s, exp n s ≠ none → exp (n + 1) s = exp n s) ∧
    (∀ s, simple_exp n s ≠ none → simple_exp (n + 1) s = simple_exp n s) ∧
    (∀ t s, simple_exp_loop n t s ≠ none →
      simple_exp_loop (n + 1) t s = simple_exp_loop n t s) ∧
    (∀ s, term n s ≠ none → term (n + 1) s = term n s) ∧
    (∀ t s, term_loop n t s ≠ none → term_loop (n + 1) t s = term_loop n t s) ∧
    (∀ s, factor n s ≠ none → factor (n + 1) s = factor n s) := by
  induction n with
  | zero => simp [exp, simple_exp, simple_exp_loop, term, term_loop, factor]
  | succ n ih =>
    obtain ⟨h1, h2, h3, h4, h5, h6⟩ := ih
    refine ⟨?_, ?_, ?_, ?_, ?_, ?_⟩
    · intro s h
      rw [exp] at h
      conv_lhs => rw [exp]
      conv_rhs => rw [exp]
      try dsimp only at h ⊢
      repeat' split at h
      all_goals try simp only [*, ↓reduceIte]
      all_goals simp_all
    · intro s h
      rw [simple_exp] at h
      conv_lhs => rw [simple_exp]
      conv_rhs => rw [simple_exp]
      try dsimp only at h ⊢
      repeat' split at h
      all_goals simp_all
    · intro t s h
      rw [simple_exp_loop] at h
      conv_lhs => rw [simple_exp_loop]
      conv_rhs => rw [simple_exp_loop]
      try dsimp only at h ⊢
      repeat' split at h
      all_goals try simp only [*, ↓reduceIte]
      all_goals simp_all
    · intro s h
      rw [term] at h
      conv_lhs => rw [term]
      conv_rhs => rw [term]
      try dsimp only at h ⊢
      repeat' split at h
      all_goals simp_all
    · intro t s h
      rw [term_loop] at h
      conv_lhs => rw [term_loop]
      conv_rhs => rw [term_loop]
      try dsimp only at h ⊢
      repeat' split at h
      all_goals try simp only [*, ↓reduceIte]
      all_goals simp_all
    · intro s h
      rw [factor] at h
      conv_lhs => rw [factor]
      conv_rhs => rw [factor]
      try dsimp only at h ⊢
      repeat' split at h
      all_goals try simp only [*, ↓reduceIte]
      all_goals simp_all

theorem exp_stable : Stable exp := fun n => (exp_block_stable n).1

theorem simple_exp_stable : Stable simple_exp := fun n => (exp_block_stable n).2.1

theorem simple_exp_loop_stable (t : TreeNode) : Stable (fun n => simple_exp_loop n t) :=
  fun n => (exp_block_stable n).2.2.1 t

theorem term_stable : Stable term := fun n => (exp_block_stable n).2.2.2.1

theorem term_loop_stable (t : TreeNode) : Stable (fun n => term_loop n t) :=
  fun n => (exp_block_stable n).2.2.2.2.1 t

theorem factor_stable : Stable factor := fun n => (exp_block_stable n).2.2.2.2.2

theorem write_stmt_stable : Stable write_stmt := by
  intro n s h
  simp only [write_stmt] at h ⊢
  have he := exp_stable n
  repeat' split at h
  all_goals simp_all

theorem assign_stmt_stable : Stable assign_stmt := by
  intro n s h
  simp only [assign_stmt] at h ⊢
  have he := exp_stable n
  repeat' split at h
  all_goals try simp only [*, ↓reduceIte]
  all_goals simp_all

theorem stmt_block_stable (n : Nat) :
    (∀ s, stmt_sequence n s ≠ none → stmt_sequence (n + 1) s = stmt_sequence n s) ∧
    (∀ nodes s, stmt_sequence_loop n nodes s ≠ none →
      stmt_sequence_loop (n + 1) nodes s = stmt_sequence_loop n nodes s) ∧
    (∀ s, statement n s ≠ none → statement (n + 1) s = statement n s) ∧
    (∀ s, if_stmt n s ≠ none → if_stmt (n + 1) s = if_stmt n s) ∧
    (∀ s, repeat_stmt n s ≠ none → repeat_stmt (n + 1) s = repeat_stmt n s) ∧
    (∀ s, while_stmt n s ≠ none → while_stmt (n + 1) s = while_stmt n s) := by
  induction n with
  | zero => simp [stmt_sequence, stmt_sequence_loop, statement, if_stmt, repeat_stmt, while_stmt]
  | succ n ih =>
    obtain ⟨h1, h2, h3, h4, h5, h6⟩ := ih
    have he := exp_stable n
    have hw := write_stmt_stable n
    have ha := assign_stmt_stable n
    refine ⟨?_, ?_, ?_, ?_, ?_, ?_⟩
    · intro s h
      rw [stmt_sequence] at h
      conv_lhs => rw [stmt_sequence]
      conv_rhs => rw [stmt_sequence]
      try dsimp only at h ⊢
      repeat' split at h
      all_goals simp_all
    · intro nodes s h
      rw [stmt_sequence_loop] at h
      conv_lhs => rw [stmt_sequence_loop]
      conv_rhs => rw [stmt_sequence_loop]
      try dsimp only at h ⊢
      repeat' split at h
      all_goals try simp only [*, ↓reduceIte]
      all_goals simp_all
    · intro s h
      rw [statement] at h
      conv_lhs => rw [statement]
      conv_rhs => rw [statement]
      try dsimp only at h ⊢
      repeat' split at h
      all_goals try simp only [*, ↓reduceIte]
      all_goals simp_all
    · intro s h
      rw [if_stmt] at h
      conv_lhs => rw [if_stmt]
      conv_rhs => rw [if_stmt]
      try dsimp only at h ⊢
      repeat' split at h
      all_goals try simp only [*, ↓reduceIte]
      all_goals simp_all
    · intro s h
      rw [repeat_stmt] at h
      conv_lhs => rw [repeat_stmt]
      conv_rhs => rw [repeat_stmt]
      try dsimp only at h ⊢
      repeat' split at h
      all_goals simp_all
    · intro s h
      rw [while_stmt] at h
      conv_lhs => rw [while_stmt]
      conv_rhs => rw [while_stmt]
      try dsimp only at h ⊢
      repeat' split at h
      all_goals simp_all

theorem stmt_sequence_stable : Stable stmt_sequence := fun n => (stmt_block_stable n).1

theorem stmt_sequence_loop_stable (nodes : List TreeNode) :
    Stable (fun n => stmt_sequence_loop n nodes) :=
  fun n => (stmt_block_stable n).2.1 nodes

theorem statement_stable : Stable statement := fun n => (stmt_block_stable n).2.2.1

theorem if_stmt_stable : Stable if_stmt := fun n => (stmt_block_stable n).2.2.2.1

theorem repeat_stmt_stable : Stable repeat_stmt := fun n => (stmt_block_stable n).2.2.2.2.1

theorem while_stmt_stable : Stable while_stmt := fun n => (stmt_block_stable n).2.2.2.2.2

theorem program_stable : Stable program := by
  intro n s h
  simp only [program] at h ⊢
  have hd := declarations_stable n
  have hs := stmt_sequence_stable n
  repeat' split at h
  all_goals simp_all

theorem parse_stable : Stable parse := by
  intro n s h
  simp only [parse] at h ⊢
  have hp := program_stable n
  repeat' split at h
  all_goals try simp only [*, ↓reduceIte]
  all_goals simp_all

/-! ## Every rule changes the state by the primitive steps only -/

theorem Steps.matched {s a : PState} (e : TokenType) (h : Steps s a) :
    Steps s (match_ e a) := by
  unfold match_
  split
  · exact h.adv
  · exact (((h.err _).prt).txt _)

theorem Steps.skipped {s a : PState} (h : Steps s a) :
    Steps s (advance (printToken (syntaxError "unexpected token -> " a))) :=
  ((h.err _).prt).adv

theorem comma_loop_steps (n : Nat) :
    ∀ (s0 : PState) ids s r b, comma_loop n ids s = some (r, b) → Steps s0 s → Steps s0 b := by
  induction n with
  | zero => simp [comma_loop]
  | succ n ih =>
    intro s0 ids s r b h hs
    rw [comma_loop] at h
    try dsimp only at h
    repeat' split at h
    all_goals try cases h
    all_goals repeat (
      first
      | exact hs
      | apply Steps.matched
      | apply Steps.skipped
      | refine ih _ _ _ _ _ ‹_› ?_)

theorem int_stmt_steps {n : Nat} {s0 s b : PState} {t : TreeNode}
    (h : int_stmt n s = some (t, b)) (hs : Steps s0 s) : Steps s0 b := by
  simp only [int_stmt] at h
  repeat' split at h
  all_goals try cases h
  all_goals repeat (
    first
    | exact hs
    | apply Steps.matched
    | apply Steps.skipped
    | refine comma_loop_steps _ _ _ _ _ _ ‹_› ?_)

theorem bool_stmt_steps {n : Nat} {s0 s b : PState} {t : TreeNode}
    (h : bool_stmt n s = some (t, b)) (hs : Steps s0 s) : Steps s0 b := by
  simp only [bool_stmt] at h
  repeat' split at h
  all_goals try cases h
  all_goals repeat (
    first
    | exact hs
    | apply Steps.matched
    | apply Steps.skipped
    | refine comma_loop_steps _ _ _ _ _ _ ‹_› ?_)

theorem string_stmt_steps {n : Nat} {s0 s b : PState} {t : TreeNode}
    (h : string_stmt n s = some (t, b)) (hs : Steps s0 s) : Steps s0 b := by
  simp only [string_stmt] at h
  repeat' split at h
  all_goals try cases h
  all_goals repeat (
    first
    | exact hs
    | apply Steps.matched
    | apply Steps.skipped
    | refine comma_loop_steps _ _ _ _ _ _ ‹_› ?_)

theorem decl_steps {n : Nat} {s0 s b : PState} {t : TreeNode}
    (h : decl n s = some (t, b)) (hs : Steps s0 s) : Steps s0 b := by
  simp only [decl] at h
  repeat' split at h
  all_goals try cases h
  all_goals repeat (
    first
    | exact hs
    | apply Steps.matched
    | apply Steps.skipped
    | refine int_stmt_steps ‹_› ?_
    | refine bool_stmt_steps ‹_› ?_
    | refine string_stmt_steps ‹_› ?_)

theorem declarations_loop_steps (n : Nat) :
    ∀ (s0 : PState) nodes s r b, declarations_loop n nodes s = some (r, b) → Steps s0 s →
      Steps s0 b := by
  induction n with
  | zero => simp [declarations_loop]
  | succ n ih =>
    intro s0 nodes s r b h hs
    rw [declarations_loop] at h
    try dsimp only at h
    repeat' split at h
    all_goals try cases h
    all_goals repeat (
      first
      | exact hs
      | apply Steps.matched
      | apply Steps.skipped
      | refine ih _ _ _ _ _ ‹_› ?_
      | refine decl_steps ‹_› ?_)

theorem declarations_steps {n : Nat} {s0 s b : PState} {t : TreeNode}
    (h : declarations n s = some (t, b)) (hs : Steps s0 s) : Steps s0 b := by
  simp only [declarations] at h
  repeat' split at h
  all_goals try cases h
  all_goals repeat (
    first
    | exact hs
    | apply Steps.matched
    | apply Steps.skipped
    | refine declarations_loop_steps _ _ _ _ _ _ ‹_› ?_
    | refine decl_steps ‹_› ?_)

theorem exp_block_steps (n : Nat) :
    (∀ (s0 : PState) s r b, exp n s = some (r, b) → Steps s0 s → Steps s0 b) ∧
    (∀ (s0 : PState) s r b, simple_exp n s = some (r, b) → Steps s0 s → Steps s0 b) ∧
    (∀ (s0 : PState) t s r b, simple_exp_loop n t s = some (r, b) → Steps s0 s → Steps s0 b) ∧
    (∀ (s0 : PState) s r b, term n s = some (r, b) → Steps s0 s → Steps s0 b) ∧
    (∀ (s0 : PState) t s r b, term_loop n t s = some (r, b) → Steps s0 s → Steps s0 b) ∧
    (∀ (s0 : PState) s r b, factor n s = some (r, b) → Steps s0 s → Steps s0 b) := by
  induction n with
  | zero => simp [exp, simple_exp, simple_exp_loop, term, term_loop, factor]
  | succ n ih =>
    obtain ⟨h1, h2, h3, h4, h5, h6⟩ := ih
    refine ⟨?_, ?_, ?_, ?_, ?_, ?_⟩
    · intro s0 s r b h hs
      rw [exp] at h
      try dsimp only at h
      repeat' split at h
      all_goals try cases h
      all_goals repeat (
        first
        | exact hs
        | apply Steps.matched
        | apply Steps.skipped
        | refine h1 _ _ _ _ ‹_› ?_
        | refine h2 _ _ _ _ ‹_› ?_
        | refine h3 _ _ _ _ _ ‹_› ?_
        | refine h4 _ _ _ _ ‹_› ?_
        | refine h5 _ _ _ _ _ ‹_› ?_
        | refine h6 _ _ _ _ ‹_› ?_)
    · intro s0 s r b h hs
      rw [simple_exp] at h
      try dsimp only at h
      repeat' split at h
      all_goals try cases h
      all_goals repeat (
        first
        | exact hs
        | apply Steps.matched
        | apply Steps.skipped
        | refine h1 _ _ _ _ ‹_› ?_
        | refine h2 _ _ _ _ ‹_› ?_
        | refine h3 _ _ _ _ _ ‹_› ?_
        | refine h4 _ _ _ _ ‹_› ?_
        | refine h5 _ _ _ _ _ ‹_› ?_
        | refine h6 _ _ _ _ ‹_› ?_)
    · intro s0 t s r b h hs
      rw [simple_exp_loop] at h
      try dsimp only at h
      repeat' split at h
      all_goals try cases h
      all_goals repeat (
        first
        | exact hs
        | apply Steps.matched
        | apply Steps.skipped
        | refine h1 _ _ _ _ ‹_› ?_
        | refine h2 _ _ _ _ ‹_› ?_
        | refine h3 _ _ _ _ _ ‹_› ?_
        | refine h4 _ _ _ _ ‹_› ?_
        | refine h5 _ _ _ _ _ ‹_› ?_
        | refine h6 _ _ _ _ ‹_› ?_)
    · intro s0 s r b h hs
      rw [term] at h
      try dsimp only at h
      repeat' split at h
      all_goals try cases h
      all_goals repeat (
        first
        | exact hs
        | apply Steps.matched
        | apply Steps.skipped
        | refine h1 _ _ _ _ ‹_› ?_
        | refine h2 _ _ _ _ ‹_› ?_
        | refine h3 _ _ _ _ _ ‹_› ?_
        | refine h4 _ _ _ _ ‹_› ?_
        | refine h5 _ _ _ _ _ ‹_› ?_
        | refine h6 _ _ _ _ ‹_› ?_)
    · intro s0 t s r b h hs
      rw [term_loop] at h
      try dsimp only at h
      repeat' split at h
      all_goals try cases h
      all_goals repeat (
        first
        | exact hs
        | apply Steps.matched
        | apply Steps.skipped
        | refine h1 _ _ _ _ ‹_› ?_
        | refine h2 _ _ _ _ ‹_› ?_
        | refine h3 _ _ _ _ _ ‹_› ?_
        | refine h4 _ _ _ _ ‹_› ?_
        | refine h5 _ _ _ _ _ ‹_› ?_
        | refine h6 _ _ _ _ ‹_› ?_)
    · intro s0 s r b h hs
      rw [factor] at h
      try dsimp only at h
      repeat' split at h
      all_goals try cases h
      all_goals repeat (
        first
        | exact hs
        | apply Steps.matched
        | apply Steps.skipped
        | refine h1 _ _ _ _ ‹_› ?_
        | refine h2 _ _ _ _ ‹_› ?_
        | refine h3 _ _ _ _ _ ‹_› ?_
        | refine h4 _ _ _ _ ‹_› ?_
        | refine h5 _ _ _ _ _ ‹_› ?_
        | refine h6 _ _ _ _ ‹_› ?_)

theorem exp_steps {n : Nat} {s0 s b : PState} {t : TreeNode}
    (h : exp n s = some (t, b)) (hs : Steps s0 s) : Steps s0 b :=
  (exp_block_steps n).1 _ _ _ _ h hs

theorem simple_exp_steps {n : Nat} {s0 s b : PState} {t : TreeNode}
    (h : simple_exp n s = some (t, b)) (hs : Steps s0 s) : Steps s0 b :=
  (exp_block_steps n).2.1 _ _ _ _ h hs

theorem simple_exp_loop_steps {n : Nat} {s0 s b : PState} {t r : TreeNode}
    (h : simple_exp_loop n t s = some (r, b)) (hs : Steps s0 s) : Steps s0 b :=
  (exp_block_steps n).2.2.1 _ _ _ _ _ h hs

theorem term_steps {n : Nat} {s0 s b : PState} {t : TreeNode}
    (h : term n s = some (t, b)) (hs : Steps s0 s) : Steps s0 b :=
  (exp_block_steps n).2.2.2.1 _ _ _ _ h hs

theorem term_loop_steps {n : Nat} {s0 s b : PState} {t r : TreeNode}
    (h : term_loop n t s = some (r, b)) (hs : Steps s0 s) : Steps s0 b :=
  (exp_block_steps n).2.2.2.2.1 _ _ _ _ _ h hs

theorem factor_steps {n : Nat} {s0 s b : PState} {t : TreeNode}
    (h : factor n s = some (t, b)) (hs : Steps s0 s) : Steps s0 b :=
  (exp_block_steps n).2.2.2.2.2 _ _ _ _ h hs

theorem read_stmt_steps {s0 s : PState} (hs : Steps s0 s) : Steps s0 (read_stmt s).2 := by
  simp only [read_stmt]
  exact (hs.matched _).matched _

theorem write_stmt_steps {n : Nat} {s0 s b : PState} {t : TreeNode}
    (h : write_stmt n s = some (t, b)) (hs : Steps s0 s) : Steps s0 b := by
  simp only [write_stmt] at h
  repeat' split at h
  all_goals try cases h
  all_goals repeat (
    first
    | exact hs
    | apply Steps.matched
    | apply Steps.skipped
    | refine exp_steps ‹_› ?_)

theorem assign_stmt_steps {n : Nat} {s0 s b : PState} {t : TreeNode}
    (h : assign_stmt n s = some (t, b)) (hs : Steps s0 s) : Steps s0 b := by
  simp only [assign_stmt] at h
  repeat' split at h
  all_goals try cases h
  all_goals repeat (
    first
    | exact hs
    | apply Steps.matched
    | apply Steps.skipped
    | refine exp_steps ‹_› ?_)

theorem stmt_block_steps (n : Nat) :
    (∀ (s0 : PState) s r b, stmt_sequence n s = some (r, b) → Steps s0 s → Steps s0 b) ∧
    (∀ (s0 : PState) nodes s r b, stmt_sequence_loop n nodes s = some (r, b) → Steps s0 s →
      Steps s0 b) ∧
    (∀ (s0 : PState) s r b, statement n s = some (r, b) → Steps s0 s → Steps s0 b) ∧
    (∀ (s0 : PState) s r b, if_stmt n s = some (r, b) → Steps s0 s → Steps s0 b) ∧
    (∀ (s0 : PState) s r b, repeat_stmt n s = some (r, b) → Steps s0 s → Steps s0 b) ∧
    (∀ (s0 : PState) s r b, while_stmt n s = some (r, b) → Steps s0 s → Steps s0 b) := by
  induction n with
  | zero => simp [stmt_sequence, stmt_sequence_loop, statement, if_stmt, repeat_stmt, while_stmt]
  | succ n ih =>
    obtain ⟨h1, h2, h3, h4, h5, h6⟩ := ih
    refine ⟨?_, ?_, ?_, ?_, ?_, ?_⟩
    · intro s0 s r b h hs
      rw [stmt_sequence] at h
      try dsimp only at h
      repeat' split at h
      all_goals try cases h
      all_goals repeat (
        first
        | exact hs
        | apply Steps.matched
        | apply Steps.skipped
        | refine h1 _ _ _ _ ‹_› ?_
        | refine h2 _ _ _ _ _ ‹_› ?_
        | refine h3 _ _ _ _ ‹_› ?_
        | refine h4 _ _ _ _ ‹_› ?_
        | refine h5 _ _ _ _ ‹_› ?_
        | refine h6 _ _ _ _ ‹_› ?_
        | refine exp_steps ‹_› ?_
        | refine write_stmt_steps ‹_› ?_
        | refine assign_stmt_steps ‹_› ?_
        | exact read_stmt_steps hs)
    · intro s0 nodes s r b h hs
      rw [stmt_sequence_loop] at h
      try dsimp only at h
      repeat' split at h
      all_goals try cases h
      all_goals repeat (
        first
        | exact hs
        | apply Steps.matched
        | apply Steps.skipped
        | refine h1 _ _ _ _ ‹_› ?_
        | refine h2 _ _ _ _ _ ‹_› ?_
        | refine h3 _ _ _ _ ‹_› ?_
        | refine h4 _ _ _ _ ‹_› ?_
        | refine h5 _ _ _ _ ‹_› ?_
        | refine h6 _ _ _ _ ‹_› ?_
        | refine exp_steps ‹_› ?_
        | refine write_stmt_steps ‹_› ?_
        | refine assign_stmt_steps ‹_› ?_
        | exact read_stmt_steps hs)
    · intro s0 s r b h hs
      rw [statement] at h
      try dsimp only at h
      repeat' split at h
      all_goals try cases h
      all_goals repeat (
        first
        | exact hs
        | apply Steps.matched
        | apply Steps.skipped
        | refine h1 _ _ _ _ ‹_› ?_
        | refine h2 _ _ _ _ _ ‹_› ?_
        | refine h3 _ _ _ _ ‹_› ?_
        | refine h4 _ _ _ _ ‹_› ?_
        | refine h5 _ _ _ _ ‹_› ?_
        | refine h6 _ _ _ _ ‹_› ?_
        | refine exp_steps ‹_› ?_
        | refine write_stmt_steps ‹_› ?_
        | refine assign_stmt_steps ‹_› ?_
        | exact read_stmt_steps hs)
    · intro s0 s r b h hs
      rw [if_stmt] at h
      try dsimp only at h
      repeat' split at h
      all_goals try cases h
      all_goals repeat (
        first
        | exact hs
        | apply Steps.matched
        | apply Steps.skipped
        | refine h1 _ _ _ _ ‹_› ?_
        | refine h2 _ _ _ _ _ ‹_› ?_
        | refine h3 _ _ _ _ ‹_› ?_
        | refine h4 _ _ _ _ ‹_› ?_
        | refine h5 _ _ _ _ ‹_› ?_
        | refine h6 _ _ _ _ ‹_› ?_
        | refine exp_steps ‹_› ?_
        | refine write_stmt_steps ‹_› ?_
        | refine assign_stmt_steps ‹_› ?_
        | exact read_stmt_steps hs)
    · intro s0 s r b h hs
      rw [repeat_stmt] at h
      try dsimp only at h
      repeat' split at h
      all_goals try cases h
      all_goals repeat (
        first
        | exact hs
        | apply Steps.matched
        | apply Steps.skipped
        | refine h1 _ _ _ _ ‹_› ?_
        | refine h2 _ _ _ _ _ ‹_› ?_
        | refine h3 _ _ _ _ ‹_› ?_
        | refine h4 _ _ _ _ ‹_› ?_
        | refine h5 _ _ _ _ ‹_› ?_
        | refine h6 _ _ _ _ ‹_› ?_
        | refine exp_steps ‹_› ?_
        | refine write_stmt_steps ‹_› ?_
        | refine assign_stmt_steps ‹_› ?_
        | exact read_stmt_steps hs)
    · intro s0 s r b h hs
      rw [while_stmt] at h
      try dsimp only at h
      repeat' split at h
      all_goals try cases h
      all_goals repeat (
        first
        | exact hs
        | apply Steps.matched
        | apply Steps.skipped
        | refine h1 _ _ _ _ ‹_› ?_
        | refine h2 _ _ _ _ _ ‹_› ?_
        | refine h3 _ _ _ _ ‹_› ?_
        | refine h4 _ _ _ _ ‹_› ?_
        | refine h5 _ _ _ _ ‹_› ?_
        | refine h6 _ _ _ _ ‹_› ?_
        | refine exp_steps ‹_› ?_
        | refine write_stmt_steps ‹_› ?_
        | refine assign_stmt_steps ‹_› ?_
        | exact read_stmt_steps hs)

theorem stmt_sequence_steps {n : Nat} {s0 s b : PState} {t : TreeNode}
    (h : stmt_sequence n s = some (t, b)) (hs : Steps s0 s) : Steps s0 b :=
  (stmt_block_steps n).1 _ _ _ _ h hs

theorem stmt_sequence_loop_steps {n : Nat} {s0 s b : PState} {nodes r : List TreeNode}
    (h : stmt_sequence_loop n nodes s = some (r, b)) (hs : Steps s0 s) : Steps s0 b :=
  (stmt_block_steps n).2.1 _ _ _ _ _ h hs

theorem statement_steps {n : Nat} {s0 s b : PState} {t : TreeNode}
    (h : statement n s = some (t, b)) (hs : Steps s0 s) : Steps s0 b :=
  (stmt_block_steps n).2.2.1 _ _ _ _ h hs

theorem if_stmt_steps {n : Nat} {s0 s b : PState} {t : TreeNode}
    (h : if_stmt n s = some (t, b)) (hs : Steps s0 s) : Steps s0 b :=
  (stmt_block_steps n).2.2.2.1 _ _ _ _ h hs

theorem repeat_stmt_steps {n : Nat} {s0 s b : PState} {t : TreeNode}
    (h : repeat_stmt n s = some (t, b)) (hs : Steps s0 s) : Steps s0 b :=
  (stmt_block_steps n).2.2.2.2.1 _ _ _ _ h hs

theorem while_stmt_steps {n : Nat} {s0 s b : PState} {t : TreeNode}
    (h : while_stmt n s = some (t, b)) (hs : Steps s0 s) : Steps s0 b :=
  (stmt_block_steps n).2.2.2.2.2 _ _ _ _ h hs

theorem program_steps {n : Nat} {s0 s b : PState} {t : TreeNode}
    (h : program n s = some (t, b)) (hs : Steps s0 s) : Steps s0 b := by
  simp only [program] at h
  repeat' split at h
  all_goals try cases h
  all_goals repeat (
    first
    | exact hs
    | apply Steps.matched
    | apply Steps.skipped
    | refine stmt_sequence_steps ‹_› ?_
    | refine declarations_steps ‹_› ?_)

theorem parse_steps {n : Nat} {s0 s b : PState} {t : TreeNode}
    (h : parse n s = some (t, b)) (hs : Steps s0 s) : Steps s0 b := by
  simp only [parse] at h
  repeat' split at h
  all_goals try cases h
  all_goals repeat (
    first
    | exact hs
    | apply Steps.matched
    | apply Steps.skipped
    | apply Steps.err
    | apply Steps.adv
    | refine program_steps ‹_› ?_)

/-! ## What the primitive steps preserve -/

theorem Steps.error_mono {a b : PState} (h : Steps a b) (ha : a.Error = true) :
    b.Error = true := by
  induction h with
  | refl => exact ha
  | adv _ ih => simpa [advance, getToken] using (by split <;> exact ih)
  | err m _ ih => simp [syntaxError]
  | prt _ ih => simpa [printToken] using ih
  | txt x _ ih => simpa [fprintf] using ih

theorem remaining_advance_le (s : PState) : remaining (advance s) ≤ remaining s := by
  unfold remaining advance getToken
  cases hi : s.input with
  | nil => simp
  | cons tk rest =>
    simp only [List.length_cons]
    split <;> split <;> omega

theorem remaining_advance_lt (s : PState) (h : s.token ≠ TokenType.ENDFILE) :
    remaining (advance s) < remaining s := by
  unfold remaining advance getToken
  cases hi : s.input with
  | nil => simp [h]
  | cons tk rest =>
    simp only [List.length_cons, h, if_false]
    split <;> omega

theorem Steps.remaining_le {a b : PState} (h : Steps a b) : remaining b ≤ remaining a := by
  induction h with
  | refl => exact le_rfl
  | adv _ ih => exact le_trans (remaining_advance_le _) ih
  | err m _ ih => simpa [syntaxError, remaining] using ih
  | prt _ ih => simpa [printToken, remaining] using ih
  | txt x _ ih => simpa [fprintf, remaining] using ih

theorem match_eq_advance {e : TokenType} {s : PState} (h : s.token = e) :
    match_ e s = advance s := by
  simp [match_, h]

theorem remaining_match_le (e : TokenType) (s : PState) :
    remaining (match_ e s) ≤ remaining s :=
  ((Steps.refl s).matched e).remaining_le

theorem remaining_match_lt {e : TokenType} {s : PState} (h : s.token = e)
    (he : e ≠ TokenType.ENDFILE) : remaining (match_ e s) < remaining s := by
  rw [match_eq_advance h]
  exact remaining_advance_lt s (by rw [h]; exact he)

theorem remaining_unexpected_lt (s : PState) (h : s.token ≠ TokenType.ENDFILE) :
    remaining (advance (printToken (syntaxError "unexpected token -> " s))) < remaining s := by
  have h1 := remaining_advance_lt (printToken (syntaxError "unexpected token -> " s))
    (by simpa [printToken, syntaxError] using h)
  simpa [printToken, syntaxError, remaining] using h1

/-! ## Every rule comes to an end -/

theorem Stable.isSome_le {α : Type} {f : Nat → PState → Option (α × PState)} (hf : Stable f)
    {n m : Nat} {s : PState} (h : (f n s).isSome = true) (hnm : n ≤ m) :
    (f m s).isSome = true := by
  obtain ⟨r, hr⟩ := Option.isSome_iff_exists.mp h
  rw [hf.le hr hnm]
  rfl

theorem Halts.result {α : Type} {f : Nat → PState → Option (α × PState)} (hf : Stable f)
    {s : PState} (h : Halts f s) : ∃ r, Returns f s r := by
  obtain ⟨n, hn⟩ := h
  obtain ⟨r, hr⟩ := Option.isSome_iff_exists.mp hn
  exact ⟨r, hf.returns hr⟩

theorem factor_halts_of {s : PState}
    (H : ∀ a, remaining a < remaining s → Halts exp a) : Halts factor s := by
  by_cases hL : s.token = TokenType.LPAREN
  · obtain ⟨n, hn⟩ := H (match_ TokenType.LPAREN s) (remaining_match_lt hL (by decide))
    obtain ⟨⟨t, s2⟩, hr⟩ := Option.isSome_iff_exists.mp hn
    exact ⟨n + 1, by rw [factor]; simp [hL, hr]⟩
  · refine ⟨1, ?_⟩
    rw [factor]
    split <;> simp_all

theorem binop_loop_halts {operand : Nat → PState → Option (TreeNode × PState)}
    {loop : Nat → TreeNode → PState → Option (TreeNode × PState)} (isOp : PState → Prop)
    [DecidablePred isOp] {s : PState} {t : TreeNode}
    (hop : ∀ a, isOp a → a.token ≠ TokenType.ENDFILE)
    (hso : Stable operand) (hsl : ∀ t, Stable (fun n => loop n t))
    (hst : ∀ n a r b, operand n a = some (r, b) → Steps a b)
    (hdef : ∀ n t a, loop (n + 1) t a =
      if isOp a then
        match operand n (match_ a.token a) with
        | none => none
        | some (r, s2) => loop n ((opNode t a).setChild 1 r) s2
      else some (t, a))
    (F : ∀ a, remaining a < remaining s → Halts operand a)
    (L : ∀ a, remaining a < remaining s → ∀ t, Halts (fun n => loop n t) a) :
    Halts (fun n => loop n t) s := by
  by_cases h : isOp s
  · have hlt : remaining (match_ s.token s) < remaining s :=
      remaining_match_lt rfl (hop s h)
    obtain ⟨n1, h1⟩ := F (match_ s.token s) hlt
    obtain ⟨⟨r, s2⟩, e1⟩ := Option.isSome_iff_exists.mp h1
    have hle := (hst _ _ _ _ e1).remaining_le
    obtain ⟨n2, h2⟩ := L s2 (by omega) ((opNode t s).setChild 1 r)
    refine ⟨max n1 n2 + 1, ?_⟩
    show (loop (max n1 n2 + 1) t s).isSome = true
    rw [hdef]
    simp only [h, if_true, hso.le e1 (le_max_left n1 n2)]
    exact (hsl _).isSome_le h2 (le_max_right n1 n2)
  · exact ⟨1, by show (loop 1 t s).isSome = true; rw [hdef]; simp [h]⟩

theorem operand_loop_halts {operand : Nat → PState → Option (TreeNode × PState)}
    {loop : Nat → TreeNode → PState → Option (TreeNode × PState)}
    {rule : Nat → PState → Option (TreeNode × PState)} {s : PState}
    (hso : Stable operand) (hsl : ∀ t, Stable (fun n => loop n t))
    (hst : ∀ n a r b, operand n a = some (r, b) → Steps a b)
    (hdef : ∀ n a, rule (n + 1) a =
      match operand n a with
      | none => none
      | some (t, s1) => loop n t s1)
    (F : Halts operand s)
    (L : ∀ a, remaining a ≤ remaining s → ∀ t, Halts (fun n => loop n t) a) :
    Halts rule s := by
  obtain ⟨n1, h1⟩ := F
  obtain ⟨⟨t, s1⟩, e1⟩ := Option.isSome_iff_exists.mp h1
  have hle := (hst _ _ _ _ e1).remaining_le
  obtain ⟨n2, h2⟩ := L s1 hle t
  refine ⟨max n1 n2 + 1, ?_⟩
  rw [hdef]
  simp only [hso.le e1 (le_max_left n1 n2)]
  exact (hsl _).isSome_le h2 (le_max_right n1 n2)

theorem exp_halts_of {s : PState}
    (S : ∀ a, remaining a ≤ remaining s → Halts simple_exp a) : Halts exp s := by
  obtain ⟨n1, h1⟩ := S s le_rfl
  obtain ⟨⟨t, s1⟩, e1⟩ := Option.isSome_iff_exists.mp h1
  have hle := (simple_exp_steps e1 (Steps.refl _)).remaining_le
  by_cases hop : s1.token = TokenType.LT ∨ s1.token = TokenType.EQ ∨ s1.token = TokenType.LTE
      ∨ s1.token = TokenType.GT ∨ s1.token = TokenType.GTE
  · obtain ⟨n2, h2⟩ := S (match_ s1.token s1) (le_trans (remaining_match_le _ _) hle)
    obtain ⟨⟨r, s3⟩, e2⟩ := Option.isSome_iff_exists.mp h2
    refine ⟨max n1 n2 + 1, ?_⟩
    rw [exp]
    simp only [simple_exp_stable.le e1 (le_max_left n1 n2), hop, if_true,
      simple_exp_stable.le e2 (le_max_right n1 n2)]
    rfl
  · refine ⟨n1 + 1, ?_⟩
    rw [exp]
    simp only [e1, hop, if_false]
    rfl

theorem exp_block_halts (m : Nat) : ∀ s, remaining s < m →
    Halts exp s ∧ Halts simple_exp s ∧ (∀ t, Halts (fun n => simple_exp_loop n t) s) ∧
    Halts term s ∧ (∀ t, Halts (fun n => term_loop n t) s) ∧ Halts factor s := by
  induction m with
  | zero => intro s h; omega
  | succ m ih =>
    have F : ∀ a, remaining a < m + 1 → Halts factor a := fun a ha =>
      factor_halts_of (fun b hb => (ih b (by omega)).1)
    have TL : ∀ a, remaining a < m + 1 → ∀ t, Halts (fun n => term_loop n t) a :=
      fun a ha t => binop_loop_halts
        (fun a => a.token = TokenType.TIMES ∨ a.token = TokenType.OVER)
        (fun a h => by rcases h with h | h <;> rw [h] <;> decide)
        factor_stable term_loop_stable (fun n a r b h => factor_steps h (Steps.refl _))
        (fun n t a => by rw [term_loop])
        (fun b hb => (ih b (by omega)).2.2.2.2.2) (fun b hb => (ih b (by omega)).2.2.2.2.1)
    have T : ∀ a, remaining a < m + 1 → Halts term a := fun a ha =>
      operand_loop_halts factor_stable term_loop_stable
        (fun n a r b h => factor_steps h (Steps.refl _)) (fun n a => by rw [term])
        (F a ha) (fun b hb => TL b (by omega))
    have SL : ∀ a, remaining a < m + 1 → ∀ t, Halts (fun n => simple_exp_loop n t) a :=
      fun a ha t => binop_loop_halts
        (fun a => a.token = TokenType.PLUS ∨ a.token = TokenType.MINUS)
        (fun a h => by rcases h with h | h <;> rw [h] <;> decide)
        term_stable simple_exp_loop_stable (fun n a r b h => term_steps h (Steps.refl _))
        (fun n t a => by rw [simple_exp_loop])
        (fun b hb => (ih b (by omega)).2.2.2.1) (fun b hb => (ih b (by omega)).2.2.1)
    have S : ∀ a, remaining a < m + 1 → Halts simple_exp a := fun a ha =>
      operand_loop_halts term_stable simple_exp_loop_stable
        (fun n a r b h => term_steps h (Steps.refl _)) (fun n a => by rw [simple_exp])
        (T a ha) (fun b hb => SL b (by omega))
    intro s hs
    exact ⟨exp_halts_of (fun a ha => S a (by omega)), S s hs, SL s hs, T s hs, TL s hs, F s hs⟩

theorem exp_halts (s : PState) : Halts exp s :=
  (exp_block_halts (remaining s + 1) s (Nat.lt_succ_self _)).1

theorem simple_exp_halts (s : PState) : Halts simple_exp s :=
  (exp_block_halts (remaining s + 1) s (Nat.lt_succ_self _)).2.1

theorem simple_exp_loop_halts (t : TreeNode) (s : PState) :
    Halts (fun n => simple_exp_loop n t) s :=
  (exp_block_halts (remaining s + 1) s (Nat.lt_succ_self _)).2.2.1 t

theorem term_halts (s : PState) : Halts term s :=
  (exp_block_halts (remaining s + 1) s (Nat.lt_succ_self _)).2.2.2.1

theorem term_loop_halts (t : TreeNode) (s : PState) : Halts (fun n => term_loop n t) s :=
  (exp_block_halts (remaining s + 1) s (Nat.lt_succ_self _)).2.2.2.2.1 t

theorem factor_halts (s : PState) : Halts factor s :=
  (exp_block_halts (remaining s + 1) s (Nat.lt_succ_self _)).2.2.2.2.2

/-! ### The statements and the declarations come to an end -/

theorem comma_loop_halts (m : Nat) :
    ∀ s, remaining s < m → ∀ ids, Halts (fun n => comma_loop n ids) s := by
  induction m with
  | zero => intro s h; omega
  | succ m ih =>
    intro s hs ids
    by_cases hc : s.token = TokenType.COMMA
    · have h1 : remaining (match_ TokenType.COMMA s) < remaining s :=
        remaining_match_lt hc (by decide)
      have h2 := remaining_match_le TokenType.ID (match_ TokenType.COMMA s)
      obtain ⟨n, hn⟩ := ih (match_ TokenType.ID (match_ TokenType.COMMA s)) (by omega)
        (link ids (if (match_ TokenType.COMMA s).token = TokenType.ID then
          (newExpNode ExpKind.IdK (match_ TokenType.COMMA s)).setAttr
            (Attr.name (match_ TokenType.COMMA s).tokenString)
          else newExpNode ExpKind.IdK (match_ TokenType.COMMA s)))
      refine ⟨n + 1, ?_⟩
      show (comma_loop (n + 1) ids s).isSome = true
      rw [comma_loop]
      simp only [hc, if_true]
      exact hn
    · exact ⟨1, by show (comma_loop 1 ids s).isSome = true; rw [comma_loop]; simp [hc]⟩

theorem comma_loop_stable_at (ids : List TreeNode) : Stable (fun n => comma_loop n ids) :=
  fun n => comma_loop_stable n ids

theorem int_stmt_halts (s : PState) : Halts int_stmt s := by
  obtain ⟨n, hn⟩ := comma_loop_halts _ (match_ TokenType.ID (match_ TokenType.INT s))
    (Nat.lt_succ_self _)
    [if (match_ TokenType.INT s).token = TokenType.ID then
      (newExpNode ExpKind.IdK (match_ TokenType.INT s)).setAttr
        (Attr.name (match_ TokenType.INT s).tokenString)
      else newExpNode ExpKind.IdK (match_ TokenType.INT s)]
  obtain ⟨⟨ids, s3⟩, hr⟩ := Option.isSome_iff_exists.mp hn
  exact ⟨n, by simp only [int_stmt]; simp only [] at hr; rw [hr]; rfl⟩

theorem bool_stmt_halts (s : PState) : Halts bool_stmt s := by
  obtain ⟨n, hn⟩ := comma_loop_halts _ (match_ TokenType.ID (match_ TokenType.BOOL s))
    (Nat.lt_succ_self _)
    [if (match_ TokenType.BOOL s).token = TokenType.ID then
      (newExpNode ExpKind.IdK (match_ TokenType.BOOL s)).setAttr
        (Attr.name (match_ TokenType.BOOL s).tokenString)
      else newExpNode ExpKind.IdK (match_ TokenType.BOOL s)]
  obtain ⟨⟨ids, s3⟩, hr⟩ := Option.isSome_iff_exists.mp hn
  exact ⟨n, by simp only [bool_stmt]; simp only [] at hr; rw [hr]; rfl⟩

theorem string_stmt_halts (s : PState) : Halts string_stmt s := by
  obtain ⟨n, hn⟩ := comma_loop_halts _ (match_ TokenType.ID (match_ TokenType.STRING s))
    (Nat.lt_succ_self _)
    [if (match_ TokenType.STRING s).token = TokenType.ID then
      (newExpNode ExpKind.IdK (match_ TokenType.STRING s)).setAttr
        (Attr.name (match_ TokenType.STRING s).tokenString)
      else newExpNode ExpKind.IdK (match_ TokenType.STRING s)]
  obtain ⟨⟨ids, s3⟩, hr⟩ := Option.isSome_iff_exists.mp hn
  exact ⟨n, by simp only [string_stmt]; simp only [] at hr; rw [hr]; rfl⟩

theorem decl_halts (s : PState) : Halts decl s := by
  unfold Halts
  simp only [decl]
  split
  · exact int_stmt_halts s
  · exact bool_stmt_halts s
  · exact string_stmt_halts s
  · exact ⟨0, rfl⟩

theorem int_stmt_steps_after {n : Nat} {s0 s b : PState} {t : TreeNode}
    (h : int_stmt n s = some (t, b)) (hs : Steps s0 (match_ TokenType.INT s)) : Steps s0 b := by
  simp only [int_stmt] at h
  repeat' split at h
  all_goals try cases h
  all_goals repeat (
    first
    | exact hs
    | refine comma_loop_steps _ _ _ _ _ _ ‹_› ?_
    | apply Steps.matched
    | apply Steps.skipped)

theorem bool_stmt_steps_after {n : Nat} {s0 s b : PState} {t : TreeNode}
    (h : bool_stmt n s = some (t, b)) (hs : Steps s0 (match_ TokenType.BOOL s)) : Steps s0 b := by
  simp only [bool_stmt] at h
  repeat' split at h
  all_goals try cases h
  all_goals repeat (
    first
    | exact hs
    | refine comma_loop_steps _ _ _ _ _ _ ‹_› ?_
    | apply Steps.matched
    | apply Steps.skipped)

theorem string_stmt_steps_after {n : Nat} {s0 s b : PState} {t : TreeNode}
    (h : string_stmt n s = some (t, b)) (hs : Steps s0 (match_ TokenType.STRING s)) : Steps s0 b := by
  simp only [string_stmt] at h
  repeat' split at h
  all_goals try cases h
  all_goals repeat (
    first
    | exact hs
    | refine comma_loop_steps _ _ _ _ _ _ ‹_› ?_
    | apply Steps.matched
    | apply Steps.skipped)

theorem write_stmt_steps_after {n : Nat} {s0 s b : PState} {t : TreeNode}
    (h : write_stmt n s = some (t, b)) (hs : Steps s0 (match_ TokenType.WRITE s)) : Steps s0 b := by
  simp only [write_stmt] at h
  repeat' split at h
  all_goals try cases h
  all_goals repeat (
    first
    | exact hs
    | refine exp_steps ‹_› ?_
    | apply Steps.matched
    | apply Steps.skipped)

theorem assign_stmt_steps_after {n : Nat} {s0 s b : PState} {t : TreeNode}
    (h : assign_stmt n s = some (t, b)) (hs : Steps s0 (match_ TokenType.ID s)) : Steps s0 b := by
  simp only [assign_stmt] at h
  repeat' split at h
  all_goals try cases h
  all_goals repeat (
    first
    | exact hs
    | refine exp_steps ‹_› ?_
    | apply Steps.matched
    | apply Steps.skipped)

theorem if_stmt_steps_after {n : Nat} {s0 s b : PState} {t : TreeNode}
    (h : if_stmt n s = some (t, b)) (hs : Steps s0 (match_ TokenType.IF s)) : Steps s0 b := by
  cases n with
  | zero => simp [if_stmt] at h
  | succ n =>
    rw [if_stmt] at h
    try dsimp only at h
    repeat' split at h
    all_goals try cases h
    all_goals repeat (
      first
      | exact hs
      | refine exp_steps ‹_› ?_
      | refine stmt_sequence_steps ‹_› ?_
      | apply Steps.matched
      | apply Steps.skipped)

theorem repeat_stmt_steps_after {n : Nat} {s0 s b : PState} {t : TreeNode}
    (h : repeat_stmt n s = some (t, b)) (hs : Steps s0 (match_ TokenType.REPEAT s)) : Steps s0 b := by
  cases n with
  | zero => simp [repeat_stmt] at h
  | succ n =>
    rw [repeat_stmt] at h
    try dsimp only at h
    repeat' split at h
    all_goals try cases h
    all_goals repeat (
      first
      | exact hs
      | refine exp_steps ‹_› ?_
      | refine stmt_sequence_steps ‹_› ?_
      | apply Steps.matched
      | apply Steps.skipped)

theorem while_stmt_steps_after {n : Nat} {s0 s b : PState} {t : TreeNode}
    (h : while_stmt n s = some (t, b)) (hs : Steps s0 (match_ TokenType.DO s)) : Steps s0 b := by
  cases n with
  | zero => simp [while_stmt] at h
  | succ n =>
    rw [while_stmt] at h
    try dsimp only at h
    repeat' split at h
    all_goals try cases h
    all_goals repeat (
      first
      | exact hs
      | refine exp_steps ‹_› ?_
      | refine stmt_sequence_steps ‹_› ?_
      | apply Steps.matched
      | apply Steps.skipped)

theorem read_stmt_steps_after {s0 s : PState} (hs : Steps s0 (match_ TokenType.READ s)) :
    Steps s0 (read_stmt s).2 := by
  simp only [read_stmt]
  exact hs.matched _

/-- A declaration that starts with a type keyword consumes it. -/
theorem decl_progress {n : Nat} {s b : PState} {t : TreeNode} (h : decl n s = some (t, b))
    (hne : s.token ≠ TokenType.ENDFILE) : remaining b < remaining s := by
  simp only [decl] at h
  split at h
  · rename_i hk
    exact lt_of_le_of_lt (int_stmt_steps_after h (Steps.refl _)).remaining_le
      (remaining_match_lt hk (by decide))
  · rename_i hk
    exact lt_of_le_of_lt (bool_stmt_steps_after h (Steps.refl _)).remaining_le
      (remaining_match_lt hk (by decide))
  · rename_i hk
    exact lt_of_le_of_lt (string_stmt_steps_after h (Steps.refl _)).remaining_le
      (remaining_match_lt hk (by decide))
  · cases h
    exact remaining_unexpected_lt s hne

/-- A statement consumes its first token. -/
theorem statement_progress {n : Nat} {s b : PState} {t : TreeNode}
    (h : statement n s = some (t, b)) (hne : s.token ≠ TokenType.ENDFILE) :
    remaining b < remaining s := by
  cases n with
  | zero => simp [statement] at h
  | succ n =>
    rw [statement] at h
    try dsimp only at h
    split at h
    · rename_i hk
      exact lt_of_le_of_lt (if_stmt_steps_after h (Steps.refl _)).remaining_le
        (remaining_match_lt hk (by decide))
    · rename_i hk
      exact lt_of_le_of_lt (repeat_stmt_steps_after h (Steps.refl _)).remaining_le
        (remaining_match_lt hk (by decide))
    · rename_i hk
      exact lt_of_le_of_lt (while_stmt_steps_after h (Steps.refl _)).remaining_le
        (remaining_match_lt hk (by decide))
    · rename_i hk
      exact lt_of_le_of_lt (assign_stmt_steps_after h (Steps.refl _)).remaining_le
        (remaining_match_lt hk (by decide))
    · rename_i hk
      cases h
      exact lt_of_le_of_lt (read_stmt_steps_after (Steps.refl _)).remaining_le
        (remaining_match_lt hk (by decide))
    · rename_i hk
      exact lt_of_le_of_lt (write_stmt_steps_after h (Steps.refl _)).remaining_le
        (remaining_match_lt hk (by decide))
    · cases h
      exact remaining_unexpected_lt s hne

theorem declarations_loop_halts (m : Nat) :
    ∀ s, remaining s < m → ∀ nodes, Halts (fun n => declarations_loop n nodes) s := by
  induction m with
  | zero => intro s h; omega
  | succ m ih =>
    intro s hs nodes
    by_cases hc : s.token ≠ TokenType.ENDFILE ∧ s.token ≠ TokenType.END
    · by_cases hk : (match_ TokenType.SEMI s).token ≠ TokenType.INT
          ∧ (match_ TokenType.SEMI s).token ≠ TokenType.BOOL
          ∧ (match_ TokenType.SEMI s).token ≠ TokenType.STRING
      · exact ⟨1, by
          show (declarations_loop 1 nodes s).isSome = true
          rw [declarations_loop, if_pos hc, if_pos hk]; rfl⟩
      · obtain ⟨n1, h1⟩ := decl_halts (match_ TokenType.SEMI s)
        obtain ⟨⟨q, s2⟩, e1⟩ := Option.isSome_iff_exists.mp h1
        have hne : (match_ TokenType.SEMI s).token ≠ TokenType.ENDFILE := by
          intro h0
          apply hk
          rw [h0]
          decide
        have hlt := decl_progress e1 hne
        have hle := remaining_match_le TokenType.SEMI s
        obtain ⟨n2, h2⟩ := ih s2 (by omega) (link nodes q)
        refine ⟨max n1 n2 + 1, ?_⟩
        show (declarations_loop (max n1 n2 + 1) nodes s).isSome = true
        rw [declarations_loop]
        rw [if_pos hc, if_neg hk]
        simp only [decl_stable.le e1 (le_max_left n1 n2)]
        exact Stable.isSome_le (fun n => declarations_loop_stable n (link nodes q)) h2
          (le_max_right n1 n2)
    · exact ⟨1, by
        show (declarations_loop 1 nodes s).isSome = true
        rw [declarations_loop, if_neg hc]; rfl⟩

theorem declarations_halts (s : PState) : Halts declarations s := by
  obtain ⟨n1, h1⟩ := decl_halts s
  obtain ⟨⟨t, s1⟩, e1⟩ := Option.isSome_iff_exists.mp h1
  obtain ⟨n2, h2⟩ := declarations_loop_halts _ s1 (Nat.lt_succ_self _) (link [] t)
  obtain ⟨⟨nodes, s2⟩, e2⟩ := Option.isSome_iff_exists.mp h2
  refine ⟨max n1 n2, ?_⟩
  simp only [declarations, decl_stable.le e1 (le_max_left n1 n2),
    Stable.le (fun n => declarations_loop_stable n (link [] t)) e2 (le_max_right n1 n2)]
  rfl

theorem write_stmt_halts (s : PState) : Halts write_stmt s := by
  obtain ⟨n, hn⟩ := exp_halts (match_ TokenType.WRITE s)
  obtain ⟨⟨e, s2⟩, hr⟩ := Option.isSome_iff_exists.mp hn
  exact ⟨n, by simp only [write_stmt, hr]; rfl⟩

theorem assign_stmt_halts (s : PState) : Halts assign_stmt s := by
  obtain ⟨n, hn⟩ := exp_halts (match_ TokenType.ASSIGN (match_ TokenType.ID s))
  obtain ⟨⟨e, s2⟩, hr⟩ := Option.isSome_iff_exists.mp hn
  refine ⟨n, ?_⟩
  simp only [assign_stmt]
  split
  · rfl
  · simp only [hr]; rfl

theorem if_stmt_halts_of {s : PState}
    (SS : ∀ a, remaining a ≤ remaining (match_ TokenType.IF s) → Halts stmt_sequence a) :
    Halts if_stmt s := by
  obtain ⟨n1, h1⟩ := exp_halts (match_ TokenType.IF s)
  obtain ⟨⟨c, s2⟩, e1⟩ := Option.isSome_iff_exists.mp h1
  have l1 := (exp_steps e1 (Steps.refl _)).remaining_le
  have l2 := remaining_match_le TokenType.THEN s2
  obtain ⟨n2, h2⟩ := SS (match_ TokenType.THEN s2) (by omega)
  obtain ⟨⟨b, s4⟩, e2⟩ := Option.isSome_iff_exists.mp h2
  have l3 := (stmt_sequence_steps e2 (Steps.refl _)).remaining_le
  have l4 := remaining_match_le TokenType.ELSE s4
  obtain ⟨n3, h3⟩ := SS (match_ TokenType.ELSE s4) (by omega)
  obtain ⟨⟨e, s6⟩, e3⟩ := Option.isSome_iff_exists.mp h3
  refine ⟨max n1 (max n2 n3) + 1, ?_⟩
  rw [if_stmt]
  simp only [exp_stable.le e1 (le_max_left _ _),
    stmt_sequence_stable.le e2 (le_trans (le_max_left n2 n3) (le_max_right _ _)),
    stmt_sequence_stable.le e3 (le_trans (le_max_right n2 n3) (le_max_right _ _))]
  split <;> rfl

theorem loop_stmt_halts_of (rule : Nat → PState → Option (TreeNode × PState))
    (kind : StmtKind) (open_ close : TokenType) {s : PState}
    (hdef : ∀ n a, rule (n + 1) a =
      match stmt_sequence n (match_ open_ a) with
      | none => none
      | some (b, s2) =>
        match exp n (match_ close s2) with
        | none => none
        | some (c, s4) => some (((newStmtNode kind a).setChild 0 b).setChild 1 c, s4))
    (SS : Halts stmt_sequence (match_ open_ s)) : Halts rule s := by
  obtain ⟨n1, h1⟩ := SS
  obtain ⟨⟨b, s2⟩, e1⟩ := Option.isSome_iff_exists.mp h1
  obtain ⟨n2, h2⟩ := exp_halts (match_ close s2)
  obtain ⟨⟨c, s4⟩, e2⟩ := Option.isSome_iff_exists.mp h2
  refine ⟨max n1 n2 + 1, ?_⟩
  rw [hdef]
  simp only [stmt_sequence_stable.le e1 (le_max_left _ _), exp_stable.le e2 (le_max_right _ _)]
  rfl

theorem statement_halts_of {s : PState}
    (SS : ∀ a, remaining a < remaining s → Halts stmt_sequence a) : Halts statement s := by
  by_cases h1 : s.token = TokenType.IF
  · obtain ⟨n, hn⟩ := if_stmt_halts_of
      (fun a ha => SS a (lt_of_le_of_lt ha (remaining_match_lt h1 (by decide))))
    exact ⟨n + 1, by rw [statement]; simp only [h1]; exact hn⟩
  by_cases h2 : s.token = TokenType.REPEAT
  · obtain ⟨n, hn⟩ := loop_stmt_halts_of repeat_stmt StmtKind.RepeatK TokenType.REPEAT TokenType.UNTIL
      (fun n a => by rw [repeat_stmt]) (SS _ (remaining_match_lt h2 (by decide)))
    exact ⟨n + 1, by rw [statement]; simp only [h2]; exact hn⟩
  by_cases h3 : s.token = TokenType.DO
  · obtain ⟨n, hn⟩ := loop_stmt_halts_of while_stmt StmtKind.WhileK TokenType.DO TokenType.WHILE
      (fun n a => by rw [while_stmt]) (SS _ (remaining_match_lt h3 (by decide)))
    exact ⟨n + 1, by rw [statement]; simp only [h3]; exact hn⟩
  by_cases h4 : s.token = TokenType.ID
  · obtain ⟨n, hn⟩ := assign_stmt_halts s
    exact ⟨n + 1, by rw [statement]; simp only [h4]; exact hn⟩
  by_cases h5 : s.token = TokenType.WRITE
  · obtain ⟨n, hn⟩ := write_stmt_halts s
    exact ⟨n + 1, by rw [statement]; simp only [h5]; exact hn⟩
  · refine ⟨1, ?_⟩
    rw [statement]
    split <;> first | rfl | contradiction

theorem stmt_sequence_loop_halts_of {s : PState} {nodes : List TreeNode}
    (ST : ∀ a, remaining a ≤ remaining s → Halts statement a)
    (L : ∀ a, remaining a < remaining s → ∀ nodes, Halts (fun n => stmt_sequence_loop n nodes) a) :
    Halts (fun n => stmt_sequence_loop n nodes) s := by
  by_cases hc : s.token ≠ TokenType.ENDFILE ∧ s.token ≠ TokenType.END
      ∧ s.token ≠ TokenType.ELSE ∧ s.token ≠ TokenType.UNTIL ∧ s.token ≠ TokenType.WHILE
  · obtain ⟨n1, h1⟩ := ST (match_ TokenType.SEMI s) (remaining_match_le _ _)
    obtain ⟨⟨q, s2⟩, e1⟩ := Option.isSome_iff_exists.mp h1
    have hlt : remaining s2 < remaining s := by
      by_cases hsemi : s.token = TokenType.SEMI
      · exact lt_of_le_of_lt (statement_steps e1 (Steps.refl _)).remaining_le
          (remaining_match_lt hsemi (by decide))
      · have hm : match_ TokenType.SEMI s
            = fprintf "      " (printToken (syntaxError "unexpected token -> " s)) := by
          simp [match_, hsemi]
        have hr : remaining (match_ TokenType.SEMI s) = remaining s := by
          rw [hm]; simp [fprintf, printToken, syntaxError, remaining]
        have ht : (match_ TokenType.SEMI s).token ≠ TokenType.ENDFILE := by
          rw [hm]; simpa [fprintf, printToken, syntaxError] using hc.1
        have := statement_progress e1 ht
        omega
    obtain ⟨n2, h2⟩ := L s2 hlt (link nodes q)
    refine ⟨max n1 n2 + 1, ?_⟩
    show (stmt_sequence_loop (max n1 n2 + 1) nodes s).isSome = true
    rw [stmt_sequence_loop]
    rw [if_pos hc]
    simp only [statement_stable.le e1 (le_max_left n1 n2)]
    exact (stmt_sequence_loop_stable _).isSome_le h2 (le_max_right n1 n2)
  · exact ⟨1, by
      show (stmt_sequence_loop 1 nodes s).isSome = true
      rw [stmt_sequence_loop, if_neg hc]; rfl⟩

theorem stmt_sequence_halts_of {s : PState} (ST : Halts statement s)
    (L : ∀ a, remaining a ≤ remaining s →
      ∀ nodes, Halts (fun n => stmt_sequence_loop n nodes) a) :
    Halts stmt_sequence s := by
  obtain ⟨n1, h1⟩ := ST
  obtain ⟨⟨t, s1⟩, e1⟩ := Option.isSome_iff_exists.mp h1
  obtain ⟨n2, h2⟩ := L s1 (statement_steps e1 (Steps.refl _)).remaining_le (link [] t)
  obtain ⟨⟨nodes, s2⟩, e2⟩ := Option.isSome_iff_exists.mp h2
  refine ⟨max n1 n2 + 1, ?_⟩
  rw [stmt_sequence]
  simp only [statement_stable.le e1 (le_max_left n1 n2),
    (stmt_sequence_loop_stable _).le e2 (le_max_right n1 n2)]
  rfl

theorem stmt_block_halts (m : Nat) : ∀ s, remaining s < m →
    Halts stmt_sequence s ∧ (∀ nodes, Halts (fun n => stmt_sequence_loop n nodes) s) ∧
    Halts statement s := by
  induction m with
  | zero => intro s h; omega
  | succ m ih =>
    have ST : ∀ a, remaining a < m + 1 → Halts statement a := fun a ha =>
      statement_halts_of (fun b hb => (ih b (by omega)).1)
    have L : ∀ a, remaining a < m + 1 →
        ∀ nodes, Halts (fun n => stmt_sequence_loop n nodes) a := fun a ha nodes =>
      stmt_sequence_loop_halts_of (fun b hb => ST b (by omega))
        (fun b hb => (ih b (by omega)).2.1)
    intro s hs
    exact ⟨stmt_sequence_halts_of (ST s hs) (fun a ha => L a (by omega)), L s hs, ST s hs⟩

theorem stmt_sequence_halts (s : PState) : Halts stmt_sequence s :=
  (stmt_block_halts (remaining s + 1) s (Nat.lt_succ_self _)).1

theorem stmt_sequence_loop_halts (nodes : List TreeNode) (s : PState) :
    Halts (fun n => stmt_sequence_loop n nodes) s :=
  (stmt_block_halts (remaining s + 1) s (Nat.lt_succ_self _)).2.1 nodes

theorem statement_halts (s : PState) : Halts statement s :=
  (stmt_block_halts (remaining s + 1) s (Nat.lt_succ_self _)).2.2

theorem if_stmt_halts (s : PState) : Halts if_stmt s :=
  if_stmt_halts_of (fun a _ => stmt_sequence_halts a)

theorem repeat_stmt_halts (s : PState) : Halts repeat_stmt s :=
  loop_stmt_halts_of repeat_stmt StmtKind.RepeatK TokenType.REPEAT TokenType.UNTIL
    (fun n a => by rw [repeat_stmt]) (stmt_sequence_halts _)

theorem while_stmt_halts (s : PState) : Halts while_stmt s :=
  loop_stmt_halts_of while_stmt StmtKind.WhileK TokenType.DO TokenType.WHILE
    (fun n a => by rw [while_stmt]) (stmt_sequence_halts _)

theorem program_halts (s : PState) : Halts program s := by
  obtain ⟨n1, h1⟩ := declarations_halts s
  obtain ⟨⟨d, s1⟩, e1⟩ := Option.isSome_iff_exists.mp h1
  obtain ⟨n2, h2⟩ := stmt_sequence_halts s1
  obtain ⟨⟨b, s2⟩, e2⟩ := Option.isSome_iff_exists.mp h2
  refine ⟨max n1 n2, ?_⟩
  simp only [program, declarations_stable.le e1 (le_max_left n1 n2),
    stmt_sequence_stable.le e2 (le_max_right n1 n2)]
  rfl

theorem parse_halts (s : PState) : Halts parse s := by
  obtain ⟨n, hn⟩ := program_halts (advance s)
  obtain ⟨⟨t, s2⟩, e⟩ := Option.isSome_iff_exists.mp hn
  refine ⟨n, ?_⟩
  simp only [parse, e]
  split <;> rfl

/-! ## Results of concrete runs -/

theorem Stable.returns_check {α : Type} {f : Nat → PState → Option (α × PState)}
    (hf : Stable f) (n : Nat) (s : PState) (P : α × PState → Bool)
    (h : (f n s).any P = true) : ∃ r, Returns f s r ∧ P r = true := by
  cases hr : f n s with
  | none => simp [hr] at h
  | some r => exact ⟨r, hf.returns hr, by simpa [hr] using h⟩

/-! ## C1: `match` -/

/-- C1: `match(expected)`, for every state: when the lookahead equals
`expected` the parser fetches exactly one token (the lookahead becomes the next
token of the input, or end-of-file when there is none, and the input loses
that token) and neither the flag nor the listing changes; otherwise the
lookahead, its lexeme, the line and the input are unchanged, the flag is set
and the listing gains exactly one syntax-error diagnostic, followed by the
offending token. -/
theorem match_contract (expected : TokenType) (s : PState) :
    (s.token = expected →
      match_ expected s = advance s ∧
      (match_ expected s).token = (s.input.head?.map Token.type).getD TokenType.ENDFILE ∧
      (match_ expected s).input = s.input.tail ∧
      (match_ expected s).Error = s.Error ∧
      (match_ expected s).listing = s.listing) ∧
    (s.token ≠ expected →
      (match_ expected s).token = s.token ∧
      (match_ expected s).tokenString = s.tokenString ∧
      (match_ expected s).lineno = s.lineno ∧
      (match_ expected s).input = s.input ∧
      (match_ expected s).Error = true ∧
      (match_ expected s).listing = s.listing ++
        [Output.syntaxError s.lineno "unexpected token -> ",
          Output.printToken s.token s.tokenString, Output.text "      "] ∧
      diagnostics (match_ expected s).listing = diagnostics s.listing + 1) := by
  constructor
  · intro h
    rw [match_eq_advance h]
    unfold advance getToken
    cases s.input <;> simp
  · intro h
    simp [match_, h, fprintf, printToken, syntaxError, diagnostics, List.filter_append]

/-- C1 (witness): with the lookahead on `int` and `a` next, `match(INT)` moves
the lookahead to `a`; `match(ID)` in the same state reports one error and
leaves the lookahead on `int`. -/
theorem match_contract_witness :
    (match_ TokenType.INT (advance (initial tokens_int_abc))).token = TokenType.ID ∧
    (match_ TokenType.ID (advance (initial tokens_int_abc))).token = TokenType.INT ∧
    diagnostics (match_ TokenType.ID (advance (initial tokens_int_abc))).listing
      = diagnostics (advance (initial tokens_int_abc)).listing + 1 := by
  have h1 := (match_contract TokenType.INT (advance (initial tokens_int_abc))).1 (by decide)
  have h2 := (match_contract TokenType.ID (advance (initial tokens_int_abc))).2 (by decide)
  exact ⟨by rw [h1.2.1]; decide, by rw [h2.1]; decide, h2.2.2.2.2.2.2⟩

/-! ## C2: the shape of a typed declaration -/

/-- C2 (counterexample): on `int a, b, c` the node that `int_stmt` returns is
not a node named `a` whose `child[0]` is named `b`: its own `attr` is never
assigned and its `child[0]` is the Identifier node `a`. -/
theorem int_stmt_abc_not_named_a :
    (∃ r, Returns int_stmt (advance (initial tokens_int_abc)) r ∧
      r.1.attr = Attr.unset ∧ (r.1.child 0).attr = Attr.name "a") ∧
    ¬ ∃ r, Returns int_stmt (advance (initial tokens_int_abc)) r ∧
      r.1.attr = Attr.name "a" ∧ (r.1.child 0).attr = Attr.name "b" ∧
      ((r.1.child 0).child 0).attr = Attr.name "c" := by
  obtain ⟨r, hr, hp⟩ := int_stmt_stable.returns_check 5 (advance (initial tokens_int_abc))
    (fun r => decide (r.1.attr = Attr.unset ∧ (r.1.child 0).attr = Attr.name "a")) (by decide)
  have hp := of_decide_eq_true hp
  refine ⟨⟨r, hr, hp⟩, ?_⟩
  rintro ⟨r', hr', h1, -⟩
  rw [Returns.unique hr' hr, hp.1] at h1
  cases h1

theorem advance_cons (t : TokenType) (ts : String) (l : Nat) (next : Token)
    (rest : List Token) (e : Bool) (out : List Output) :
    advance ⟨t, ts, l, next :: rest, e, out⟩
      = ⟨next.type, next.string, next.lineno, rest, e, out⟩ := rfl

theorem advance_fields (s : PState) :
    (advance s).Error = s.Error ∧ (advance s).listing = s.listing ∧
    (advance s).input = s.input.tail ∧
    (advance s).token = (s.input.head?.map Token.type).getD TokenType.ENDFILE := by
  unfold advance getToken
  cases s.input <;> simp

theorem typed_decl_three_run (s : PState) (a b c x1 x2 : String)
    (la lb lc l1 l2 : Nat) (rest : List Token)
    (hin : s.input = ⟨TokenType.ID, a, la⟩ :: ⟨TokenType.COMMA, x1, l1⟩ ::
      ⟨TokenType.ID, b, lb⟩ :: ⟨TokenType.COMMA, x2, l2⟩ :: ⟨TokenType.ID, c, lc⟩ :: rest)
    (hrest : (rest.head?.map Token.type).getD TokenType.ENDFILE ≠ TokenType.COMMA)
    (rule : Nat → PState → Option (TreeNode × PState)) (kind : DeclKind)
    (hrule : (s.token = TokenType.INT ∧ rule = int_stmt ∧ kind = DeclKind.IntK) ∨
      (s.token = TokenType.BOOL ∧ rule = bool_stmt ∧ kind = DeclKind.BoolK) ∨
      (s.token = TokenType.STRING ∧ rule = string_stmt ∧ kind = DeclKind.StringK)) :
    Returns rule s
      (TreeNode.node (NodeKind.DeclK kind) Attr.unset kind.expType s.lineno
        (TreeNode.node (NodeKind.ExpK ExpKind.IdK) (Attr.name a) ExpType.Void la
          (TreeNode.node (NodeKind.ExpK ExpKind.IdK) (Attr.name b) ExpType.Void lb
            (TreeNode.node (NodeKind.ExpK ExpKind.IdK) (Attr.name c) ExpType.Void lc
              TreeNode.NULL TreeNode.NULL TreeNode.NULL TreeNode.NULL)
            TreeNode.NULL TreeNode.NULL TreeNode.NULL)
          TreeNode.NULL TreeNode.NULL TreeNode.NULL)
        TreeNode.NULL TreeNode.NULL TreeNode.NULL,
        advance ⟨TokenType.ID, c, lc, rest, s.Error, s.listing⟩) := by
  obtain ⟨token, tokenString, lineno, input, Error, listing⟩ := s
  simp only at hin hrule
  subst hin
  have hf := advance_fields ⟨TokenType.ID, c, lc, rest, Error, listing⟩
  have hne : (advance ⟨TokenType.ID, c, lc, rest, Error, listing⟩).token ≠ TokenType.COMMA := by
    rw [hf.2.2.2]; exact hrest
  rcases hrule with ⟨h1, h2, h3⟩ | ⟨h1, h2, h3⟩ | ⟨h1, h2, h3⟩
  · subst h1 h2 h3
    refine int_stmt_stable.returns (?_ : int_stmt 3 _ = _)
    simp [int_stmt, comma_loop, match_, advance_cons, newDeclNode, newExpNode, link, spine,
      TreeNode.setAttr, TreeNode.setChild, TreeNode.isNULL, hne]
  · subst h1 h2 h3
    refine bool_stmt_stable.returns (?_ : bool_stmt 3 _ = _)
    simp [bool_stmt, comma_loop, match_, advance_cons, newDeclNode, newExpNode, link, spine,
      TreeNode.setAttr, TreeNode.setChild, TreeNode.isNULL, hne]
  · subst h1 h2 h3
    refine string_stmt_stable.returns (?_ : string_stmt 3 _ = _)
    simp [string_stmt, comma_loop, match_, advance_cons, newDeclNode, newExpNode, link, spine,
      TreeNode.setAttr, TreeNode.setChild, TreeNode.isNULL, hne]

/-- C2 (amended): for a type keyword followed by three comma-separated
identifiers `a`, `b`, `c` and then a token that is not a comma, the rule of the
keyword returns a declaration node of the matching kind whose `child[0]` is
an Identifier node named `a`, whose `child[0]` is an Identifier node named
`b`, whose `child[0]` is an Identifier node named `c`, which has no child;
no error is raised and the lookahead is left on the token after `c`. -/
theorem typed_decl_three_identifiers (s : PState) (a b c x1 x2 : String)
    (la lb lc l1 l2 : Nat) (rest : List Token)
    (hin : s.input = ⟨TokenType.ID, a, la⟩ :: ⟨TokenType.COMMA, x1, l1⟩ ::
      ⟨TokenType.ID, b, lb⟩ :: ⟨TokenType.COMMA, x2, l2⟩ :: ⟨TokenType.ID, c, lc⟩ :: rest)
    (hrest : (rest.head?.map Token.type).getD TokenType.ENDFILE ≠ TokenType.COMMA)
    (rule : Nat → PState → Option (TreeNode × PState)) (kind : DeclKind)
    (hrule : (s.token = TokenType.INT ∧ rule = int_stmt ∧ kind = DeclKind.IntK) ∨
      (s.token = TokenType.BOOL ∧ rule = bool_stmt ∧ kind = DeclKind.BoolK) ∨
      (s.token = TokenType.STRING ∧ rule = string_stmt ∧ kind = DeclKind.StringK)) :
    ∃ r, Returns rule s r ∧
      r.1.kind? = some (NodeKind.DeclK kind) ∧
      r.1.child 0 =
        TreeNode.node (NodeKind.ExpK ExpKind.IdK) (Attr.name a) ExpType.Void la
          (TreeNode.node (NodeKind.ExpK ExpKind.IdK) (Attr.name b) ExpType.Void lb
            (TreeNode.node (NodeKind.ExpK ExpKind.IdK) (Attr.name c) ExpType.Void lc
              TreeNode.NULL TreeNode.NULL TreeNode.NULL TreeNode.NULL)
            TreeNode.NULL TreeNode.NULL TreeNode.NULL)
          TreeNode.NULL TreeNode.NULL TreeNode.NULL ∧
      r.1.child 1 = TreeNode.NULL ∧ r.1.child 2 = TreeNode.NULL ∧
      r.1.sibling = TreeNode.NULL ∧
      r.2.Error = s.Error ∧ r.2.listing = s.listing ∧ r.2.input = rest.tail ∧
      r.2.token = (rest.head?.map Token.type).getD TokenType.ENDFILE := by
  have hf := advance_fields ⟨TokenType.ID, c, lc, rest, s.Error, s.listing⟩
  exact ⟨_, typed_decl_three_run s a b c x1 x2 la lb lc l1 l2 rest hin hrest rule kind hrule,
    rfl, rfl, rfl, rfl, rfl, hf.1, hf.2.1, hf.2.2.1, hf.2.2.2⟩

/-- C2 (witness): `int a, b, c` followed by end-of-file. -/
theorem typed_decl_three_identifiers_witness :
    ∃ r, Returns int_stmt (advance (initial tokens_int_abc)) r ∧
      r.1.kind? = some (NodeKind.DeclK DeclKind.IntK) ∧
      r.1.child 0 =
        TreeNode.node (NodeKind.ExpK ExpKind.IdK) (Attr.name "a") ExpType.Void 1
          (TreeNode.node (NodeKind.ExpK ExpKind.IdK) (Attr.name "b") ExpType.Void 1
            (TreeNode.node (NodeKind.ExpK ExpKind.IdK) (Attr.name "c") ExpType.Void 1
              TreeNode.NULL TreeNode.NULL TreeNode.NULL TreeNode.NULL)
            TreeNode.NULL TreeNode.NULL TreeNode.NULL)
          TreeNode.NULL TreeNode.NULL TreeNode.NULL ∧
      r.1.child 1 = TreeNode.NULL ∧ r.1.child 2 = TreeNode.NULL ∧
      r.1.sibling = TreeNode.NULL ∧
      r.2.Error = false ∧ r.2.listing = [] ∧ r.2.input = [] ∧
      r.2.token = TokenType.ENDFILE :=
  typed_decl_three_identifiers (advance (initial tokens_int_abc)) "a" "b" "c" "," "," 1 1 1 1 1
    [] rfl (by decide) int_stmt DeclKind.IntK (Or.inl ⟨rfl, rfl, rfl⟩)

/-! ## C3: `read x ; write x + 1` -/

/-- C3 (counterexample): `parse` on `read x ; write x + 1` does not return a
root whose `child[1]` is a Read node: `declarations` takes `read` for a
declaration, reports it and consumes it, so the statement list starts at `x`
and its head is an Assign node named `x`; the flag is set. -/
theorem parse_read_write_head_not_read :
    (∃ r, Returns parse (initial tokens_read_write) r ∧
      (r.1.child 1).kind? = some (NodeKind.StmtK StmtKind.AssignK) ∧
      (r.1.child 1).attr = Attr.name "x" ∧ r.2.Error = true) ∧
    ¬ ∃ r, Returns parse (initial tokens_read_write) r ∧
      (r.1.child 1).kind? = some (NodeKind.StmtK StmtKind.ReadK) := by
  obtain ⟨r, hr, hp⟩ := parse_stable.returns_check 12 (initial tokens_read_write)
    (fun r => decide ((r.1.child 1).kind? = some (NodeKind.StmtK StmtKind.AssignK) ∧
      (r.1.child 1).attr = Attr.name "x" ∧ r.2.Error = true)) (by decide)
  have hp := of_decide_eq_true hp
  refine ⟨⟨r, hr, hp⟩, ?_⟩
  rintro ⟨r', hr', h1⟩
  rw [Returns.unique hr' hr, hp.1] at h1
  cases h1

/-- C3 (amended): the statement-list rule applied to `read x ; write x + 1`
followed by end-of-file returns a Read node named `x` whose sibling is a Write
node whose `child[0]` is an Operator node `+` with `child[0]` the Identifier
node `x` and `child[1]` the Constant node of value 1 typed Integer, the Write
node having no sibling; and `parse` applied to that stream after a declaration
section, `int x ; read x ; write x + 1`, returns a root whose `child[1]` is
that chain, the flag staying clear. -/
theorem parse_decl_read_write :
    (∃ e, Returns stmt_sequence (advance (initial tokens_read_write)) (tree_read_write, e) ∧
      e.Error = false ∧ e.token = TokenType.ENDFILE) ∧
    (∃ r, Returns parse (initial tokens_decl_read_write) r ∧
      r.1.kind? = some NodeKind.RootK ∧ r.1.child 1 = tree_read_write ∧
      r.2.Error = false ∧ r.2.token = TokenType.ENDFILE) := by
  constructor
  · obtain ⟨r, hr, hp⟩ := stmt_sequence_stable.returns_check 12
      (advance (initial tokens_read_write))
      (fun r => decide (r.1 = tree_read_write ∧ r.2.Error = false ∧
        r.2.token = TokenType.ENDFILE)) (by decide)
    have hp := of_decide_eq_true hp
    obtain ⟨t, e⟩ := r
    obtain ⟨h1, h2⟩ := hp
    simp only at h1
    subst h1
    exact ⟨e, hr, h2⟩
  · obtain ⟨r, hr, hp⟩ := parse_stable.returns_check 12 (initial tokens_decl_read_write)
      (fun r => decide (r.1.kind? = some NodeKind.RootK ∧ r.1.child 1 = tree_read_write ∧
        r.2.Error = false ∧ r.2.token = TokenType.ENDFILE)) (by decide)
    exact ⟨r, hr, of_decide_eq_true hp⟩

/-! ## C4: an `if` without `end` -/

theorem match_mismatch {e : TokenType} {s : PState} (h : s.token ≠ e) :
    match_ e s = fprintf "      " (printToken (syntaxError "unexpected token -> " s)) := by
  simp [match_, h]

/-- C4: an `if` without its `end`.  When the declarations, the condition and
the statement sequence of the stream `D ; if e then S` followed by end-of-file
are parsed without a diagnostic (`declarations` stops with the lookahead on
`if`, `exp` with the lookahead on `then`, and `stmt_sequence` at end-of-file),
`parse` returns a root node whose `child[0]` is the declaration list and whose
`child[1]` is the If node with the condition and the then-branch; the flag is
set, and the listing gains exactly one syntax-error diagnostic, raised by
`match(END)` while the lookahead is the end-of-file token. -/
theorem parse_missing_end (s s1 s2 s3 : PState) (d c b : TreeNode)
    (hD : Returns declarations (advance s) (d, s1)) (hD1 : s1.listing = s.listing)
    (hIf : s1.token = TokenType.IF)
    (hE : Returns exp (advance s1) (c, s2)) (hE1 : s2.listing = s1.listing)
    (hThen : s2.token = TokenType.THEN)
    (hS : Returns stmt_sequence (advance s2) (b, s3)) (hS1 : s3.listing = s2.listing)
    (hEof : s3.token = TokenType.ENDFILE) :
    ∃ r, Returns parse s r ∧
      r.1 = ((newRootNode (advance s)).setChild 0 d).setChild 1
        (((newStmtNode StmtKind.IfK s1).setChild 0 c).setChild 1 b) ∧
      r.1.isNULL = false ∧ r.1.child 0 = d ∧
      (r.1.child 1).kind? = some (NodeKind.StmtK StmtKind.IfK) ∧
      (r.1.child 1).child 0 = c ∧ (r.1.child 1).child 1 = b ∧
      (r.1.child 1).child 2 = TreeNode.NULL ∧ (r.1.child 1).sibling = TreeNode.NULL ∧
      r.2.Error = true ∧ r.2.token = TokenType.ENDFILE ∧
      r.2.listing = s.listing ++ [Output.syntaxError s3.lineno "unexpected token -> ",
        Output.printToken TokenType.ENDFILE s3.tokenString, Output.text "      "] ∧
      diagnostics r.2.listing = diagnostics s.listing + 1 := by
  obtain ⟨N1, h1⟩ := hD
  obtain ⟨N2, h2⟩ := hE
  obtain ⟨N3, h3⟩ := hS
  have hEnd : match_ TokenType.END s3
      = fprintf "      " (printToken (syntaxError "unexpected token -> " s3)) :=
    match_mismatch (by rw [hEof]; decide)
  have hrun : ∀ n, N1 + N2 + N3 + 3 ≤ n → parse n s = some
      (((newRootNode (advance s)).setChild 0 d).setChild 1
        (((newStmtNode StmtKind.IfK s1).setChild 0 c).setChild 1 b),
        match_ TokenType.END s3) := by
    intro n hn
    obtain ⟨i, rfl⟩ : ∃ i, n = i + 3 := ⟨n - 3, by omega⟩
    have e1 := h1 (i + 3) (by omega)
    have e2 := h2 i (by omega)
    have e3 := h3 i (by omega)
    have hne : ¬ s3.token = TokenType.ELSE := by rw [hEof]; decide
    have htok : (match_ TokenType.END s3).token = TokenType.ENDFILE := by
      rw [hEnd]; simpa [fprintf, printToken, syntaxError] using hEof
    have hif : if_stmt (i + 1) s1 = some
        (((newStmtNode StmtKind.IfK s1).setChild 0 c).setChild 1 b, match_ TokenType.END s3) := by
      rw [if_stmt]
      simp only [match_eq_advance hIf, e2, match_eq_advance hThen, e3, hne, if_false]
    have hst : statement (i + 2) s1 = some
        (((newStmtNode StmtKind.IfK s1).setChild 0 c).setChild 1 b, match_ TokenType.END s3) := by
      rw [statement]
      simp only [hIf, hif]
    have hss : stmt_sequence (i + 3) s1 = some
        (((newStmtNode StmtKind.IfK s1).setChild 0 c).setChild 1 b, match_ TokenType.END s3) := by
      rw [stmt_sequence]
      simp only [hst]
      rw [stmt_sequence_loop]
      simp [htok, link, chain, newStmtNode, TreeNode.setChild, TreeNode.isNULL]
    simp only [parse, program, e1, hss, htok, ne_eq, not_true_eq_false, if_false]
  refine ⟨_, ⟨_, hrun⟩, rfl, ?_⟩
  rw [hEnd]
  simp [newRootNode, newStmtNode, TreeNode.setChild, TreeNode.isNULL, TreeNode.child,
    TreeNode.kind?, TreeNode.sibling, fprintf, printToken, syntaxError, hEof, hS1, hE1, hD1,
    diagnostics, List.filter_append]

/-- C4 (witness): `int x ; if x < 1 then write x`. -/
theorem parse_missing_end_witness :
    ∃ r, Returns parse (initial tokens_missing_end) r ∧
      r.1.isNULL = false ∧ r.1.child 0 = tree_int_x ∧
      (r.1.child 1).kind? = some (NodeKind.StmtK StmtKind.IfK) ∧
      (r.1.child 1).child 0 = opNode1 TokenType.LT (idNode1 "x") (constNode1 1) ∧
      (r.1.child 1).child 1 = tree_write_x ∧
      r.2.Error = true ∧ r.2.token = TokenType.ENDFILE ∧
      r.2.listing = [Output.syntaxError 1 "unexpected token -> ",
        Output.printToken TokenType.ENDFILE "", Output.text "      "] ∧
      diagnostics r.2.listing = 1 := by
  have hD : Returns declarations (advance (initial tokens_missing_end))
      (tree_int_x, ⟨TokenType.IF, "if", 1, tokens_missing_end.drop 4, false, []⟩) :=
    declarations_stable.returns (by decide : declarations 8 _ = _)
  have hE : Returns exp (advance ⟨TokenType.IF, "if", 1, tokens_missing_end.drop 4, false, []⟩)
      (opNode1 TokenType.LT (idNode1 "x") (constNode1 1),
        ⟨TokenType.THEN, "then", 1, tokens_missing_end.drop 8, false, []⟩) :=
    exp_stable.returns (by decide : exp 8 _ = _)
  have hS : Returns stmt_sequence
      (advance ⟨TokenType.THEN, "then", 1, tokens_missing_end.drop 8, false, []⟩)
      (tree_write_x, ⟨TokenType.ENDFILE, "", 1, [], false, []⟩) :=
    stmt_sequence_stable.returns (by decide : stmt_sequence 8 _ = _)
  obtain ⟨r, hr, -, h2, h3, h4, h5, h6, -, -, h9, h10, h11, h12⟩ :=
    parse_missing_end _ _ _ _ _ _ _ hD rfl rfl hE rfl rfl hS rfl rfl
  exact ⟨r, hr, h2, h3, h4, h5, h6, h9, h10, h11, h12⟩

/-! ## C5: an unrecognised leading token -/

theorem statement_default {s : PState} (h1 : s.token ≠ TokenType.IF)
    (h2 : s.token ≠ TokenType.REPEAT) (h3 : s.token ≠ TokenType.DO)
    (h4 : s.token ≠ TokenType.ID) (h5 : s.token ≠ TokenType.READ)
    (h6 : s.token ≠ TokenType.WRITE) :
    Returns statement s (malloc, unexpected s) := by
  refine statement_stable.returns (?_ : statement 1 s = _)
  rw [statement]
  split <;> first | rfl | contradiction

theorem decl_default {s : PState} (h1 : s.token ≠ TokenType.INT)
    (h2 : s.token ≠ TokenType.BOOL) (h3 : s.token ≠ TokenType.STRING) :
    Returns decl s (malloc, unexpected s) := by
  refine decl_stable.returns (?_ : decl 0 s = _)
  simp only [decl]
  rfl

/-- C5 (the code at the failing input): with the lookahead on the second `;`
of `read x ; ; read y`, `statement` reports the token and consumes it, but it
returns the storage it obtained from `malloc`, which is not `NULL`; so
`stmt_sequence` links that storage into the chain between the two Read nodes.
`decl` does the same on a lookahead that starts no declaration. -/
theorem statement_unrecognized_returns_storage :
    Returns statement ⟨TokenType.SEMI, ";", 1, [tk TokenType.READ "read", tk TokenType.ID "y"],
        false, []⟩
      (malloc, ⟨TokenType.READ, "read", 1, [tk TokenType.ID "y"], true,
        [Output.syntaxError 1 "unexpected token -> ", Output.printToken TokenType.SEMI ";"]⟩) ∧
    malloc.isNULL = false ∧
    (∃ e, Returns stmt_sequence (advance (initial tokens_stray_semi))
      (readNode1 "x" (TreeNode.uninit (readNode1 "y" TreeNode.NULL)), e)) ∧
    Returns decl ⟨TokenType.SEMI, ";", 1, [tk TokenType.READ "read", tk TokenType.ID "y"],
        false, []⟩
      (malloc, ⟨TokenType.READ, "read", 1, [tk TokenType.ID "y"], true,
        [Output.syntaxError 1 "unexpected token -> ", Output.printToken TokenType.SEMI ";"]⟩) := by
  refine ⟨statement_default (by decide) (by decide) (by decide) (by decide) (by decide)
    (by decide), rfl, ?_, decl_default (by decide) (by decide) (by decide)⟩
  obtain ⟨r, hr, hp⟩ := stmt_sequence_stable.returns_check 8
    (advance (initial tokens_stray_semi))
    (fun r => decide (r.1 = readNode1 "x" (TreeNode.uninit (readNode1 "y" TreeNode.NULL))))
    (by decide)
  obtain ⟨t, e⟩ := r
  have hp := of_decide_eq_true hp
  simp only at hp
  subst hp
  exact ⟨e, hr⟩

/-! ## C6: where `parse` stops -/

theorem stmt_sequence_loop_stops (n : Nat) :
    ∀ nodes s r b, stmt_sequence_loop n nodes s = some (r, b) → stopsSequence b.token := by
  induction n with
  | zero => simp [stmt_sequence_loop]
  | succ n ih =>
    intro nodes s r b h
    rw [stmt_sequence_loop] at h
    by_cases hc : s.token ≠ TokenType.ENDFILE ∧ s.token ≠ TokenType.END
      ∧ s.token ≠ TokenType.ELSE ∧ s.token ≠ TokenType.UNTIL ∧ s.token ≠ TokenType.WHILE
    · rw [if_pos hc] at h
      dsimp only at h
      split at h
      · cases h
      · exact ih _ _ _ _ h
    · rw [if_neg hc] at h
      cases h
      unfold stopsSequence
      by_contra hn
      exact hc ⟨fun h => hn (Or.inl h), fun h => hn (Or.inr (Or.inl h)),
        fun h => hn (Or.inr (Or.inr (Or.inl h))),
        fun h => hn (Or.inr (Or.inr (Or.inr (Or.inl h)))),
        fun h => hn (Or.inr (Or.inr (Or.inr (Or.inr h))))⟩

theorem stmt_sequence_stops {n : Nat} {s b : PState} {t : TreeNode}
    (h : stmt_sequence n s = some (t, b)) : stopsSequence b.token := by
  cases n with
  | zero => simp [stmt_sequence] at h
  | succ n =>
    rw [stmt_sequence] at h
    repeat' split at h
    all_goals try cases h
    exact stmt_sequence_loop_stops _ _ _ _ _ ‹_›

theorem advance_exhausted (s : PState) (hin : ∀ t ∈ s.input, t.type ≠ TokenType.ENDFILE) :
    (∀ t ∈ (advance s).input, t.type ≠ TokenType.ENDFILE) ∧
    ((advance s).token = TokenType.ENDFILE → (advance s).input = []) := by
  obtain ⟨-, -, h3, h4⟩ := advance_fields s
  rw [h3, h4]
  cases hx : s.input with
  | nil => simp
  | cons t r =>
    rw [hx] at hin
    refine ⟨fun u hu => hin u (List.mem_cons_of_mem _ hu), fun h0 => ?_⟩
    exact absurd h0 (hin t (List.mem_cons_self _ _))

/-- Once the scanner has delivered the end-of-file token for want of input, the
input stays empty. -/
theorem Steps.exhausted {a b : PState} (h : Steps a b)
    (hin : ∀ t ∈ a.input, t.type ≠ TokenType.ENDFILE)
    (ha : a.token = TokenType.ENDFILE → a.input = []) :
    (∀ t ∈ b.input, t.type ≠ TokenType.ENDFILE) ∧ (b.token = TokenType.ENDFILE → b.input = []) := by
  induction h with
  | refl => exact ⟨hin, ha⟩
  | @adv x _ ih => exact advance_exhausted x ih.1
  | err m _ ih => exact ih
  | prt _ ih => exact ih
  | txt x _ ih => exact ih

/-- C6 (counterexample): on `int x ; read x end write x` the statement list
stops at the stray `end` and `parse` returns with the lookahead on `end`, not
on end-of-file, and with `write x` still not consumed. -/
theorem parse_stops_before_end_of_file :
    (∃ r, Returns parse (initial tokens_stray_end) r ∧ r.2.token = TokenType.END ∧
      r.2.input = [tk TokenType.WRITE "write", tk TokenType.ID "x"]) ∧
    ¬ ∃ r, Returns parse (initial tokens_stray_end) r ∧ r.2.token = TokenType.ENDFILE := by
  obtain ⟨r, hr, hp⟩ := parse_stable.returns_check 8 (initial tokens_stray_end)
    (fun r => decide (r.2.token = TokenType.END ∧
      r.2.input = [tk TokenType.WRITE "write", tk TokenType.ID "x"])) (by decide)
  have hp := of_decide_eq_true hp
  refine ⟨⟨r, hr, hp⟩, ?_⟩
  rintro ⟨r', hr', h1⟩
  rw [Returns.unique hr' hr, hp.1] at h1
  cases h1

/-- C6 (amended): for every token stream (in which the end-of-file token
occurs only at the end) `parse` returns, and when it returns either every
token before end-of-file has been consumed and the lookahead is the
end-of-file token, or the lookahead is one of `end`, `else`, `until`, `while`,
at which the statement list stopped, and then the flag is set and the last
diagnostic is `Code ends before file`. -/
theorem parse_stops (s : PState) (hin : ∀ t ∈ s.input, t.type ≠ TokenType.ENDFILE) :
    ∃ r, Returns parse s r ∧
      ((r.2.token = TokenType.ENDFILE ∧ r.2.input = []) ∨
        ((r.2.token = TokenType.END ∨ r.2.token = TokenType.ELSE ∨ r.2.token = TokenType.UNTIL
            ∨ r.2.token = TokenType.WHILE) ∧
          r.2.Error = true ∧
          r.2.listing.getLast? = some (Output.syntaxError r.2.lineno "Code ends before file\n"))) := by
  obtain ⟨⟨t, e⟩, hr⟩ := (parse_halts s).result parse_stable
  refine ⟨(t, e), hr, ?_⟩
  obtain ⟨n, hn⟩ := hr.eq_of_le
  simp only [parse] at hn
  split at hn
  · cases hn
  · rename_i t1 s2 hprog
    simp only [program] at hprog
    split at hprog
    · cases hprog
    · rename_i d s1 hdecl
      split at hprog
      · cases hprog
      · rename_i b s2' hss
        cases hprog
        have hstop := stmt_sequence_stops hss
        have hex := ((stmt_sequence_steps hss (declarations_steps hdecl (Steps.refl _))).exhausted
          (advance_exhausted s hin).1 (advance_exhausted s hin).2).2
        by_cases h0 : s2.token = TokenType.ENDFILE
        · rw [if_neg (by simpa using h0)] at hn
          cases hn
          exact Or.inl ⟨h0, hex h0⟩
        · rw [if_pos h0] at hn
          cases hn
          refine Or.inr ⟨?_, ?_, ?_⟩
          · rcases hstop with h | h
            · exact absurd h h0
            · simpa [syntaxError] using h
          · simp [syntaxError]
          · simp [syntaxError]

/-- C6 (witness): `int x ; read x end write x` has no end-of-file token inside;
`parse` returns on it. -/
theorem parse_stops_witness :
    ∃ r, Returns parse (initial tokens_stray_end) r ∧
      ((r.2.token = TokenType.ENDFILE ∧ r.2.input = []) ∨
        ((r.2.token = TokenType.END ∨ r.2.token = TokenType.ELSE ∨ r.2.token = TokenType.UNTIL
            ∨ r.2.token = TokenType.WHILE) ∧
          r.2.Error = true ∧
          r.2.listing.getLast? = some (Output.syntaxError r.2.lineno "Code ends before file\n"))) :=
  parse_stops (initial tokens_stray_end) (by decide)

/-! ## C7: the root node -/

/-- C7: for every token stream `parse` returns a root node, not `NULL`, whose
`child[0]` is what `declarations` returns after the first token has been
fetched and whose `child[1]` is what `stmt_sequence` returns in the state
`declarations` leaves, whether or not errors were raised; and if the lookahead
after the program rule is not end-of-file, the flag is set when `parse`
returns. -/
theorem parse_returns_root (s : PState) :
    ∃ d s1 b s2 e,
      Returns declarations (advance s) (d, s1) ∧ Returns stmt_sequence s1 (b, s2) ∧
      Returns parse s (((newRootNode (advance s)).setChild 0 d).setChild 1 b, e) ∧
      (((newRootNode (advance s)).setChild 0 d).setChild 1 b).isNULL = false ∧
      (((newRootNode (advance s)).setChild 0 d).setChild 1 b).kind? = some NodeKind.RootK ∧
      (((newRootNode (advance s)).setChild 0 d).setChild 1 b).child 0 = d ∧
      (((newRootNode (advance s)).setChild 0 d).setChild 1 b).child 1 = b ∧
      (s2.token = TokenType.ENDFILE → e = s2) ∧
      (s2.token ≠ TokenType.ENDFILE → e = syntaxError "Code ends before file\n" s2 ∧
        e.Error = true) := by
  obtain ⟨⟨d, s1⟩, hd⟩ := (declarations_halts (advance s)).result declarations_stable
  obtain ⟨⟨b, s2⟩, hb⟩ := (stmt_sequence_halts s1).result stmt_sequence_stable
  obtain ⟨N1, h1⟩ := hd
  obtain ⟨N2, h2⟩ := hb
  have hprog : ∀ n, max N1 N2 ≤ n → program n (advance s)
      = some (((newRootNode (advance s)).setChild 0 d).setChild 1 b, s2) := by
    intro n hn
    simp only [program, h1 n (le_trans (le_max_left _ _) hn),
      h2 n (le_trans (le_max_right _ _) hn)]
  by_cases h0 : s2.token = TokenType.ENDFILE
  · refine ⟨d, s1, b, s2, s2, ⟨N1, h1⟩, ⟨N2, h2⟩, ⟨max N1 N2, fun n hn => ?_⟩, rfl, rfl, rfl,
      rfl, fun _ => rfl, fun h => absurd h0 h⟩
    simp only [parse, hprog n hn, h0, ne_eq, not_true_eq_false, if_false]
  · refine ⟨d, s1, b, s2, syntaxError "Code ends before file\n" s2, ⟨N1, h1⟩, ⟨N2, h2⟩,
      ⟨max N1 N2, fun n hn => ?_⟩, rfl, rfl, rfl, rfl, fun h => absurd h h0,
      fun _ => ⟨rfl, rfl⟩⟩
    simp only [parse, hprog n hn, h0, ne_eq, not_false_eq_true, if_true]

/-! ## C8: the flag `Error` -/

theorem diagnostics_append (l extra : List Output) :
    diagnostics (l ++ extra) = diagnostics l + diagnostics extra := by
  simp [diagnostics, List.filter_append]

/-- The flag is set exactly when a syntax error has been listed. -/
theorem Steps.flag {a b : PState} (h : Steps a b) :
    diagnostics a.listing ≤ diagnostics b.listing ∧
    (b.Error = true ↔ a.Error = true ∨ diagnostics a.listing < diagnostics b.listing) := by
  induction h with
  | refl => simp
  | @adv x _ ih =>
    obtain ⟨h1, h2, -, -⟩ := advance_fields x
    rw [h1, h2]
    exact ih
  | @err x m _ ih =>
    have hd : diagnostics (syntaxError m x).listing = diagnostics x.listing + 1 := by
      simp [syntaxError, diagnostics_append, diagnostics]
    rw [hd]
    refine ⟨by omega, ?_⟩
    simp only [syntaxError, true_iff]
    exact Or.inr (by omega)
  | prt _ ih => simpa [printToken, diagnostics_append, diagnostics] using ih
  | txt x _ ih => simpa [fprintf, diagnostics_append, diagnostics] using ih

theorem keepsError_of {α : Type} {f : Nat → PState → Option (α × PState)}
    (hs : Stable f) (hh : ∀ s, Halts f s)
    (hst : ∀ n s r b, f n s = some (r, b) → Steps s b) : KeepsError f := by
  intro s
  obtain ⟨⟨t, e⟩, hr⟩ := (hh s).result hs
  obtain ⟨n, hn⟩ := hr.eq_of_le
  exact ⟨(t, e), hr, (hst n s t e hn).error_mono⟩

/-- C8: the flag `Error` is monotone.  `match` and `read_stmt` leave a set flag
set, and every rule that loops or recurses returns from every state with a
set flag still set; and `parse`, started with the flag clear, returns with the
flag set if and only if at least one syntax-error diagnostic was listed
during the run. -/
theorem error_flag_monotone :
    (∀ e s, s.Error = true → (match_ e s).Error = true) ∧
    (∀ s, s.Error = true → (read_stmt s).2.Error = true) ∧
    KeepsError decl ∧ KeepsError declarations ∧ KeepsError int_stmt ∧ KeepsError bool_stmt ∧
    KeepsError string_stmt ∧ KeepsError statement ∧ KeepsError stmt_sequence ∧
    KeepsError if_stmt ∧ KeepsError repeat_stmt ∧ KeepsError while_stmt ∧
    KeepsError assign_stmt ∧ KeepsError write_stmt ∧ KeepsError exp ∧ KeepsError simple_exp ∧
    KeepsError term ∧ KeepsError factor ∧ KeepsError program ∧ KeepsError parse ∧
    (∀ s, s.Error = false → ∃ r, Returns parse s r ∧
      (r.2.Error = true ↔ diagnostics s.listing < diagnostics r.2.listing)) := by
  refine ⟨fun e s => ((Steps.refl s).matched e).error_mono,
    fun s => (read_stmt_steps (Steps.refl s)).error_mono,
    keepsError_of decl_stable decl_halts (fun _ _ _ _ h => decl_steps h (Steps.refl _)),
    keepsError_of declarations_stable declarations_halts
      (fun _ _ _ _ h => declarations_steps h (Steps.refl _)),
    keepsError_of int_stmt_stable int_stmt_halts
      (fun _ _ _ _ h => int_stmt_steps h (Steps.refl _)),
    keepsError_of bool_stmt_stable bool_stmt_halts
      (fun _ _ _ _ h => bool_stmt_steps h (Steps.refl _)),
    keepsError_of string_stmt_stable string_stmt_halts
      (fun _ _ _ _ h => string_stmt_steps h (Steps.refl _)),
    keepsError_of statement_stable statement_halts
      (fun _ _ _ _ h => statement_steps h (Steps.refl _)),
    keepsError_of stmt_sequence_stable stmt_sequence_halts
      (fun _ _ _ _ h => stmt_sequence_steps h (Steps.refl _)),
    keepsError_of if_stmt_stable if_stmt_halts
      (fun _ _ _ _ h => if_stmt_steps h (Steps.refl _)),
    keepsError_of repeat_stmt_stable repeat_stmt_halts
      (fun _ _ _ _ h => repeat_stmt_steps h (Steps.refl _)),
    keepsError_of while_stmt_stable while_stmt_halts
      (fun _ _ _ _ h => while_stmt_steps h (Steps.refl _)),
    keepsError_of assign_stmt_stable assign_stmt_halts
      (fun _ _ _ _ h => assign_stmt_steps h (Steps.refl _)),
    keepsError_of write_stmt_stable write_stmt_halts
      (fun _ _ _ _ h => write_stmt_steps h (Steps.refl _)),
    keepsError_of exp_stable exp_halts (fun _ _ _ _ h => exp_steps h (Steps.refl _)),
    keepsError_of simple_exp_stable simple_exp_halts
      (fun _ _ _ _ h => simple_exp_steps h (Steps.refl _)),
    keepsError_of term_stable term_halts (fun _ _ _ _ h => term_steps h (Steps.refl _)),
    keepsError_of factor_stable factor_halts (fun _ _ _ _ h => factor_steps h (Steps.refl _)),
    keepsError_of program_stable program_halts
      (fun _ _ _ _ h => program_steps h (Steps.refl _)),
    keepsError_of parse_stable parse_halts (fun _ _ _ _ h => parse_steps h (Steps.refl _)),
    ?_⟩
  intro s hs
  obtain ⟨⟨t, e⟩, hr⟩ := (parse_halts s).result parse_stable
  obtain ⟨n, hn⟩ := hr.eq_of_le
  refine ⟨(t, e), hr, ?_⟩
  have hf := (parse_steps hn (Steps.refl s)).flag.2
  simpa [hs] using hf

/-! ## C9: left associativity -/

theorem binop_loop_fold {operand : Nat → PState → Option (TreeNode × PState)}
    {loop : Nat → TreeNode → PState → Option (TreeNode × PState)} (isOp : TokenType → Prop)
    (hpos : ∀ n t a, isOp a.token → loop (n + 1) t a =
      match operand n (match_ a.token a) with
      | none => none
      | some (r, s2) => loop n ((opNode t a).setChild 1 r) s2)
    (hneg : ∀ n t a, ¬ isOp a.token → loop (n + 1) t a = some (t, a))
    (steps : List (PState × TreeNode)) :
    ∀ (s e : PState) (t : TreeNode), OperandRun operand isOp s steps e → ¬ isOp e.token →
      Returns (fun n => loop n t) s (leftFold t steps, e) := by
  induction steps with
  | nil =>
    intro s e t hrun hstop
    simp only [OperandRun] at hrun
    subst hrun
    refine ⟨1, fun n hn => ?_⟩
    obtain ⟨k, rfl⟩ : ∃ k, n = k + 1 := ⟨n - 1, by omega⟩
    exact hneg k t e hstop
  | cons step more ih =>
    intro s e t hrun hstop
    obtain ⟨a, r⟩ := step
    simp only [OperandRun] at hrun
    obtain ⟨rfl, hop, s', ⟨N1, h1⟩, hmore⟩ := hrun
    obtain ⟨N2, h2⟩ := ih s' e ((opNode t a).setChild 1 r) hmore hstop
    refine ⟨max N1 N2 + 1, fun n hn => ?_⟩
    obtain ⟨k, rfl⟩ : ∃ k, n = k + 1 := ⟨n - 1, by omega⟩
    show loop (k + 1) t a = _
    rw [hpos k t a hop, h1 k (by omega)]
    exact h2 k (by omega)

theorem term_loop_pos (n : Nat) (t : TreeNode) (a : PState) (h : isMulOp a.token) :
    term_loop (n + 1) t a =
      match factor n (match_ a.token a) with
      | none => none
      | some (r, s2) => term_loop n ((opNode t a).setChild 1 r) s2 := by
  have h' : a.token = TokenType.TIMES ∨ a.token = TokenType.OVER := h
  rw [term_loop, if_pos h']

theorem term_loop_neg (n : Nat) (t : TreeNode) (a : PState) (h : ¬ isMulOp a.token) :
    term_loop (n + 1) t a = some (t, a) := by
  have h' : ¬ (a.token = TokenType.TIMES ∨ a.token = TokenType.OVER) := h
  rw [term_loop, if_neg h']

theorem simple_exp_loop_pos (n : Nat) (t : TreeNode) (a : PState) (h : isAddOp a.token) :
    simple_exp_loop (n + 1) t a =
      match term n (match_ a.token a) with
      | none => none
      | some (r, s2) => simple_exp_loop n ((opNode t a).setChild 1 r) s2 := by
  have h' : a.token = TokenType.PLUS ∨ a.token = TokenType.MINUS := h
  rw [simple_exp_loop, if_pos h']

theorem simple_exp_loop_neg (n : Nat) (t : TreeNode) (a : PState) (h : ¬ isAddOp a.token) :
    simple_exp_loop (n + 1) t a = some (t, a) := by
  have h' : ¬ (a.token = TokenType.PLUS ∨ a.token = TokenType.MINUS) := h
  rw [simple_exp_loop, if_neg h']

theorem operand_loop_returns {operand : Nat → PState → Option (TreeNode × PState)}
    {loop : Nat → TreeNode → PState → Option (TreeNode × PState)}
    {rule : Nat → PState → Option (TreeNode × PState)}
    (hdef : ∀ n a, rule (n + 1) a =
      match operand n a with
      | none => none
      | some (t, s1) => loop n t s1)
    {s s1 : PState} {t : TreeNode} {r : TreeNode × PState}
    (h1 : Returns operand s (t, s1)) (h2 : Returns (fun n => loop n t) s1 r) :
    Returns rule s r := by
  obtain ⟨N1, h1⟩ := h1
  obtain ⟨N2, h2⟩ := h2
  refine ⟨max N1 N2 + 1, fun n hn => ?_⟩
  obtain ⟨k, rfl⟩ : ∃ k, n = k + 1 := ⟨n - 1, by omega⟩
  rw [hdef, h1 k (by omega)]
  exact h2 k (by omega)

theorem leftFold_append (t : TreeNode) (steps : List (PState × TreeNode)) (a : PState)
    (r : TreeNode) :
    leftFold t (steps ++ [(a, r)]) = (opNode (leftFold t steps) a).setChild 1 r := by
  induction steps generalizing t with
  | nil => rfl
  | cons step more ih =>
    obtain ⟨b, q⟩ := step
    simp only [List.cons_append, leftFold]
    exact ih _

/-- C9: left associativity.  When `term` meets a factor `f1` followed by
operators `*`/`/` each with a further factor, it returns the left fold
`Op(op(n-1), ... Op(op1, f1, f2) ..., fn)`; `simple_exp` does the same for
operands separated by `+`/`-`, and a factor that is not followed by `*` or `/`
is such an operand.  In the left fold the `child[1]` of the top Operator node
is the last operand alone and its `child[0]` is the fold of everything to its
left. -/
theorem left_associative :
    (∀ (s s1 e : PState) (f1 : TreeNode) (steps : List (PState × TreeNode)),
      Returns factor s (f1, s1) → OperandRun factor isMulOp s1 steps e → ¬ isMulOp e.token →
      Returns term s (leftFold f1 steps, e)) ∧
    (∀ (s s1 e : PState) (t1 : TreeNode) (steps : List (PState × TreeNode)),
      Returns term s (t1, s1) → OperandRun term isAddOp s1 steps e → ¬ isAddOp e.token →
      Returns simple_exp s (leftFold t1 steps, e)) ∧
    (∀ (s e : PState) (f : TreeNode),
      Returns factor s (f, e) → ¬ isMulOp e.token → Returns term s (f, e)) ∧
    (∀ (t : TreeNode) (steps : List (PState × TreeNode)) (a : PState) (r : TreeNode),
      (leftFold t (steps ++ [(a, r)])).child 1 = r ∧
      (leftFold t (steps ++ [(a, r)])).child 0 = leftFold t steps ∧
      (leftFold t (steps ++ [(a, r)])).attr = Attr.op a.token ∧
      (leftFold t (steps ++ [(a, r)])).kind? = some (NodeKind.ExpK ExpKind.OpK)) := by
  have hterm : ∀ (s s1 e : PState) (f1 : TreeNode) (steps : List (PState × TreeNode)),
      Returns factor s (f1, s1) → OperandRun factor isMulOp s1 steps e → ¬ isMulOp e.token →
      Returns term s (leftFold f1 steps, e) := fun s s1 e f1 steps h1 hrun hstop =>
    operand_loop_returns (fun n a => by rw [term]) h1
      (binop_loop_fold isMulOp term_loop_pos term_loop_neg steps s1 e f1 hrun hstop)
  refine ⟨hterm, fun s s1 e t1 steps h1 hrun hstop => ?_, fun s e f h1 hstop => ?_,
    fun t steps a r => ?_⟩
  · exact operand_loop_returns (fun n a => by rw [simple_exp]) h1
      (binop_loop_fold isAddOp simple_exp_loop_pos simple_exp_loop_neg steps s1 e t1 hrun
        hstop)
  · exact hterm s e e f [] h1 rfl hstop
  · rw [leftFold_append]
    simp [opNode, newExpNode, TreeNode.setChild, TreeNode.setAttr, TreeNode.child,
      TreeNode.attr, TreeNode.kind?]

/-- C9 (witness): `1 - 2 - 3` yields `Op(-, Op(-, 1, 2), 3)`, not
`Op(-, 1, Op(-, 2, 3))`. -/
theorem left_associative_witness :
    Returns simple_exp (advance (initial tokens_1_minus_2_minus_3))
      (opNode1 TokenType.MINUS (opNode1 TokenType.MINUS (constNode1 1) (constNode1 2))
        (constNode1 3), ⟨TokenType.ENDFILE, "", 1, [], false, []⟩) ∧
    opNode1 TokenType.MINUS (opNode1 TokenType.MINUS (constNode1 1) (constNode1 2))
        (constNode1 3)
      ≠ opNode1 TokenType.MINUS (constNode1 1)
        (opNode1 TokenType.MINUS (constNode1 2) (constNode1 3)) := by
  refine ⟨?_, by decide⟩
  have h1 : Returns term (advance (initial tokens_1_minus_2_minus_3))
      (constNode1 1, ⟨TokenType.MINUS, "-", 1, tokens_1_minus_2_minus_3.drop 2, false, []⟩) :=
    term_stable.returns (by decide : term 4 _ = _)
  have h2 : Returns term
      (match_ TokenType.MINUS
        ⟨TokenType.MINUS, "-", 1, tokens_1_minus_2_minus_3.drop 2, false, []⟩)
      (constNode1 2, ⟨TokenType.MINUS, "-", 1, tokens_1_minus_2_minus_3.drop 4, false, []⟩) :=
    term_stable.returns (by decide : term 4 _ = _)
  have h3 : Returns term
      (match_ TokenType.MINUS
        ⟨TokenType.MINUS, "-", 1, tokens_1_minus_2_minus_3.drop 4, false, []⟩)
      (constNode1 3, ⟨TokenType.ENDFILE, "", 1, [], false, []⟩) :=
    term_stable.returns (by decide : term 4 _ = _)
  exact left_associative.2.1 _ _ _ _
    [(⟨TokenType.MINUS, "-", 1, tokens_1_minus_2_minus_3.drop 2, false, []⟩, constNode1 2),
      (⟨TokenType.MINUS, "-", 1, tokens_1_minus_2_minus_3.drop 4, false, []⟩, constNode1 3)]
    h1 ⟨rfl, Or.inr rfl, _, h2, rfl, Or.inr rfl, _, h3, rfl⟩ (by unfold isAddOp; decide)

/-! ## C10: at most one relational operator -/

/-- C10: `exp` consumes at most one relational operator.  When `simple_exp`
returns `t1` with the lookahead on a relational operator `r1` and, past `r1`,
`simple_exp` returns `t2`, then `exp` returns the Operator node
`Op(r1, t1, t2)` in exactly the state the second `simple_exp` leaves: `exp`
itself raises no error and consumes nothing after the second operand, so a
second relational operator stays the lookahead. -/
theorem exp_one_relational (s sa sb : PState) (t1 t2 : TreeNode)
    (h1 : Returns simple_exp s (t1, sa)) (hrel : isRelOp sa.token)
    (h2 : Returns simple_exp (advance sa) (t2, sb)) :
    ∃ r, Returns exp s r ∧ r.2 = sb ∧
      r.1.kind? = some (NodeKind.ExpK ExpKind.OpK) ∧ r.1.attr = Attr.op sa.token ∧
      r.1.child 0 = t1 ∧ r.1.child 1 = t2 ∧ r.1.child 2 = TreeNode.NULL ∧
      r.1.sibling = TreeNode.NULL ∧
      (isRelOp sb.token → isRelOp r.2.token ∧ r.2.input = sb.input) := by
  obtain ⟨N1, h1⟩ := h1
  obtain ⟨N2, h2⟩ := h2
  have hrel' : sa.token = TokenType.LT ∨ sa.token = TokenType.EQ ∨ sa.token = TokenType.LTE
      ∨ sa.token = TokenType.GT ∨ sa.token = TokenType.GTE := hrel
  refine ⟨((opNode t1 sa).setChild 1 t2, sb), ⟨max N1 N2 + 1, fun n hn => ?_⟩, rfl, ?_⟩
  · obtain ⟨k, rfl⟩ : ∃ k, n = k + 1 := ⟨n - 1, by omega⟩
    rw [exp, h1 k (by omega)]
    simp only [hrel', if_true, match_eq_advance rfl, h2 k (by omega)]
  · simp [opNode, newExpNode, TreeNode.setChild, TreeNode.setAttr, TreeNode.child,
      TreeNode.attr, TreeNode.kind?, TreeNode.sibling]

/-- C10 (witness): on `1 < 2 < 3` `exp` returns `Op(<, 1, 2)` with the
lookahead on the second `<`. -/
theorem exp_one_relational_witness :
    ∃ r, Returns exp (advance (initial tokens_1_lt_2_lt_3)) r ∧
      r.2 = ⟨TokenType.LT, "<", 1, [tk TokenType.NUM "3"], false, []⟩ ∧
      r.1.kind? = some (NodeKind.ExpK ExpKind.OpK) ∧ r.1.attr = Attr.op TokenType.LT ∧
      r.1.child 0 = constNode1 1 ∧ r.1.child 1 = constNode1 2 := by
  have h1 : Returns simple_exp (advance (initial tokens_1_lt_2_lt_3))
      (constNode1 1, ⟨TokenType.LT, "<", 1, tokens_1_lt_2_lt_3.drop 2, false, []⟩) :=
    simple_exp_stable.returns (by decide : simple_exp 4 _ = _)
  have h2 : Returns simple_exp
      (advance ⟨TokenType.LT, "<", 1, tokens_1_lt_2_lt_3.drop 2, false, []⟩)
      (constNode1 2, ⟨TokenType.LT, "<", 1, [tk TokenType.NUM "3"], false, []⟩) :=
    simple_exp_stable.returns (by decide : simple_exp 4 _ = _)
  obtain ⟨r, hr, e1, e2, e3, e4, e5, -⟩ := exp_one_relational _ _ _ _ _ h1 (Or.inl rfl) h2
  exact ⟨r, hr, e1, e2, e3, e4, e5⟩

/-! ## C11: operator precedence -/

theorem Steps.noParen {a b : PState} (h : Steps a b) (ha : NoParen a) : NoParen b := by
  induction h with
  | refl => exact ha
  | @adv x _ ih =>
    obtain ⟨-, -, h3, h4⟩ := advance_fields x
    unfold NoParen
    rw [h3, h4]
    cases hx : x.input with
    | nil => exact ⟨by decide, by simp⟩
    | cons t r =>
      have h1 := ih.2
      rw [hx] at h1
      exact ⟨h1 t (List.mem_cons_self _ _), fun u hu => h1 u (List.mem_cons_of_mem _ hu)⟩
  | err m _ ih => exact ih
  | prt _ ih => exact ih
  | txt x _ ih => exact ih

theorem factor_atom {n : Nat} {s b : PState} {t : TreeNode} (h : factor n s = some (t, b))
    (hs : NoParen s) : atomTree t = true := by
  cases n with
  | zero => simp [factor] at h
  | succ n =>
    rw [factor] at h
    split at h
    · cases h; rfl
    · cases h; rfl
    · rename_i hL
      exact absurd hL hs.1
    · cases h; rfl

theorem atomTree_op {t : TreeNode} (h : atomTree t = true) : t.op? = none := by
  cases t with
  | NULL => rfl
  | indeterminate => rfl
  | uninit sib => rfl
  | node k a ty l c0 c1 c2 sib =>
    simp only [atomTree, Bool.and_eq_true, decide_eq_true_eq] at h
    rcases h.1.1.1.1 with hk | hk <;> subst hk <;> rfl

theorem atomTree_precedenceOk {t : TreeNode} (h : atomTree t = true) :
    precedenceOk t = true := by
  cases t with
  | NULL => rfl
  | indeterminate => rfl
  | uninit sib => simp [atomTree] at h
  | node k a ty l c0 c1 c2 sib =>
    have hop := atomTree_op h
    simp only [atomTree, Bool.and_eq_true, decide_eq_true_eq, TreeNode.isNULL] at h
    obtain ⟨⟨⟨⟨-, h0⟩, h1⟩, h2⟩, h3⟩ := h
    cases c0 <;> simp [TreeNode.isNULL] at h0
    cases c1 <;> simp [TreeNode.isNULL] at h1
    cases c2 <;> simp [TreeNode.isNULL] at h2
    cases sib <;> simp [TreeNode.isNULL] at h3
    simp [precedenceOk, TreeNode.mulNode, TreeNode.addNode, TreeNode.relNode, hop,
      TreeNode.op?]

theorem isNULL_eq {t : TreeNode} (h : t.isNULL = true) : t = TreeNode.NULL := by
  cases t <;> simp [TreeNode.isNULL] at h
  rfl

theorem termTree_of_atom {t : TreeNode} (h : atomTree t = true) : termTree t = true := by
  cases t <;> simp_all [termTree]

theorem simpleTree_of_term {t : TreeNode} (h : termTree t = true) : simpleTree t = true := by
  cases t <;> simp_all [simpleTree]

theorem expTree_of_simple {t : TreeNode} (h : simpleTree t = true) : expTree t = true := by
  cases t <;> simp_all [expTree]

theorem nodes_of_op_none {t : TreeNode} (h : t.op? = none) :
    t.mulNode = false ∧ t.addNode = false ∧ t.relNode = false := by
  simp [TreeNode.mulNode, TreeNode.addNode, TreeNode.relNode, h]

theorem nodes_of_mul {t : TreeNode} (h : t.mulNode = true) :
    t.addNode = false ∧ t.relNode = false := by
  simp only [TreeNode.mulNode, decide_eq_true_eq] at h
  rcases h with h | h <;> simp [TreeNode.addNode, TreeNode.relNode, h]

theorem nodes_of_add {t : TreeNode} (h : t.addNode = true) :
    t.mulNode = false ∧ t.relNode = false := by
  simp only [TreeNode.addNode, decide_eq_true_eq] at h
  rcases h with h | h <;> simp [TreeNode.mulNode, TreeNode.relNode, h]

theorem nodes_of_rel {t : TreeNode} (h : t.relNode = true) :
    t.mulNode = false ∧ t.addNode = false := by
  simp only [TreeNode.relNode, decide_eq_true_eq] at h
  rcases h with h | h | h | h | h <;> simp [TreeNode.mulNode, TreeNode.addNode, h]

theorem precedenceOk_node (k : NodeKind) (a : Attr) (ty : ExpType) (l : Nat)
    (c0 c1 : TreeNode) (h0 : precedenceOk c0 = true) (h1 : precedenceOk c1 = true)
    (hm : (TreeNode.node k a ty l c0 c1 TreeNode.NULL TreeNode.NULL).mulNode = true →
      c0.addNode = false ∧ c0.relNode = false ∧ c1.addNode = false ∧ c1.relNode = false)
    (ha : (TreeNode.node k a ty l c0 c1 TreeNode.NULL TreeNode.NULL).addNode = true →
      c0.relNode = false ∧ c1.relNode = false) :
    precedenceOk (TreeNode.node k a ty l c0 c1 TreeNode.NULL TreeNode.NULL) = true := by
  have n1 : TreeNode.NULL.addNode = false := rfl
  have n2 : TreeNode.NULL.relNode = false := rfl
  have n3 : precedenceOk TreeNode.NULL = true := rfl
  rw [precedenceOk, h0, h1, n1, n2, n3]
  cases hM : (TreeNode.node k a ty l c0 c1 TreeNode.NULL TreeNode.NULL).mulNode
  · cases hA : (TreeNode.node k a ty l c0 c1 TreeNode.NULL TreeNode.NULL).addNode
    · simp
    · obtain ⟨e1, e2⟩ := ha hA
      simp [e1, e2]
  · obtain ⟨e1, e2, e3, e4⟩ := hm hM
    have hA := (nodes_of_mul hM).1
    simp [e1, e2, e3, e4, hA]

theorem termTree_spec (t : TreeNode) (h : termTree t = true) :
    t.addNode = false ∧ t.relNode = false ∧ precedenceOk t = true := by
  induction t with
  | NULL => exact ⟨rfl, rfl, rfl⟩
  | indeterminate => exact ⟨rfl, rfl, rfl⟩
  | uninit sib _ => simp [termTree, atomTree] at h
  | node k a ty l c0 c1 c2 sib ih0 _ _ _ =>
    rw [termTree] at h
    rcases Bool.or_eq_true _ _ |>.mp h with h | h
    · simp only [Bool.and_eq_true] at h
      obtain ⟨⟨⟨⟨hm, ht0⟩, ha1⟩, h2⟩, h3⟩ := h
      obtain ⟨i1, i2, i3⟩ := ih0 ht0
      obtain ⟨-, j1, j2⟩ := nodes_of_op_none (atomTree_op ha1)
      obtain rfl := isNULL_eq h2
      obtain rfl := isNULL_eq h3
      obtain ⟨m1, m2⟩ := nodes_of_mul hm
      exact ⟨m1, m2, precedenceOk_node _ _ _ _ _ _ i3 (atomTree_precedenceOk ha1)
        (fun _ => ⟨i1, i2, j1, j2⟩) (fun hA => by rw [m1] at hA; cases hA)⟩
    · obtain ⟨-, j1, j2⟩ := nodes_of_op_none (atomTree_op h)
      exact ⟨j1, j2, atomTree_precedenceOk h⟩

theorem simpleTree_spec (t : TreeNode) (h : simpleTree t = true) :
    t.relNode = false ∧ precedenceOk t = true := by
  induction t with
  | NULL => exact ⟨rfl, rfl⟩
  | indeterminate => exact ⟨rfl, rfl⟩
  | uninit sib _ => simp [simpleTree, termTree, atomTree] at h
  | node k a ty l c0 c1 c2 sib ih0 _ _ _ =>
    rw [simpleTree] at h
    rcases Bool.or_eq_true _ _ |>.mp h with h | h
    · simp only [Bool.and_eq_true] at h
      obtain ⟨⟨⟨⟨ha, hs0⟩, ht1⟩, h2⟩, h3⟩ := h
      obtain ⟨i1, i2⟩ := ih0 hs0
      obtain ⟨-, j1, j2⟩ := termTree_spec c1 ht1
      obtain rfl := isNULL_eq h2
      obtain rfl := isNULL_eq h3
      obtain ⟨m1, m2⟩ := nodes_of_add ha
      exact ⟨m2, precedenceOk_node _ _ _ _ _ _ i2 j2
        (fun hM => by rw [m1] at hM; cases hM) (fun _ => ⟨i1, j1⟩)⟩
    · exact (termTree_spec _ h).2

theorem expTree_spec (t : TreeNode) (h : expTree t = true) : precedenceOk t = true := by
  cases t with
  | NULL => rfl
  | indeterminate => rfl
  | uninit sib => simp [expTree, simpleTree, termTree, atomTree] at h
  | node k a ty l c0 c1 c2 sib =>
    rw [expTree] at h
    rcases Bool.or_eq_true _ _ |>.mp h with h | h
    · simp only [Bool.and_eq_true] at h
      obtain ⟨⟨⟨⟨hr, hs0⟩, hs1⟩, h2⟩, h3⟩ := h
      obtain ⟨-, i2⟩ := simpleTree_spec c0 hs0
      obtain ⟨-, j2⟩ := simpleTree_spec c1 hs1
      obtain rfl := isNULL_eq h2
      obtain rfl := isNULL_eq h3
      obtain ⟨m1, m2⟩ := nodes_of_rel hr
      exact precedenceOk_node _ _ _ _ _ _ i2 j2
        (fun hM => by rw [m1] at hM; cases hM) (fun hA => by rw [m2] at hA; cases hA)
    · exact (simpleTree_spec _ h).2

theorem opNode_eq (t r : TreeNode) (s : PState) :
    (opNode t s).setChild 1 r =
      TreeNode.node (NodeKind.ExpK ExpKind.OpK) (Attr.op s.token) ExpType.Void s.lineno t r
        TreeNode.NULL TreeNode.NULL := rfl

theorem termTree_opNode {t r : TreeNode} {s : PState}
    (hop : s.token = TokenType.TIMES ∨ s.token = TokenType.OVER)
    (ht : termTree t = true) (hr : atomTree r = true) :
    termTree ((opNode t s).setChild 1 r) = true := by
  rw [opNode_eq, termTree, ht, hr]
  rcases hop with h | h <;> simp [TreeNode.mulNode, TreeNode.op?, TreeNode.isNULL, h]

theorem simpleTree_opNode {t r : TreeNode} {s : PState}
    (hop : s.token = TokenType.PLUS ∨ s.token = TokenType.MINUS)
    (ht : simpleTree t = true) (hr : termTree r = true) :
    simpleTree ((opNode t s).setChild 1 r) = true := by
  rw [opNode_eq, simpleTree, ht, hr]
  rcases hop with h | h <;> simp [TreeNode.addNode, TreeNode.op?, TreeNode.isNULL, h]

theorem expTree_opNode {t r : TreeNode} {s : PState}
    (hop : s.token = TokenType.LT ∨ s.token = TokenType.EQ ∨ s.token = TokenType.LTE
      ∨ s.token = TokenType.GT ∨ s.token = TokenType.GTE)
    (ht : simpleTree t = true) (hr : simpleTree r = true) :
    expTree ((opNode t s).setChild 1 r) = true := by
  rw [opNode_eq, expTree, ht, hr]
  rcases hop with h | h | h | h | h <;>
    simp [TreeNode.relNode, TreeNode.op?, TreeNode.isNULL, h]

theorem term_loop_termTree (n : Nat) :
    ∀ (t : TreeNode) (s b : PState) (r : TreeNode), term_loop n t s = some (r, b) →
      NoParen s → termTree t = true → termTree r = true := by
  induction n with
  | zero => simp [term_loop]
  | succ n ih =>
    intro t s b r h hs ht
    rw [term_loop] at h
    split at h
    · rename_i hop
      dsimp only at h
      split at h
      · cases h
      · rename_i q s2 hq
        have hs1 : NoParen (match_ s.token s) := ((Steps.refl s).matched _).noParen hs
        exact ih _ _ _ _ h ((factor_steps hq (Steps.refl _)).noParen hs1)
          (termTree_opNode hop ht (factor_atom hq hs1))
    · cases h
      exact ht

theorem term_termTree {n : Nat} {s b : PState} {t : TreeNode} (h : term n s = some (t, b))
    (hs : NoParen s) : termTree t = true := by
  cases n with
  | zero => simp [term] at h
  | succ n =>
    rw [term] at h
    split at h
    · cases h
    · rename_i q s1 hq
      exact term_loop_termTree _ _ _ _ _ h ((factor_steps hq (Steps.refl _)).noParen hs)
        (termTree_of_atom (factor_atom hq hs))

theorem simple_exp_loop_simpleTree (n : Nat) :
    ∀ (t : TreeNode) (s b : PState) (r : TreeNode), simple_exp_loop n t s = some (r, b) →
      NoParen s → simpleTree t = true → simpleTree r = true := by
  induction n with
  | zero => simp [simple_exp_loop]
  | succ n ih =>
    intro t s b r h hs ht
    rw [simple_exp_loop] at h
    split at h
    · rename_i hop
      dsimp only at h
      split at h
      · cases h
      · rename_i q s2 hq
        have hs1 : NoParen (match_ s.token s) := ((Steps.refl s).matched _).noParen hs
        exact ih _ _ _ _ h ((term_steps hq (Steps.refl _)).noParen hs1)
          (simpleTree_opNode hop ht (term_termTree hq hs1))
    · cases h
      exact ht

theorem simple_exp_simpleTree {n : Nat} {s b : PState} {t : TreeNode}
    (h : simple_exp n s = some (t, b)) (hs : NoParen s) : simpleTree t = true := by
  cases n with
  | zero => simp [simple_exp] at h
  | succ n =>
    rw [simple_exp] at h
    split at h
    · cases h
    · rename_i q s1 hq
      exact simple_exp_loop_simpleTree _ _ _ _ _ h ((term_steps hq (Steps.refl _)).noParen hs)
        (simpleTree_of_term (term_termTree hq hs))

theorem exp_expTree {n : Nat} {s b : PState} {t : TreeNode} (h : exp n s = some (t, b))
    (hs : NoParen s) : expTree t = true := by
  cases n with
  | zero => simp [exp] at h
  | succ n =>
    rw [exp] at h
    split at h
    · cases h
    · rename_i q s1 hq
      have hq1 := simple_exp_simpleTree hq hs
      have hs1 := (simple_exp_steps hq (Steps.refl _)).noParen hs
      split at h
      · rename_i hop
        dsimp only at h
        split at h
        · cases h
        · rename_i r s3 hr
          cases h
          exact expTree_opNode hop hq1
            (simple_exp_simpleTree hr (((Steps.refl s1).matched _).noParen hs1))
      · cases h
        exact expTree_of_simple hq1

/-- C11: operator precedence.  On every token stream without an opening
parenthesis (in particular on every parenthesis-free expression over numbers,
identifiers, `+ - * /` and a relational operator) `exp` returns a tree in
which no multiplicative Operator node has an additive or relational Operator
node as a child and no additive Operator node has a relational Operator node
as a child. -/
theorem exp_precedence (s : PState) (hs : NoParen s) :
    ∃ r, Returns exp s r ∧ precedenceOk r.1 = true := by
  obtain ⟨⟨t, b⟩, hr⟩ := (exp_halts s).result exp_stable
  obtain ⟨n, hn⟩ := hr.eq_of_le
  exact ⟨(t, b), hr, expTree_spec t (exp_expTree hn hs)⟩

/-- C11 (witness): `a + b * c` yields `Op(+, a, Op(*, b, c))` and `a < b + c`
yields `Op(<, a, Op(+, b, c))`. -/
theorem exp_precedence_witness :
    (∃ r, Returns exp (advance (initial tokens_a_plus_b_times_c)) r ∧
      precedenceOk r.1 = true ∧
      r.1 = opNode1 TokenType.PLUS (idNode1 "a")
        (opNode1 TokenType.TIMES (idNode1 "b") (idNode1 "c"))) ∧
    (∃ r, Returns exp (advance (initial tokens_a_lt_b_plus_c)) r ∧
      precedenceOk r.1 = true ∧
      r.1 = opNode1 TokenType.LT (idNode1 "a")
        (opNode1 TokenType.PLUS (idNode1 "b") (idNode1 "c"))) := by
  constructor
  · obtain ⟨r, hr, hp⟩ := exp_precedence (advance (initial tokens_a_plus_b_times_c))
      ⟨by decide, by decide⟩
    obtain ⟨r', hr', hq⟩ := exp_stable.returns_check 6
      (advance (initial tokens_a_plus_b_times_c))
      (fun r => decide (r.1 = opNode1 TokenType.PLUS (idNode1 "a")
        (opNode1 TokenType.TIMES (idNode1 "b") (idNode1 "c")))) (by decide)
    rw [Returns.unique hr' hr] at hq
    exact ⟨r, hr, hp, of_decide_eq_true hq⟩
  · obtain ⟨r, hr, hp⟩ := exp_precedence (advance (initial tokens_a_lt_b_plus_c))
      ⟨by decide, by decide⟩
    obtain ⟨r', hr', hq⟩ := exp_stable.returns_check 6
      (advance (initial tokens_a_lt_b_plus_c))
      (fun r => decide (r.1 = opNode1 TokenType.LT (idNode1 "a")
        (opNode1 TokenType.PLUS (idNode1 "b") (idNode1 "c")))) (by decide)
    rw [Returns.unique hr' hr] at hq
    exact ⟨r, hr, hp, of_decide_eq_true hq⟩

/-! ## C12: the shape of an If node -/

/-- A run that lists nothing leaves the flag as it was. -/
theorem Steps.error_eq {a b : PState} (h : Steps a b) (hl : b.listing = a.listing) :
    b.Error = a.Error := by
  have hf := h.flag.2
  rw [hl] at hf
  simp only [lt_self_iff_false, or_false] at hf
  cases hb : b.Error <;> cases ha : a.Error <;> simp_all

/-- C12: the shape of an If node.  With the lookahead on `if`, the condition
parsed by `exp` without a diagnostic up to `then` and the statement sequence
after `then` parsed without a diagnostic: if that sequence ends at `end`,
`if_stmt` returns an If node with `child[0]` the tree of the condition,
`child[1]` the chain of the sequence and `child[2]` empty; if it ends at
`else` and the sequence after `else` is parsed without a diagnostic up to
`end`, `child[2]` is the chain of that sequence.  In both cases nothing is
listed, the flag is unchanged and the lookahead ends just past `end`. -/
theorem if_stmt_shape (s s2 s4 : PState) (c b : TreeNode)
    (hIf : s.token = TokenType.IF)
    (hE : Returns exp (advance s) (c, s2)) (hE1 : s2.listing = s.listing)
    (hThen : s2.token = TokenType.THEN)
    (hS : Returns stmt_sequence (advance s2) (b, s4)) (hS1 : s4.listing = s2.listing) :
    (s4.token = TokenType.END →
      ∃ r, Returns if_stmt s r ∧ r.2 = advance s4 ∧
        r.1.kind? = some (NodeKind.StmtK StmtKind.IfK) ∧
        r.1.child 0 = c ∧ r.1.child 1 = b ∧ r.1.child 2 = TreeNode.NULL ∧
        r.1.sibling = TreeNode.NULL ∧ r.2.listing = s.listing ∧ r.2.Error = s.Error) ∧
    (∀ (e : TreeNode) (s6 : PState), s4.token = TokenType.ELSE →
      Returns stmt_sequence (advance s4) (e, s6) → s6.listing = s4.listing →
      s6.token = TokenType.END →
      ∃ r, Returns if_stmt s r ∧ r.2 = advance s6 ∧
        r.1.kind? = some (NodeKind.StmtK StmtKind.IfK) ∧
        r.1.child 0 = c ∧ r.1.child 1 = b ∧ r.1.child 2 = e ∧
        r.1.sibling = TreeNode.NULL ∧ r.2.listing = s.listing ∧ r.2.Error = s.Error) := by
  obtain ⟨N1, h1⟩ := hE
  obtain ⟨N2, h2⟩ := hS
  constructor
  · intro hEnd
    have hne : ¬ s4.token = TokenType.ELSE := by rw [hEnd]; decide
    have hrun : ∀ n, N1 + N2 + 1 ≤ n → if_stmt n s = some
        (((newStmtNode StmtKind.IfK s).setChild 0 c).setChild 1 b, advance s4) := by
      intro n hn
      obtain ⟨k, rfl⟩ : ∃ k, n = k + 1 := ⟨n - 1, by omega⟩
      rw [if_stmt]
      simp only [match_eq_advance hIf, h1 k (by omega), match_eq_advance hThen,
        h2 k (by omega), hne, if_false, match_eq_advance hEnd]
    have hl : (advance s4).listing = s.listing := by
      rw [(advance_fields s4).2.1, hS1, hE1]
    refine ⟨_, ⟨_, hrun⟩, rfl, rfl, rfl, rfl, rfl, rfl, hl, ?_⟩
    exact (if_stmt_steps (hrun _ le_rfl) (Steps.refl s)).error_eq hl
  · intro e s6 hElse ⟨N3, h3⟩ hS2 hEnd
    have hrun : ∀ n, N1 + N2 + N3 + 1 ≤ n → if_stmt n s = some
        ((((newStmtNode StmtKind.IfK s).setChild 0 c).setChild 1 b).setChild 2 e,
          advance s6) := by
      intro n hn
      obtain ⟨k, rfl⟩ : ∃ k, n = k + 1 := ⟨n - 1, by omega⟩
      rw [if_stmt]
      simp only [match_eq_advance hIf, h1 k (by omega), match_eq_advance hThen,
        h2 k (by omega), hElse, if_true, match_eq_advance hElse, h3 k (by omega),
        match_eq_advance hEnd]
    have hl : (advance s6).listing = s.listing := by
      rw [(advance_fields s6).2.1, hS2, hS1, hE1]
    refine ⟨_, ⟨_, hrun⟩, rfl, rfl, rfl, rfl, rfl, rfl, hl, ?_⟩
    exact (if_stmt_steps (hrun _ le_rfl) (Steps.refl s)).error_eq hl

/-- C12 (witness): `if x < 1 then write x end` gives the children
`[Op(<, Id x, Const 1), Write(Id x), empty]`, and
`if x < 1 then write x else read x end` has the Read node as `child[2]`. -/
theorem if_stmt_shape_witness :
    (∃ r, Returns if_stmt (advance (initial tokens_if_end)) r ∧
      r.1.kind? = some (NodeKind.StmtK StmtKind.IfK) ∧
      r.1.child 0 = opNode1 TokenType.LT (idNode1 "x") (constNode1 1) ∧
      r.1.child 1 = tree_write_x ∧ r.1.child 2 = TreeNode.NULL ∧
      r.2.listing = [] ∧ r.2.Error = false ∧ r.2.token = TokenType.ENDFILE) ∧
    (∃ r, Returns if_stmt (advance (initial tokens_if_else_end)) r ∧
      r.1.child 0 = opNode1 TokenType.LT (idNode1 "x") (constNode1 1) ∧
      r.1.child 1 = tree_write_x ∧ r.1.child 2 = readNode1 "x" TreeNode.NULL ∧
      r.2.listing = [] ∧ r.2.Error = false ∧ r.2.token = TokenType.ENDFILE) := by
  constructor
  · have hE : Returns exp (advance (advance (initial tokens_if_end)))
        (opNode1 TokenType.LT (idNode1 "x") (constNode1 1),
          ⟨TokenType.THEN, "then", 1, tokens_if_end.drop 5, false, []⟩) :=
      exp_stable.returns (by decide : exp 6 _ = _)
    have hS : Returns stmt_sequence
        (advance ⟨TokenType.THEN, "then", 1, tokens_if_end.drop 5, false, []⟩)
        (tree_write_x, ⟨TokenType.END, "end", 1, [], false, []⟩) :=
      stmt_sequence_stable.returns (by decide : stmt_sequence 8 _ = _)
    obtain ⟨r, hr, e1, e2, e3, e4, e5, -, e7, e8⟩ :=
      (if_stmt_shape _ _ _ _ _ rfl hE rfl rfl hS rfl).1 rfl
    exact ⟨r, hr, e2, e3, e4, e5, e7, e8, by rw [e1]; rfl⟩
  · have hE : Returns exp (advance (advance (initial tokens_if_else_end)))
        (opNode1 TokenType.LT (idNode1 "x") (constNode1 1),
          ⟨TokenType.THEN, "then", 1, tokens_if_else_end.drop 5, false, []⟩) :=
      exp_stable.returns (by decide : exp 6 _ = _)
    have hS : Returns stmt_sequence
        (advance ⟨TokenType.THEN, "then", 1, tokens_if_else_end.drop 5, false, []⟩)
        (tree_write_x, ⟨TokenType.ELSE, "else", 1, tokens_if_else_end.drop 8, false, []⟩) :=
      stmt_sequence_stable.returns (by decide : stmt_sequence 8 _ = _)
    have hS2 : Returns stmt_sequence
        (advance ⟨TokenType.ELSE, "else", 1, tokens_if_else_end.drop 8, false, []⟩)
        (readNode1 "x" TreeNode.NULL, ⟨TokenType.END, "end", 1, [], false, []⟩) :=
      stmt_sequence_stable.returns (by decide : stmt_sequence 8 _ = _)
    obtain ⟨r, hr, e1, -, e3, e4, e5, -, e7, e8⟩ :=
      (if_stmt_shape _ _ _ _ _ rfl hE rfl rfl hS rfl).2 _ _ rfl hS2 rfl rfl
    exact ⟨r, hr, e3, e4, e5, e7, e8, by rw [e1]; rfl⟩

/-! ## C13: the shape of the loop nodes -/

theorem loop_stmt_returns (rule : Nat → PState → Option (TreeNode × PState))
    (kind : StmtKind) (open_ close : TokenType)
    (hdef : ∀ n a, rule (n + 1) a =
      match stmt_sequence n (match_ open_ a) with
      | none => none
      | some (b, s2) =>
        match exp n (match_ close s2) with
        | none => none
        | some (c, s4) => some (((newStmtNode kind a).setChild 0 b).setChild 1 c, s4))
    {s s2 s4 : PState} {b c : TreeNode} (hOpen : s.token = open_)
    (hS : Returns stmt_sequence (advance s) (b, s2)) (hClose : s2.token = close)
    (hE : Returns exp (advance s2) (c, s4)) :
    Returns rule s (((newStmtNode kind s).setChild 0 b).setChild 1 c, s4) := by
  obtain ⟨N1, h1⟩ := hS
  obtain ⟨N2, h2⟩ := hE
  refine ⟨N1 + N2 + 1, fun n hn => ?_⟩
  obtain ⟨k, rfl⟩ : ∃ k, n = k + 1 := ⟨n - 1, by omega⟩
  rw [hdef]
  simp only [match_eq_advance hOpen, h1 k (by omega), match_eq_advance hClose, h2 k (by omega)]

/-- C13: the shape of the loop nodes.  With the lookahead on `do`, the body
parsed by `stmt_sequence` without a diagnostic up to `while` and the condition
after it parsed by `exp` without a diagnostic, `while_stmt` returns a While
node with `child[0]` the chain of the body, `child[1]` the tree of the
condition and `child[2]` empty, in the state `exp` leaves, nothing listed and
the flag unchanged; `repeat_stmt` does the same with `repeat` and `until`
and a Repeat node.  The body is any statement sequence, also one that ends
with a nested `do ... while ...`. -/
theorem loop_stmt_shape (s s2 s4 : PState) (b c : TreeNode)
    (hS : Returns stmt_sequence (advance s) (b, s2)) (hS1 : s2.listing = s.listing)
    (hE : Returns exp (advance s2) (c, s4)) (hE1 : s4.listing = s2.listing) :
    (s.token = TokenType.DO → s2.token = TokenType.WHILE →
      ∃ r, Returns while_stmt s r ∧ r.2 = s4 ∧
        r.1.kind? = some (NodeKind.StmtK StmtKind.WhileK) ∧
        r.1.child 0 = b ∧ r.1.child 1 = c ∧ r.1.child 2 = TreeNode.NULL ∧
        r.1.sibling = TreeNode.NULL ∧ r.2.listing = s.listing ∧ r.2.Error = s.Error) ∧
    (s.token = TokenType.REPEAT → s2.token = TokenType.UNTIL →
      ∃ r, Returns repeat_stmt s r ∧ r.2 = s4 ∧
        r.1.kind? = some (NodeKind.StmtK StmtKind.RepeatK) ∧
        r.1.child 0 = b ∧ r.1.child 1 = c ∧ r.1.child 2 = TreeNode.NULL ∧
        r.1.sibling = TreeNode.NULL ∧ r.2.listing = s.listing ∧ r.2.Error = s.Error) := by
  have hl : s4.listing = s.listing := by rw [hE1, hS1]
  constructor
  · intro hOpen hClose
    have hr := loop_stmt_returns while_stmt StmtKind.WhileK TokenType.DO TokenType.WHILE
      (fun n a => by rw [while_stmt]) hOpen hS hClose hE
    obtain ⟨n, hn⟩ := hr.eq_of_le
    exact ⟨_, hr, rfl, rfl, rfl, rfl, rfl, rfl, hl,
      (while_stmt_steps hn (Steps.refl s)).error_eq hl⟩
  · intro hOpen hClose
    have hr := loop_stmt_returns repeat_stmt StmtKind.RepeatK TokenType.REPEAT TokenType.UNTIL
      (fun n a => by rw [repeat_stmt]) hOpen hS hClose hE
    obtain ⟨n, hn⟩ := hr.eq_of_le
    exact ⟨_, hr, rfl, rfl, rfl, rfl, rfl, rfl, hl,
      (repeat_stmt_steps hn (Steps.refl s)).error_eq hl⟩

/-- C13 (witness): `do do x := 1 while a while b`, whose body ends with a nested
loop, gives a While node over the While node of the body and `b`;
`repeat x := 1 until a` gives a Repeat node. -/
theorem loop_stmt_shape_witness :
    (∃ r, Returns while_stmt (advance (initial tokens_nested_do)) r ∧
      r.1.kind? = some (NodeKind.StmtK StmtKind.WhileK) ∧
      r.1.child 0 = tree_do_while ∧ r.1.child 1 = idNode1 "b" ∧
      r.1.child 2 = TreeNode.NULL ∧ r.2.listing = [] ∧ r.2.Error = false) ∧
    (∃ r, Returns repeat_stmt (advance (initial tokens_repeat)) r ∧
      r.1.kind? = some (NodeKind.StmtK StmtKind.RepeatK) ∧
      r.1.child 0 = tree_x_assign_1 ∧ r.1.child 1 = idNode1 "a" ∧
      r.1.child 2 = TreeNode.NULL ∧ r.2.listing = [] ∧ r.2.Error = false) := by
  constructor
  · have hS : Returns stmt_sequence (advance (advance (initial tokens_nested_do)))
        (tree_do_while, ⟨TokenType.WHILE, "while", 1, tokens_nested_do.drop 8, false, []⟩) :=
      stmt_sequence_stable.returns (by decide : stmt_sequence 12 _ = _)
    have hE : Returns exp
        (advance ⟨TokenType.WHILE, "while", 1, tokens_nested_do.drop 8, false, []⟩)
        (idNode1 "b", ⟨TokenType.ENDFILE, "", 1, [], false, []⟩) :=
      exp_stable.returns (by decide : exp 6 _ = _)
    obtain ⟨r, hr, -, e2, e3, e4, e5, -, e7, e8⟩ :=
      (loop_stmt_shape _ _ _ _ _ hS rfl hE rfl).1 rfl rfl
    exact ⟨r, hr, e2, e3, e4, e5, e7, e8⟩
  · have hS : Returns stmt_sequence (advance (advance (initial tokens_repeat)))
        (tree_x_assign_1, ⟨TokenType.UNTIL, "until", 1, tokens_repeat.drop 5, false, []⟩) :=
      stmt_sequence_stable.returns (by decide : stmt_sequence 12 _ = _)
    have hE : Returns exp
        (advance ⟨TokenType.UNTIL, "until", 1, tokens_repeat.drop 5, false, []⟩)
        (idNode1 "a", ⟨TokenType.ENDFILE, "", 1, [], false, []⟩) :=
      exp_stable.returns (by decide : exp 6 _ = _)
    obtain ⟨r, hr, -, e2, e3, e4, e5, -, e7, e8⟩ :=
      (loop_stmt_shape _ _ _ _ _ hS rfl hE rfl).2 rfl rfl
    exact ⟨r, hr, e2, e3, e4, e5, e7, e8⟩

/-! ## C14: assignment -/

/-- C14: assignment.  With the lookahead on an identifier followed by `:=`,
`assign_stmt` returns an Assign node whose `attr.name` is the identifier's
lexeme.  If the token after `:=` is a string literal, `child[0]` is a
Constant node typed String that carries the literal's lexeme, and the rule
stops right after that one token; otherwise `child[0]` is exactly the tree
`exp` returns from the token after `:=`, and the rule stops where `exp`
stops. -/
theorem assign_stmt_shape (s : PState) (hID : s.token = TokenType.ID)
    (hAssign : (advance s).token = TokenType.ASSIGN) :
    ((advance (advance s)).token = TokenType.STR →
      ∃ r, Returns assign_stmt s r ∧ r.2 = advance (advance (advance s)) ∧
        r.1.kind? = some (NodeKind.StmtK StmtKind.AssignK) ∧
        r.1.attr = Attr.name s.tokenString ∧
        (r.1.child 0).kind? = some (NodeKind.ExpK ExpKind.ConstK) ∧
        (r.1.child 0).type? = some ExpType.String ∧
        (r.1.child 0).attr = Attr.name (advance (advance s)).tokenString ∧
        (r.1.child 0).child 0 = TreeNode.NULL ∧ (r.1.child 0).sibling = TreeNode.NULL ∧
        r.1.child 1 = TreeNode.NULL ∧ r.1.sibling = TreeNode.NULL) ∧
    ((advance (advance s)).token ≠ TokenType.STR →
      ∀ (e : TreeNode) (s3 : PState), Returns exp (advance (advance s)) (e, s3) →
      ∃ r, Returns assign_stmt s r ∧ r.2 = s3 ∧
        r.1.kind? = some (NodeKind.StmtK StmtKind.AssignK) ∧
        r.1.attr = Attr.name s.tokenString ∧ r.1.child 0 = e ∧
        r.1.child 1 = TreeNode.NULL ∧ r.1.sibling = TreeNode.NULL) := by
  have hm1 : match_ TokenType.ID s = advance s := match_eq_advance hID
  have hm2 : match_ TokenType.ASSIGN (advance s) = advance (advance s) :=
    match_eq_advance hAssign
  constructor
  · intro hStr
    have hrun : assign_stmt 0 s = some
        (((newStmtNode StmtKind.AssignK s).setAttr (Attr.name s.tokenString)).setChild 0
          (((newExpNode ExpKind.ConstK (advance (advance s))).setAttr
            (Attr.name (advance (advance s)).tokenString)).setType ExpType.String),
          advance (advance (advance s))) := by
      simp only [assign_stmt, hID, if_true, hm1, hm2, hStr, match_eq_advance hStr]
    exact ⟨_, assign_stmt_stable.returns hrun, rfl, rfl, rfl, rfl, rfl, rfl, rfl, rfl, rfl,
      rfl⟩
  · intro hStr e s3 ⟨N, hN⟩
    have hrun : ∀ n, N ≤ n → assign_stmt n s = some
        (((newStmtNode StmtKind.AssignK s).setAttr (Attr.name s.tokenString)).setChild 0 e,
          s3) := by
      intro n hn
      simp only [assign_stmt, hID, if_true, hm1, hm2, hStr, if_false, hN n hn]
    exact ⟨_, ⟨N, hrun⟩, rfl, rfl, rfl, rfl, rfl, rfl⟩

/-- C14 (witness): `x := "hi" ; y` gives an Assign node `x` over the String
constant `"hi"` with the lookahead left on `;`, and `x := 1 + 2` gives an
Assign node `x` over `Op(+, 1, 2)`. -/
theorem assign_stmt_shape_witness :
    (∃ r, Returns assign_stmt (advance (initial tokens_assign_string)) r ∧
      r.1.attr = Attr.name "x" ∧
      (r.1.child 0).kind? = some (NodeKind.ExpK ExpKind.ConstK) ∧
      (r.1.child 0).type? = some ExpType.String ∧
      (r.1.child 0).attr = Attr.name "\"hi\"" ∧
      r.2.token = TokenType.SEMI ∧ r.2.input = [tk TokenType.ID "y"]) ∧
    (∃ r, Returns assign_stmt (advance (initial tokens_assign_sum)) r ∧
      r.1.attr = Attr.name "x" ∧
      r.1.child 0 = opNode1 TokenType.PLUS (constNode1 1) (constNode1 2)) := by
  constructor
  · obtain ⟨r, hr, e1, -, e3, e4, e5, e6, -⟩ :=
      (assign_stmt_shape (advance (initial tokens_assign_string)) rfl rfl).1 rfl
    exact ⟨r, hr, e3, e4, e5, e6, by rw [e1]; rfl, by rw [e1]; rfl⟩
  · have hE : Returns exp (advance (advance (advance (initial tokens_assign_sum))))
        (opNode1 TokenType.PLUS (constNode1 1) (constNode1 2),
          ⟨TokenType.ENDFILE, "", 1, [], false, []⟩) :=
      exp_stable.returns (by decide : exp 6 _ = _)
    obtain ⟨r, hr, -, -, e3, e4, -⟩ :=
      (assign_stmt_shape (advance (initial tokens_assign_sum)) rfl rfl).2 (by decide) _ _ hE
    exact ⟨r, hr, e3, e4⟩

/-! ## C15: the order of the statements -/

theorem kind_setChild (t q : TreeNode) (i : Nat) : (t.setChild i q).kind? = t.kind? := by
  cases t with
  | node k a ty l c0 c1 c2 sib =>
    match i with
    | 0 => rfl
    | 1 => rfl
    | 2 => rfl
    | _ + 3 => rfl
  | _ => rfl

theorem sibling_setChild (t q : TreeNode) (i : Nat) : (t.setChild i q).sibling = t.sibling := by
  cases t with
  | node k a ty l c0 c1 c2 sib =>
    match i with
    | 0 => rfl
    | 1 => rfl
    | 2 => rfl
    | _ + 3 => rfl
  | _ => rfl

theorem kind_setAttr (t : TreeNode) (a : Attr) : (t.setAttr a).kind? = t.kind? := by
  cases t <;> rfl

theorem sibling_setAttr (t : TreeNode) (a : Attr) : (t.setAttr a).sibling = t.sibling := by
  cases t <;> rfl

theorem single_setChild {t : TreeNode} (h : single t) (i : Nat) (q : TreeNode) :
    single (t.setChild i q) := by
  unfold single
  rw [kind_setChild, sibling_setChild]
  exact h

theorem single_setAttr {t : TreeNode} (h : single t) (a : Attr) : single (t.setAttr a) := by
  unfold single
  rw [kind_setAttr, sibling_setAttr]
  exact h

theorem single_newStmtNode (k : StmtKind) (s : PState) : single (newStmtNode k s) :=
  ⟨by simp [newStmtNode, TreeNode.kind?], rfl⟩

theorem single_isNULL {q : TreeNode} (h : single q) : q.isNULL = false := by
  cases q with
  | NULL => exact absurd rfl h.1
  | _ => rfl

theorem siblings_single {q : TreeNode} (h : single q) : siblings q = [q] := by
  cases q with
  | node k a ty l c0 c1 c2 sib =>
    have hs : sib = TreeNode.NULL := h.2
    subst hs
    rfl
  | NULL => exact absurd rfl h.1
  | indeterminate => exact absurd rfl h.1
  | uninit sib => exact absurd rfl h.1

theorem siblings_setSibling {q : TreeNode} (h : single q) (x : TreeNode) :
    siblings (q.setSibling x) = q :: siblings x := by
  cases q with
  | node k a ty l c0 c1 c2 sib =>
    have hs : sib = TreeNode.NULL := h.2
    subst hs
    rfl
  | NULL => exact absurd rfl h.1
  | indeterminate => exact absurd rfl h.1
  | uninit sib => exact absurd rfl h.1

theorem siblings_chain (qs : List TreeNode) (h : ∀ q ∈ qs, single q) :
    siblings (chain qs) = qs := by
  induction qs with
  | nil => rfl
  | cons q rest ih =>
    cases rest with
    | nil => exact siblings_single (h q (List.mem_cons_self _ _))
    | cons m rest =>
      rw [chain, siblings_setSibling (h q (List.mem_cons_self _ _)),
        ih (fun x hx => h x (List.mem_cons_of_mem _ hx))]

theorem chainEnd_chain (qs : List TreeNode) (h : ∀ q ∈ qs, single q) :
    chainEnd (chain qs) = TreeNode.NULL := by
  induction qs with
  | nil => rfl
  | cons q rest ih =>
    have hq := h q (List.mem_cons_self _ _)
    cases q with
    | node k a ty l c0 c1 c2 sib =>
      have hs : sib = TreeNode.NULL := hq.2
      subst hs
      cases rest with
      | nil => rfl
      | cons m rest =>
        rw [chain]
        exact ih (fun x hx => h x (List.mem_cons_of_mem _ hx))
    | NULL => exact absurd rfl hq.1
    | indeterminate => exact absurd rfl hq.1
    | uninit sib => exact absurd rfl hq.1

theorem diagnostics_unexpected (s : PState) :
    diagnostics (advance (printToken (syntaxError "unexpected token -> " s))).listing
      = diagnostics s.listing + 1 := by
  rw [(advance_fields _).2.1]
  simp [printToken, syntaxError, diagnostics_append, diagnostics]

/-- A statement parsed without a diagnostic is an initialised node without
sibling. -/
theorem statement_single {n : Nat} {s b : PState} {q : TreeNode}
    (h : statement n s = some (q, b)) (hl : b.listing = s.listing) : single q := by
  cases n with
  | zero => simp [statement] at h
  | succ n =>
    rw [statement] at h
    try dsimp only at h
    split at h
    · cases n with
      | zero => simp [if_stmt] at h
      | succ n =>
        rw [if_stmt] at h
        try dsimp only at h
        repeat' split at h
        all_goals try cases h
        all_goals
          repeat (
            first
            | exact single_newStmtNode _ _
            | apply single_setChild)
    · cases n with
      | zero => simp [repeat_stmt] at h
      | succ n =>
        rw [repeat_stmt] at h
        try dsimp only at h
        repeat' split at h
        all_goals try cases h
        all_goals
          repeat (
            first
            | exact single_newStmtNode _ _
            | apply single_setChild)
    · cases n with
      | zero => simp [while_stmt] at h
      | succ n =>
        rw [while_stmt] at h
        try dsimp only at h
        repeat' split at h
        all_goals try cases h
        all_goals
          repeat (
            first
            | exact single_newStmtNode _ _
            | apply single_setChild)
    · simp only [assign_stmt] at h
      repeat' split at h
      all_goals try cases h
      all_goals
        repeat (
          first
          | exact single_newStmtNode _ _
          | apply single_setChild
          | apply single_setAttr)
    · cases h
      split
      · exact single_setAttr (single_newStmtNode _ _) _
      · exact single_newStmtNode _ _
    · simp only [write_stmt] at h
      repeat' split at h
      all_goals try cases h
      all_goals
        repeat (
          first
          | exact single_newStmtNode _ _
          | apply single_setChild)
    · cases h
      have hd := diagnostics_unexpected s
      rw [hl] at hd
      omega

theorem link_single (nodes : List TreeNode) {q : TreeNode} (h : single q) :
    link nodes q = nodes ++ [q] := by
  simp [link, single_isNULL h]

theorem stmt_sequence_loop_run (more : List (TreeNode × PState)) :
    ∀ (nodes : List TreeNode) (s e : PState), StatementRun s more e → stopsSequence e.token →
      Returns (fun n => stmt_sequence_loop n nodes) s (nodes ++ more.map Prod.fst, e) ∧
      (∀ q ∈ more.map Prod.fst, single q) ∧ e.listing = s.listing := by
  induction more with
  | nil =>
    intro nodes s e hrun hstop
    simp only [StatementRun] at hrun
    subst hrun
    refine ⟨⟨1, fun n hn => ?_⟩, by simp, rfl⟩
    obtain ⟨k, rfl⟩ : ∃ k, n = k + 1 := ⟨n - 1, by omega⟩
    show stmt_sequence_loop (k + 1) nodes e = _
    have hc : ¬ (e.token ≠ TokenType.ENDFILE ∧ e.token ≠ TokenType.END
        ∧ e.token ≠ TokenType.ELSE ∧ e.token ≠ TokenType.UNTIL ∧ e.token ≠ TokenType.WHILE) := by
      rintro ⟨c1, c2, c3, c4, c5⟩
      rcases hstop with h | h | h | h | h
      · exact c1 h
      · exact c2 h
      · exact c3 h
      · exact c4 h
      · exact c5 h
    rw [stmt_sequence_loop, if_neg hc]
    simp
  | cons step more ih =>
    intro nodes s e hrun hstop
    obtain ⟨q, a⟩ := step
    simp only [StatementRun] at hrun
    obtain ⟨hsemi, ⟨N1, h1⟩, hl, hmore⟩ := hrun
    have hq : single q :=
      statement_single (h1 N1 le_rfl) (by rw [hl, (advance_fields s).2.1])
    obtain ⟨⟨N2, h2⟩, hall, hle⟩ := ih (link nodes q) a e hmore hstop
    refine ⟨⟨N1 + N2 + 1, fun n hn => ?_⟩, ?_, by rw [hle, hl]⟩
    · obtain ⟨k, rfl⟩ : ∃ k, n = k + 1 := ⟨n - 1, by omega⟩
      show stmt_sequence_loop (k + 1) nodes s = _
      have hc : s.token ≠ TokenType.ENDFILE ∧ s.token ≠ TokenType.END
          ∧ s.token ≠ TokenType.ELSE ∧ s.token ≠ TokenType.UNTIL
          ∧ s.token ≠ TokenType.WHILE := by
        rw [hsemi]; decide
      rw [stmt_sequence_loop, if_pos hc]
      simp only [match_eq_advance hsemi, h1 k (by omega)]
      have := h2 k (by omega)
      simp only [link_single nodes hq, List.append_assoc, List.singleton_append] at this
      simpa [link_single nodes hq] using this
    · intro x hx
      simp only [List.map_cons, List.mem_cons] at hx
      rcases hx with rfl | hx
      · exact hq
      · exact hall x hx

/-- C15: the order of the statements.  When `statement` returns the node `q1`
without a diagnostic and the input continues with `; statement` steps, each
parsed without a diagnostic, up to a state whose lookahead is `end`, `else`,
`until`, `while` or end-of-file, `stmt_sequence` returns in that state,
without consuming the terminator.  What it returns is the node of the first
statement with the nodes of the statements linked through `sibling` in source
order: the tree is `chain` of these nodes, each of which is an initialised
node that its statement returned without sibling, the chain has exactly as
many nodes as there are statements, and the `sibling` field of the last node
is `NULL`, not a never-written pointer; nothing is listed and the flag is
unchanged. -/
theorem stmt_sequence_order (s a1 e : PState) (q1 : TreeNode)
    (more : List (TreeNode × PState))
    (h1 : Returns statement s (q1, a1)) (hl : a1.listing = s.listing)
    (hrun : StatementRun a1 more e) (hstop : stopsSequence e.token) :
    ∃ r, Returns stmt_sequence s r ∧ r.2 = e ∧
      r.1 = chain (q1 :: more.map Prod.fst) ∧
      (∀ q ∈ q1 :: more.map Prod.fst, single q) ∧
      r.1.kind? = q1.kind? ∧ r.1.kind? ≠ none ∧
      siblings r.1 = q1 :: more.map Prod.fst ∧
      (siblings r.1).length = more.length + 1 ∧
      chainEnd r.1 = TreeNode.NULL ∧
      r.2.listing = s.listing ∧ r.2.Error = s.Error := by
  obtain ⟨N1, h1⟩ := h1
  have hq : single q1 := statement_single (h1 N1 le_rfl) hl
  obtain ⟨⟨N2, h2⟩, hall, hle⟩ := stmt_sequence_loop_run more (link [] q1) a1 e hrun hstop
  have hrun : ∀ n, N1 + N2 + 1 ≤ n → stmt_sequence n s
      = some (chain (q1 :: more.map Prod.fst), e) := by
    intro n hn
    obtain ⟨k, rfl⟩ : ∃ k, n = k + 1 := ⟨n - 1, by omega⟩
    have := h2 k (by omega)
    simp only [link_single [] hq, List.nil_append, List.singleton_append] at this
    rw [stmt_sequence]
    simp only [h1 k (by omega), link_single [] hq, List.nil_append, this]
  have hsingle : ∀ q ∈ q1 :: more.map Prod.fst, single q := by
    intro x hx
    rcases List.mem_cons.mp hx with rfl | hx
    · exact hq
    · exact hall x hx
  have hsib := siblings_chain _ hsingle
  have hlist : e.listing = s.listing := by rw [hle, hl]
  have hkind : (chain (q1 :: more.map Prod.fst)).kind? = q1.kind? := by
    cases hm : more.map Prod.fst with
    | nil => rfl
    | cons m rest =>
      rw [chain]
      cases q1 <;> rfl
  refine ⟨_, ⟨_, hrun⟩, rfl, rfl, hsingle, hkind, by rw [hkind]; exact hq.1, hsib,
    by simp [hsib], chainEnd_chain _ hsingle, hlist, ?_⟩
  exact (stmt_sequence_steps (hrun _ le_rfl) (Steps.refl s)).error_eq hlist

/-- C15 (witness): `read x ; x := 1 ; write x end` gives the chain Read,
Assign, Write, ended by `NULL`, with the lookahead left on `end`. -/
theorem stmt_sequence_order_witness :
    ∃ r, Returns stmt_sequence (advance (initial tokens_three_statements)) r ∧
      r.2.token = TokenType.END ∧
      r.1 = chain [readNode1 "x" TreeNode.NULL, tree_x_assign_1, tree_write_x] ∧
      siblings r.1 = [readNode1 "x" TreeNode.NULL, tree_x_assign_1, tree_write_x] ∧
      chainEnd r.1 = TreeNode.NULL ∧
      r.2.listing = [] ∧ r.2.Error = false := by
  have h1 : Returns statement (advance (initial tokens_three_statements))
      (readNode1 "x" TreeNode.NULL,
        ⟨TokenType.SEMI, ";", 1, tokens_three_statements.drop 3, false, []⟩) :=
    statement_stable.returns (by decide : statement 8 _ = _)
  have h2 : Returns statement
      (advance ⟨TokenType.SEMI, ";", 1, tokens_three_statements.drop 3, false, []⟩)
      (tree_x_assign_1, ⟨TokenType.SEMI, ";", 1, tokens_three_statements.drop 7, false, []⟩) :=
    statement_stable.returns (by decide : statement 8 _ = _)
  have h3 : Returns statement
      (advance ⟨TokenType.SEMI, ";", 1, tokens_three_statements.drop 7, false, []⟩)
      (tree_write_x, ⟨TokenType.END, "end", 1, [], false, []⟩) :=
    statement_stable.returns (by decide : statement 8 _ = _)
  obtain ⟨r, hr, e1, e0, -, -, -, e2, -, e3, e5, e6⟩ := stmt_sequence_order _ _
    ⟨TokenType.END, "end", 1, [], false, []⟩ _
    [(tree_x_assign_1, ⟨TokenType.SEMI, ";", 1, tokens_three_statements.drop 7, false, []⟩),
      (tree_write_x, ⟨TokenType.END, "end", 1, [], false, []⟩)]
    h1 rfl ⟨rfl, h2, rfl, rfl, h3, rfl, rfl⟩ (Or.inr (Or.inl rfl))
  exact ⟨r, hr, by rw [e1], e0, e2, e3, e5, e6⟩

/-! ## C16: the order of the declarations -/

theorem single_newDeclNode (k : DeclKind) (s : PState) : single (newDeclNode k s) :=
  ⟨by simp [newDeclNode, TreeNode.kind?], rfl⟩

/-- A declaration that starts with a type keyword is an initialised node of
the keyword's kind, without sibling. -/
theorem decl_single {n : Nat} {s b : PState} {q : TreeNode} {k : DeclKind}
    (h : decl n s = some (q, b)) (hk : declKind? s.token = some k) :
    single q ∧ q.kind? = some (NodeKind.DeclK k) := by
  simp only [decl] at h
  split at h
  · rename_i htok
    rw [htok] at hk
    cases hk
    simp only [int_stmt, htok] at h
    split at h
    · cases h
    · cases h
      exact ⟨single_setChild (single_newDeclNode _ _) _ _, by rw [kind_setChild]; rfl⟩
  · rename_i htok
    rw [htok] at hk
    cases hk
    simp only [bool_stmt, htok] at h
    split at h
    · cases h
    · cases h
      exact ⟨single_setChild (single_newDeclNode _ _) _ _, by rw [kind_setChild]; rfl⟩
  · rename_i htok
    rw [htok] at hk
    cases hk
    simp only [string_stmt, htok] at h
    split at h
    · cases h
    · cases h
      exact ⟨single_setChild (single_newDeclNode _ _) _ _, by rw [kind_setChild]; rfl⟩
  · rename_i h1 h2 h3
    cases htok : s.token <;> simp_all [declKind?]

theorem declKind_none {t : TokenType} (h : declKind? t = none) :
    t ≠ TokenType.INT ∧ t ≠ TokenType.BOOL ∧ t ≠ TokenType.STRING := by
  refine ⟨?_, ?_, ?_⟩ <;> rintro rfl <;> simp [declKind?] at h

theorem declKind_some {t : TokenType} (h : declKind? t ≠ none) :
    ¬ (t ≠ TokenType.INT ∧ t ≠ TokenType.BOOL ∧ t ≠ TokenType.STRING) := by
  rintro ⟨h1, h2, h3⟩
  apply h
  cases t <;> simp_all [declKind?]

theorem declarations_loop_run (more : List (TokenType × TreeNode × PState)) :
    ∀ (nodes : List TreeNode) (s e : PState), DeclarationRun s more e →
      Returns (fun n => declarations_loop n nodes) s (nodes ++ more.map (fun x => x.2.1), e) ∧
      (∀ q ∈ more.map (fun x => x.2.1), single q) ∧
      more.map (fun x => x.2.1.kind?)
        = more.map (fun x => (declKind? x.1).map NodeKind.DeclK) ∧
      e.listing = s.listing := by
  induction more with
  | nil =>
    intro nodes s e hrun
    simp only [StatementRun, DeclarationRun] at hrun
    obtain ⟨hsemi, rfl, hk⟩ := hrun
    have hc : s.token ≠ TokenType.ENDFILE ∧ s.token ≠ TokenType.END := by
      rw [hsemi]; decide
    refine ⟨⟨1, fun n hn => ?_⟩, by simp, rfl, (advance_fields s).2.1⟩
    obtain ⟨k, rfl⟩ : ∃ k, n = k + 1 := ⟨n - 1, by omega⟩
    show declarations_loop (k + 1) nodes s = _
    rw [declarations_loop, if_pos hc]
    simp only [match_eq_advance hsemi]
    rw [if_pos (declKind_none hk)]
    simp
  | cons step more ih =>
    intro nodes s e hrun
    obtain ⟨kw, q, a⟩ := step
    simp only [DeclarationRun] at hrun
    obtain ⟨hsemi, hkw, hk, ⟨N1, h1⟩, hl, hmore⟩ := hrun
    obtain ⟨kind, hkind⟩ := Option.ne_none_iff_exists'.mp hk
    obtain ⟨hq, hqk⟩ := decl_single (h1 N1 le_rfl) (by rw [hkw]; exact hkind)
    obtain ⟨⟨N2, h2⟩, hall, hkinds, hle⟩ := ih (link nodes q) a e hmore
    have hc : s.token ≠ TokenType.ENDFILE ∧ s.token ≠ TokenType.END := by
      rw [hsemi]; decide
    refine ⟨⟨N1 + N2 + 1, fun n hn => ?_⟩, ?_, ?_, by rw [hle, hl]⟩
    · obtain ⟨k, rfl⟩ : ∃ k, n = k + 1 := ⟨n - 1, by omega⟩
      show declarations_loop (k + 1) nodes s = _
      rw [declarations_loop, if_pos hc]
      simp only [match_eq_advance hsemi]
      rw [if_neg (declKind_some (by rw [hkw]; exact hk))]
      simp only [h1 k (by omega)]
      have := h2 k (by omega)
      simpa [link_single nodes hq] using this
    · intro x hx
      simp only [List.map_cons, List.mem_cons] at hx
      rcases hx with rfl | hx
      · exact hq
      · exact hall x hx
    · simp only [List.map_cons, hkinds, hqk, hkind, Option.map_some']

/-- C16: the order of the declarations.  When `decl`, started on a type
keyword, returns the node `q1` without a diagnostic and the input continues
with `; declaration` steps, each starting with a type keyword and parsed
without a diagnostic, and then with `;` and a token that is no type keyword,
`declarations` returns with the lookahead on that token, the first after the
last consumed `;`; the sibling chain it returns consists of exactly the nodes
of the declarations in source order, `q1` first, their kinds are those of the
keywords in source order, and nothing is listed and the flag is unchanged. -/
theorem declarations_order (s a1 e : PState) (q1 : TreeNode)
    (more : List (TokenType × TreeNode × PState))
    (hk : declKind? s.token ≠ none)
    (h1 : Returns decl s (q1, a1)) (hl : a1.listing = s.listing)
    (hrun : DeclarationRun a1 more e) :
    ∃ r, Returns declarations s r ∧ r.2 = e ∧
      siblings r.1 = q1 :: more.map (fun x => x.2.1) ∧
      (siblings r.1).length = more.length + 1 ∧
      (siblings r.1).map TreeNode.kind?
        = (s.token :: more.map (fun x => x.1)).map (fun t => (declKind? t).map NodeKind.DeclK) ∧
      r.2.listing = s.listing ∧ r.2.Error = s.Error := by
  obtain ⟨N1, h1⟩ := h1
  obtain ⟨kind, hkind⟩ := Option.ne_none_iff_exists'.mp hk
  obtain ⟨hq, hqk⟩ := decl_single (h1 N1 le_rfl) hkind
  obtain ⟨⟨N2, h2⟩, hall, hkinds, hle⟩ := declarations_loop_run more (link [] q1) a1 e hrun
  have hrun : ∀ n, N1 + N2 ≤ n → declarations n s
      = some (chain (q1 :: more.map (fun x => x.2.1)), e) := by
    intro n hn
    have := h2 n (by omega)
    simp only [link_single [] hq, List.nil_append, List.singleton_append] at this
    simp only [declarations, h1 n (by omega), link_single [] hq, List.nil_append, this]
  have hsingle : ∀ q ∈ q1 :: more.map (fun x => x.2.1), single q := by
    intro x hx
    rcases List.mem_cons.mp hx with rfl | hx
    · exact hq
    · exact hall x hx
  have hsib := siblings_chain _ hsingle
  have hlist : e.listing = s.listing := by rw [hle, hl]
  refine ⟨_, ⟨_, hrun⟩, rfl, hsib, by simp [hsib], ?_, hlist, ?_⟩
  · rw [hsib]
    simp only [List.map_cons, List.map_map, hqk, hkind, Option.map_some']
    congr 1
  · exact (declarations_steps (hrun _ le_rfl) (Steps.refl s)).error_eq hlist

/-- C16 (witness): `int a ; bool b ; string c ; read x` gives the chain of an
Int, a Bool and a String declaration node, with the lookahead left on `read`. -/
theorem declarations_order_witness :
    ∃ r, Returns declarations (advance (initial tokens_three_declarations)) r ∧
      r.2.token = TokenType.READ ∧
      siblings r.1 = [declNode1 DeclKind.IntK "a", declNode1 DeclKind.BoolK "b",
        declNode1 DeclKind.StringK "c"] ∧
      (siblings r.1).map TreeNode.kind? = [some (NodeKind.DeclK DeclKind.IntK),
        some (NodeKind.DeclK DeclKind.BoolK), some (NodeKind.DeclK DeclKind.StringK)] ∧
      r.2.listing = [] ∧ r.2.Error = false := by
  have h1 : Returns decl (advance (initial tokens_three_declarations))
      (declNode1 DeclKind.IntK "a",
        ⟨TokenType.SEMI, ";", 1, tokens_three_declarations.drop 3, false, []⟩) :=
    decl_stable.returns (by decide : decl 4 _ = _)
  have h2 : Returns decl
      (advance ⟨TokenType.SEMI, ";", 1, tokens_three_declarations.drop 3, false, []⟩)
      (declNode1 DeclKind.BoolK "b",
        ⟨TokenType.SEMI, ";", 1, tokens_three_declarations.drop 6, false, []⟩) :=
    decl_stable.returns (by decide : decl 4 _ = _)
  have h3 : Returns decl
      (advance ⟨TokenType.SEMI, ";", 1, tokens_three_declarations.drop 6, false, []⟩)
      (declNode1 DeclKind.StringK "c",
        ⟨TokenType.SEMI, ";", 1, tokens_three_declarations.drop 9, false, []⟩) :=
    decl_stable.returns (by decide : decl 4 _ = _)
  obtain ⟨r, hr, e1, e2, -, e4, e5, e6⟩ := declarations_order _ _
    ⟨TokenType.READ, "read", 1, [tk TokenType.ID "x"], false, []⟩ _
    [(TokenType.BOOL, declNode1 DeclKind.BoolK "b",
        ⟨TokenType.SEMI, ";", 1, tokens_three_declarations.drop 6, false, []⟩),
      (TokenType.STRING, declNode1 DeclKind.StringK "c",
        ⟨TokenType.SEMI, ";", 1, tokens_three_declarations.drop 9, false, []⟩)]
    (by decide) h1 rfl
    ⟨rfl, rfl, by decide, h2, rfl, rfl, rfl, by decide, h3, rfl, rfl, rfl, by decide⟩
  exact ⟨r, hr, by rw [e1], e2, e4, e5, e6⟩

/-! ## C17: a missing operand -/

/-- C18: termination.  `parse` returns from every state, that is, on every
finite token sequence.  The number of tokens still to be consumed decreases
strictly over every iteration of the loops of the typed declarations, of
`declarations`, of `stmt_sequence`, of `term` and of `simple_exp`, and it is
strictly smaller than at the start of the enclosing statement or factor
whenever `stmt_sequence` is entered again from `if`, `repeat` or `do` and
whenever `exp` is entered again from a parenthesised factor. -/
theorem parse_terminates :
    (∀ s : PState, ∃ r, Returns parse s r) ∧
    (∀ s : PState, s.token = TokenType.COMMA →
      remaining (match_ TokenType.ID (match_ TokenType.COMMA s)) < remaining s) ∧
    (∀ (s s2 : PState) (q : TreeNode),
      s.token ≠ TokenType.ENDFILE ∧ s.token ≠ TokenType.END →
      ¬ ((match_ TokenType.SEMI s).token ≠ TokenType.INT
        ∧ (match_ TokenType.SEMI s).token ≠ TokenType.BOOL
        ∧ (match_ TokenType.SEMI s).token ≠ TokenType.STRING) →
      Returns decl (match_ TokenType.SEMI s) (q, s2) → remaining s2 < remaining s) ∧
    (∀ (s s2 : PState) (q : TreeNode), ¬ stopsSequence s.token →
      Returns statement (match_ TokenType.SEMI s) (q, s2) → remaining s2 < remaining s) ∧
    (∀ (s s2 : PState) (r : TreeNode), isMulOp s.token →
      Returns factor (match_ s.token s) (r, s2) → remaining s2 < remaining s) ∧
    (∀ (s s2 : PState) (r : TreeNode), isAddOp s.token →
      Returns term (match_ s.token s) (r, s2) → remaining s2 < remaining s) ∧
    (∀ (s s2 : PState) (c : TreeNode), s.token = TokenType.IF →
      Returns exp (match_ TokenType.IF s) (c, s2) →
      remaining (match_ TokenType.THEN s2) < remaining s ∧
      ∀ (s4 : PState) (b : TreeNode),
        Returns stmt_sequence (match_ TokenType.THEN s2) (b, s4) →
        s4.token = TokenType.ELSE → remaining (match_ TokenType.ELSE s4) < remaining s) ∧
    (∀ s : PState, s.token = TokenType.REPEAT →
      remaining (match_ TokenType.REPEAT s) < remaining s) ∧
    (∀ s : PState, s.token = TokenType.DO →
      remaining (match_ TokenType.DO s) < remaining s) ∧
    (∀ s : PState, s.token = TokenType.LPAREN →
      remaining (match_ TokenType.LPAREN s) < remaining s) := by
  refine ⟨fun s => (parse_halts s).result parse_stable, ?_, ?_, ?_, ?_, ?_, ?_,
    fun s h => remaining_match_lt h (by decide), fun s h => remaining_match_lt h (by decide),
    fun s h => remaining_match_lt h (by decide)⟩
  · intro s h
    exact lt_of_le_of_lt (remaining_match_le _ _) (remaining_match_lt h (by decide))
  · intro s s2 q hc hk hr
    obtain ⟨n, hn⟩ := hr.eq_of_le
    have hne : (match_ TokenType.SEMI s).token ≠ TokenType.ENDFILE := by
      intro h0
      apply hk
      rw [h0]
      decide
    exact lt_of_lt_of_le (decl_progress hn hne) (remaining_match_le _ _)
  · intro s s2 q hc hr
    obtain ⟨n, hn⟩ := hr.eq_of_le
    have hne : s.token ≠ TokenType.ENDFILE := fun h => hc (Or.inl h)
    by_cases hsemi : s.token = TokenType.SEMI
    · exact lt_of_le_of_lt (statement_steps hn (Steps.refl _)).remaining_le
        (remaining_match_lt hsemi (by decide))
    · have hm := match_mismatch hsemi
      have hrem : remaining (match_ TokenType.SEMI s) = remaining s := by
        rw [hm]; simp [fprintf, printToken, syntaxError, remaining]
      have ht : (match_ TokenType.SEMI s).token ≠ TokenType.ENDFILE := by
        rw [hm]; simpa [fprintf, printToken, syntaxError] using hne
      have := statement_progress hn ht
      omega
  · intro s s2 r hop hr
    obtain ⟨n, hn⟩ := hr.eq_of_le
    exact lt_of_le_of_lt (factor_steps hn (Steps.refl _)).remaining_le
      (remaining_match_lt rfl (by rcases hop with h | h <;> rw [h] <;> decide))
  · intro s s2 r hop hr
    obtain ⟨n, hn⟩ := hr.eq_of_le
    exact lt_of_le_of_lt (term_steps hn (Steps.refl _)).remaining_le
      (remaining_match_lt rfl (by rcases hop with h | h <;> rw [h] <;> decide))
  · intro s s2 c hIf hr
    obtain ⟨n, hn⟩ := hr.eq_of_le
    have h1 := remaining_match_lt hIf (by decide)
    have h2 := (exp_steps hn (Steps.refl _)).remaining_le
    have h3 := remaining_match_le TokenType.THEN s2
    refine ⟨by omega, fun s4 b hb hElse => ?_⟩
    obtain ⟨m, hm⟩ := hb.eq_of_le
    have h4 := (stmt_sequence_steps hm (Steps.refl _)).remaining_le
    have h5 := remaining_match_le TokenType.ELSE s4
    omega

/-! ## C19: the actual shape of a typed declaration -/

theorem spineNodes_idNodeAt (x : String) (l : Nat) : spineNodes (idNodeAt x l) = [idNodeAt x l] :=
  rfl

theorem spine_idNodes (x : String) (l : Nat) (more : List (String × Nat)) :
    spineNodes (spine (idNodeAt x l :: more.map (fun o => idNodeAt o.1 o.2)))
      = idNodeAt x l :: more.map (fun o => idNodeAt o.1 o.2) := by
  induction more generalizing x l with
  | nil => rfl
  | cons o rest ih =>
    obtain ⟨y, m⟩ := o
    simp only [List.map_cons, spine]
    rw [show (idNodeAt x l).setChild 0 (spine (idNodeAt y m :: rest.map
      (fun o => idNodeAt o.1 o.2))) = TreeNode.node (NodeKind.ExpK ExpKind.IdK) (Attr.name x)
        ExpType.Void l (spine (idNodeAt y m :: rest.map (fun o => idNodeAt o.1 o.2)))
        TreeNode.NULL TreeNode.NULL TreeNode.NULL from rfl]
    rw [spineNodes, ih y m]
    rfl

theorem spineEnd_idNodes (x : String) (l : Nat) (more : List (String × Nat)) :
    spineEnd (spine (idNodeAt x l :: more.map (fun o => idNodeAt o.1 o.2))) = TreeNode.NULL := by
  induction more generalizing x l with
  | nil => rfl
  | cons o rest ih =>
    obtain ⟨y, m⟩ := o
    simp only [List.map_cons, spine]
    exact ih y m

theorem comma_loop_ids (others : List (String × Nat × String × Nat)) (rest : List Token)
    (hrest : (rest.head?.map Token.type).getD TokenType.ENDFILE ≠ TokenType.COMMA) :
    ∀ (ids : List TreeNode) (p : PState), p.input = commaIds others ++ rest →
      ∃ e, Returns (fun n => comma_loop n ids) (advance p)
          (ids ++ others.map (fun o => idNodeAt o.2.2.1 o.2.2.2), e) ∧
        e.Error = p.Error ∧ e.listing = p.listing ∧ e.input = rest.tail ∧
        e.token = (rest.head?.map Token.type).getD TokenType.ENDFILE := by
  induction others with
  | nil =>
    intro ids p hp
    simp only [commaIds, List.nil_append] at hp
    obtain ⟨h1, h2, h3, h4⟩ := advance_fields p
    rw [hp] at h3 h4
    refine ⟨advance p, ⟨1, fun n hn => ?_⟩, h1, h2, h3, h4⟩
    obtain ⟨k, rfl⟩ : ∃ k, n = k + 1 := ⟨n - 1, by omega⟩
    show comma_loop (k + 1) ids (advance p) = _
    rw [comma_loop, if_neg (by rw [h4]; exact hrest)]
    simp
  | cons o more ih =>
    intro ids p hp
    obtain ⟨c, cl, x, l⟩ := o
    obtain ⟨tok, ts, ln, inp, E, L⟩ := p
    simp only [commaIds, List.cons_append] at hp
    subst hp
    obtain ⟨e, ⟨N, hN⟩, e1, e2, e3, e4⟩ := ih (ids ++ [idNodeAt x l])
      ⟨TokenType.ID, x, l, commaIds more ++ rest, E, L⟩ rfl
    refine ⟨e, ⟨N + 1, fun n hn => ?_⟩, e1, e2, e3, e4⟩
    obtain ⟨k, rfl⟩ : ∃ k, n = k + 1 := ⟨n - 1, by omega⟩
    show comma_loop (k + 1) ids (advance _) = _
    have := hN k (by omega)
    simp only [List.append_assoc, List.singleton_append] at this
    rw [comma_loop]
    simp only [advance_cons, if_true, match_, newExpNode, TreeNode.setAttr, link,
      TreeNode.isNULL, Bool.false_eq_true, if_false, List.map_cons]
    exact this

theorem typed_decl_run (s : PState) (x : String) (l : Nat)
    (others : List (String × Nat × String × Nat)) (rest : List Token)
    (hin : s.input = ⟨TokenType.ID, x, l⟩ :: (commaIds others ++ rest))
    (hrest : (rest.head?.map Token.type).getD TokenType.ENDFILE ≠ TokenType.COMMA)
    (rule : Nat → PState → Option (TreeNode × PState)) (kind : DeclKind)
    (hrule : (s.token = TokenType.INT ∧ rule = int_stmt ∧ kind = DeclKind.IntK) ∨
      (s.token = TokenType.BOOL ∧ rule = bool_stmt ∧ kind = DeclKind.BoolK) ∨
      (s.token = TokenType.STRING ∧ rule = string_stmt ∧ kind = DeclKind.StringK)) :
    ∃ e, Returns rule s
        (TreeNode.node (NodeKind.DeclK kind) Attr.unset kind.expType s.lineno
          (spine (idNodeAt x l :: others.map (fun o => idNodeAt o.2.2.1 o.2.2.2)))
          TreeNode.NULL TreeNode.NULL TreeNode.NULL, e) ∧
      e.Error = s.Error ∧ e.listing = s.listing ∧ e.input = rest.tail ∧
      e.token = (rest.head?.map Token.type).getD TokenType.ENDFILE := by
  obtain ⟨token, tokenString, lineno, input, Error, listing⟩ := s
  simp only at hin hrule
  subst hin
  obtain ⟨e, ⟨N, hN⟩, e1, e2, e3, e4⟩ := comma_loop_ids others rest hrest [idNodeAt x l]
    ⟨TokenType.ID, x, l, commaIds others ++ rest, Error, listing⟩ rfl
  simp only [List.singleton_append] at hN
  refine ⟨e, ⟨N, fun n hn => ?_⟩, e1, e2, e3, e4⟩
  have := hN n hn
  rcases hrule with ⟨h1, h2, h3⟩ | ⟨h1, h2, h3⟩ | ⟨h1, h2, h3⟩
  · subst h1 h2 h3
    simp only [int_stmt, match_, advance_cons, if_true, newExpNode, TreeNode.setAttr]
    simp only [idNodeAt] at this
    simp [this, newDeclNode, TreeNode.setChild]
    rfl
  · subst h1 h2 h3
    simp only [bool_stmt, match_, advance_cons, if_true, newExpNode, TreeNode.setAttr]
    simp only [idNodeAt] at this
    simp [this, newDeclNode, TreeNode.setChild]
    rfl
  · subst h1 h2 h3
    simp only [string_stmt, match_, advance_cons, if_true, newExpNode, TreeNode.setAttr]
    simp only [idNodeAt] at this
    simp [this, newDeclNode, TreeNode.setChild]
    rfl

/-- C19: the actual shape of a typed declaration.  For a type keyword
followed by `n >= 1` comma-separated identifiers `x1, ..., xn` and then a
token that is not a comma, the rule of the keyword returns a declaration node
of the matching kind whose own `attr` is not assigned (the lookahead is the
keyword, not an identifier, when the rule tests it).  The returned tree is
given exactly: `child[0]` is the `spine` of the Identifier nodes named
`x1, ..., xn` in source order, each the `child[0]` of the one before; the
spine has exactly `n` nodes, the `child[0]` field of the last one is `NULL`,
not a never-written pointer, and every other slot is empty; nothing is listed
and the flag is unchanged. -/
theorem typed_decl_shape (s : PState) (x : String) (l : Nat)
    (others : List (String × Nat × String × Nat)) (rest : List Token)
    (hin : s.input = ⟨TokenType.ID, x, l⟩ :: (commaIds others ++ rest))
    (hrest : (rest.head?.map Token.type).getD TokenType.ENDFILE ≠ TokenType.COMMA)
    (rule : Nat → PState → Option (TreeNode × PState)) (kind : DeclKind)
    (hrule : (s.token = TokenType.INT ∧ rule = int_stmt ∧ kind = DeclKind.IntK) ∨
      (s.token = TokenType.BOOL ∧ rule = bool_stmt ∧ kind = DeclKind.BoolK) ∨
      (s.token = TokenType.STRING ∧ rule = string_stmt ∧ kind = DeclKind.StringK)) :
    ∃ r, Returns rule s r ∧
      r.1 = TreeNode.node (NodeKind.DeclK kind) Attr.unset kind.expType s.lineno
        (spine (idNodeAt x l :: others.map (fun o => idNodeAt o.2.2.1 o.2.2.2)))
        TreeNode.NULL TreeNode.NULL TreeNode.NULL ∧
      r.1.kind? = some (NodeKind.DeclK kind) ∧ r.1.attr = Attr.unset ∧
      r.1.child 0 = spine (idNodeAt x l :: others.map (fun o => idNodeAt o.2.2.1 o.2.2.2)) ∧
      spineNodes (r.1.child 0)
        = idNodeAt x l :: others.map (fun o => idNodeAt o.2.2.1 o.2.2.2) ∧
      (spineNodes (r.1.child 0)).length = others.length + 1 ∧
      spineEnd (r.1.child 0) = TreeNode.NULL ∧
      r.1.child 1 = TreeNode.NULL ∧ r.1.child 2 = TreeNode.NULL ∧
      r.1.sibling = TreeNode.NULL ∧
      r.2.Error = s.Error ∧ r.2.listing = s.listing ∧
      r.2.token = (rest.head?.map Token.type).getD TokenType.ENDFILE := by
  obtain ⟨e, hr, e1, e2, -, e4⟩ := typed_decl_run s x l others rest hin hrest rule kind hrule
  have hsp : spineNodes (spine (idNodeAt x l :: others.map (fun o => idNodeAt o.2.2.1 o.2.2.2)))
      = idNodeAt x l :: others.map (fun o => idNodeAt o.2.2.1 o.2.2.2) := by
    have := spine_idNodes x l (others.map (fun o => (o.2.2.1, o.2.2.2)))
    simpa [List.map_map, Function.comp] using this
  have hend : spineEnd (spine (idNodeAt x l :: others.map (fun o => idNodeAt o.2.2.1 o.2.2.2)))
      = TreeNode.NULL := by
    have := spineEnd_idNodes x l (others.map (fun o => (o.2.2.1, o.2.2.2)))
    simpa [List.map_map, Function.comp] using this
  exact ⟨_, hr, rfl, rfl, rfl, rfl, hsp, by
    show (spineNodes (spine _)).length = _
    rw [hsp]; simp, hend, rfl, rfl, rfl, e1, e2, e4⟩

/-- C19 (witness): `int a, b, c` gives an Int node without name over the spine
of the Identifier nodes `a`, `b`, `c`, the last of them without child. -/
theorem typed_decl_shape_witness :
    ∃ r, Returns int_stmt (advance (initial tokens_int_abc)) r ∧
      r.1.kind? = some (NodeKind.DeclK DeclKind.IntK) ∧ r.1.attr = Attr.unset ∧
      r.1.child 0 = spine [idNodeAt "a" 1, idNodeAt "b" 1, idNodeAt "c" 1] ∧
      spineNodes (r.1.child 0) = [idNodeAt "a" 1, idNodeAt "b" 1, idNodeAt "c" 1] ∧
      spineEnd (r.1.child 0) = TreeNode.NULL ∧
      r.2.Error = false ∧ r.2.listing = [] ∧ r.2.token = TokenType.ENDFILE := by
  obtain ⟨r, hr, -, e1, e2, e0, e3, -, e4, -, -, -, e8, e9, e10⟩ :=
    typed_decl_shape (advance (initial tokens_int_abc)) "a" 1 [(",", 1, "b", 1), (",", 1, "c", 1)]
      [] rfl (by decide) int_stmt DeclKind.IntK (Or.inl ⟨rfl, rfl, rfl⟩)
  exact ⟨r, hr, e1, e2, e0, e3, e4, e8, e9, e10⟩

/-! ## C20: an error-free parse yields a complete tree -/

theorem Steps.error_false {a b : PState} (h : Steps a b) (hb : b.Error = false) :
    a.Error = false := by
  cases ha : a.Error with
  | false => rfl
  | true => rw [h.error_mono ha] at hb; cases hb

theorem match_error_false {e : TokenType} {s : PState} (h : (match_ e s).Error = false) :
    s.token = e := by
  by_contra hne
  rw [match_mismatch hne] at h
  simp [fprintf, printToken, syntaxError] at h

theorem unexpected_error (s : PState) :
    (advance (printToken (syntaxError "unexpected token -> " s))).Error = true := by
  rw [(advance_fields _).1]
  rfl

theorem complete_setSibling {n x : TreeNode} (hn : complete n = true) (hx : complete x = true) :
    complete (n.setSibling x) = true := by
  cases n with
  | node k a ty l c0 c1 c2 sib =>
    simp only [complete, Bool.and_eq_true] at hn
    simp only [TreeNode.setSibling, complete, Bool.and_eq_true]
    exact ⟨hn.1, hx⟩
  | uninit sib => cases hn
  | NULL => rfl
  | indeterminate => cases hn

theorem isNode_setSibling (n x : TreeNode) : (n.setSibling x).isNode = n.isNode := by
  cases n <;> rfl

theorem good_chain (nodes : List TreeNode) (h : ∀ q ∈ nodes, good q) (hne : nodes ≠ []) :
    good (chain nodes) := by
  induction nodes with
  | nil => exact absurd rfl hne
  | cons q rest ih =>
    cases rest with
    | nil => exact h q (List.mem_cons_self _ _)
    | cons m rest =>
      have hq := h q (List.mem_cons_self _ _)
      have hr := ih (fun x hx => h x (List.mem_cons_of_mem _ hx)) (by simp)
      rw [chain]
      exact ⟨by rw [isNode_setSibling]; exact hq.1, complete_setSibling hq.2 hr.2⟩

theorem good_link {nodes : List TreeNode} {q : TreeNode} (h : ∀ x ∈ nodes, good x)
    (hq : good q) : (∀ x ∈ link nodes q, good x) ∧ link nodes q ≠ [] := by
  have hnull : q.isNULL = false := by
    cases q with
    | NULL => cases hq.1
    | _ => rfl
  simp only [link, hnull, Bool.false_eq_true, if_false]
  refine ⟨fun x hx => ?_, by simp⟩
  rcases List.mem_append.mp hx with hx | hx
  · exact h x hx
  · rw [List.mem_singleton.mp hx]; exact hq

theorem good_opNode {t r : TreeNode} (s : PState) (ht : good t) (hr : good r) :
    good ((opNode t s).setChild 1 r) := by
  rw [opNode_eq]
  refine ⟨rfl, ?_⟩
  simp [complete, nodeComplete, ht.1, ht.2, hr.1, hr.2]

theorem exp_block_good (n : Nat) :
    (∀ s t b, exp n s = some (t, b) → b.Error = false → good t) ∧
    (∀ s t b, simple_exp n s = some (t, b) → b.Error = false → good t) ∧
    (∀ t0 s t b, simple_exp_loop n t0 s = some (t, b) → b.Error = false → good t0 → good t) ∧
    (∀ s t b, term n s = some (t, b) → b.Error = false → good t) ∧
    (∀ t0 s t b, term_loop n t0 s = some (t, b) → b.Error = false → good t0 → good t) ∧
    (∀ s t b, factor n s = some (t, b) → b.Error = false → good t) := by
  induction n with
  | zero => simp [exp, simple_exp, simple_exp_loop, term, term_loop, factor]
  | succ n ih =>
    obtain ⟨h1, h2, h3, h4, h5, h6⟩ := ih
    refine ⟨?_, ?_, ?_, ?_, ?_, ?_⟩
    · intro s t b h hb
      rw [exp] at h
      split at h
      · cases h
      · rename_i q s1 hq
        split at h
        · dsimp only at h
          split at h
          · cases h
          · rename_i r s3 hr
            cases h
            have e1 : s1.Error = false :=
              (simple_exp_steps hr ((Steps.refl s1).matched _)).error_false hb
            exact good_opNode s1 (h2 _ _ _ hq e1) (h2 _ _ _ hr hb)
        · cases h
          exact h2 _ _ _ hq hb
    · intro s t b h hb
      rw [simple_exp] at h
      split at h
      · cases h
      · rename_i q s1 hq
        exact h3 _ _ _ _ h hb
          (h4 _ _ _ hq ((simple_exp_loop_steps h (Steps.refl s1)).error_false hb))
    · intro t0 s t b h hb ht0
      rw [simple_exp_loop] at h
      split at h
      · dsimp only at h
        split at h
        · cases h
        · rename_i r s2 hr
          have e2 : s2.Error = false := (simple_exp_loop_steps h (Steps.refl s2)).error_false hb
          exact h3 _ _ _ _ h hb (good_opNode s ht0 (h4 _ _ _ hr e2))
      · cases h
        exact ht0
    · intro s t b h hb
      rw [term] at h
      split at h
      · cases h
      · rename_i q s1 hq
        exact h5 _ _ _ _ h hb
          (h6 _ _ _ hq ((term_loop_steps h (Steps.refl s1)).error_false hb))
    · intro t0 s t b h hb ht0
      rw [term_loop] at h
      split at h
      · dsimp only at h
        split at h
        · cases h
        · rename_i r s2 hr
          have e2 : s2.Error = false := (term_loop_steps h (Steps.refl s2)).error_false hb
          exact h5 _ _ _ _ h hb (good_opNode s ht0 (h6 _ _ _ hr e2))
      · cases h
        exact ht0
    · intro s t b h hb
      rw [factor] at h
      split at h
      · cases h
        exact ⟨rfl, rfl⟩
      · cases h
        exact ⟨rfl, rfl⟩
      · dsimp only at h
        split at h
        · cases h
        · rename_i q s2 hq
          cases h
          exact h1 _ _ _ hq (((Steps.refl s2).matched _).error_false hb)
      · cases h
        rw [unexpected_error] at hb
        cases hb

theorem read_stmt_good (s : PState) (hb : (read_stmt s).2.Error = false) :
    good (read_stmt s).1 := by
  have h1 : (match_ TokenType.READ s).token = TokenType.ID := match_error_false hb
  refine ⟨?_, ?_⟩ <;>
    simp [read_stmt, h1, newStmtNode, TreeNode.setAttr, TreeNode.isNode, complete,
      nodeComplete, Attr.isName]

theorem write_stmt_good {n : Nat} {s b : PState} {t : TreeNode}
    (h : write_stmt n s = some (t, b)) (hb : b.Error = false) : good t := by
  rw [write_stmt] at h
  split at h
  · cases h
  · rename_i e s2 he
    cases h
    have hg := (exp_block_good n).1 _ _ _ he hb
    refine ⟨rfl, ?_⟩
    simp [newStmtNode, TreeNode.setChild, complete, nodeComplete, hg.1, hg.2]

theorem assign_stmt_good {n : Nat} {s b : PState} {t : TreeNode}
    (h : assign_stmt n s = some (t, b)) (hb : b.Error = false) : good t := by
  rw [assign_stmt] at h
  dsimp only at h
  split at h
  · cases h
    have h1 : s.token = TokenType.ID :=
      match_error_false ((((Steps.refl (match_ TokenType.ID s)).matched _).matched _).error_false hb)
    refine ⟨?_, ?_⟩ <;>
      simp [h1, newStmtNode, newExpNode, TreeNode.setChild, TreeNode.setAttr, TreeNode.setType,
        TreeNode.isNode, complete, nodeComplete, Attr.isName]
  · split at h
    · cases h
    · rename_i e s3 he
      cases h
      have h1 : s.token = TokenType.ID :=
        match_error_false
          ((exp_steps he ((Steps.refl (match_ TokenType.ID s)).matched _)).error_false hb)
      have hg := (exp_block_good n).1 _ _ _ he hb
      refine ⟨?_, ?_⟩
      · simp [h1, newStmtNode, TreeNode.setChild, TreeNode.setAttr, TreeNode.isNode]
      · simp [h1, newStmtNode, TreeNode.setChild, TreeNode.setAttr, complete, nodeComplete,
          Attr.isName, hg.1, hg.2]

theorem stmt_block_good (n : Nat) :
    (∀ s t b, stmt_sequence n s = some (t, b) → b.Error = false → good t) ∧
    (∀ nodes s r b, stmt_sequence_loop n nodes s = some (r, b) → b.Error = false →
      (∀ q ∈ nodes, good q) → nodes ≠ [] → (∀ q ∈ r, good q) ∧ r ≠ []) ∧
    (∀ s t b, statement n s = some (t, b) → b.Error = false → good t) ∧
    (∀ s t b, if_stmt n s = some (t, b) → b.Error = false → good t) ∧
    (∀ s t b, repeat_stmt n s = some (t, b) → b.Error = false → good t) ∧
    (∀ s t b, while_stmt n s = some (t, b) → b.Error = false → good t) := by
  induction n with
  | zero => simp [stmt_sequence, stmt_sequence_loop, statement, if_stmt, repeat_stmt, while_stmt]
  | succ n ih =>
    obtain ⟨h1, h2, h3, h4, h5, h6⟩ := ih
    refine ⟨?_, ?_, ?_, ?_, ?_, ?_⟩
    · intro s t b h hb
      rw [stmt_sequence] at h
      split at h
      · cases h
      · rename_i q s1 hq
        split at h
        · cases h
        · rename_i r s2 hr
          cases h
          have e1 : s1.Error = false :=
            (stmt_sequence_loop_steps hr (Steps.refl s1)).error_false hb
          have hl := good_link (fun x hx => absurd hx (List.not_mem_nil x)) (h3 _ _ _ hq e1)
          have := h2 _ _ _ _ hr hb hl.1 hl.2
          exact good_chain _ this.1 this.2
    · intro nodes s r b h hb hn hne
      rw [stmt_sequence_loop] at h
      split at h
      · dsimp only at h
        split at h
        · cases h
        · rename_i q s2 hq
          have e2 : s2.Error = false :=
            (stmt_sequence_loop_steps h (Steps.refl s2)).error_false hb
          have hl := good_link hn (h3 _ _ _ hq e2)
          exact h2 _ _ _ _ h hb hl.1 hl.2
      · cases h
        exact ⟨hn, hne⟩
    · intro s t b h hb
      rw [statement] at h
      split at h
      · exact h4 _ _ _ h hb
      · exact h5 _ _ _ h hb
      · exact h6 _ _ _ h hb
      · exact assign_stmt_good h hb
      · cases h
        exact read_stmt_good s hb
      · exact write_stmt_good h hb
      · cases h
        rw [unexpected_error] at hb
        cases hb
    · intro s t b h hb
      rw [if_stmt] at h
      dsimp only at h
      split at h
      · cases h
      · rename_i c s2 hc
        split at h
        · cases h
        · rename_i th s4 hth
          split at h
          · split at h
            · cases h
            · rename_i el s6 hel
              cases h
              have e6 : s6.Error = false := ((Steps.refl s6).matched _).error_false hb
              have e4 : s4.Error = false :=
                (stmt_sequence_steps hel ((Steps.refl s4).matched _)).error_false e6
              have e2 : s2.Error = false :=
                (stmt_sequence_steps hth ((Steps.refl s2).matched _)).error_false e4
              have gc := (exp_block_good n).1 _ _ _ hc e2
              have gt := h1 _ _ _ hth e4
              have ge := h1 _ _ _ hel e6
              refine ⟨rfl, ?_⟩
              simp [newStmtNode, TreeNode.setChild, complete, nodeComplete, gc.1, gc.2, gt.1,
                gt.2, ge.2]
          · cases h
            have e4 : s4.Error = false := ((Steps.refl s4).matched _).error_false hb
            have e2 : s2.Error = false :=
              (stmt_sequence_steps hth ((Steps.refl s2).matched _)).error_false e4
            have gc := (exp_block_good n).1 _ _ _ hc e2
            have gt := h1 _ _ _ hth e4
            refine ⟨rfl, ?_⟩
            simp [newStmtNode, TreeNode.setChild, complete, nodeComplete, gc.1, gc.2, gt.1, gt.2]
    · intro s t b h hb
      rw [repeat_stmt] at h
      dsimp only at h
      split at h
      · cases h
      · rename_i bd s2 hbd
        split at h
        · cases h
        · rename_i c s4 hc
          cases h
          have e2 : s2.Error = false :=
            (exp_steps hc ((Steps.refl s2).matched _)).error_false hb
          have gb := h1 _ _ _ hbd e2
          have gc := (exp_block_good n).1 _ _ _ hc hb
          refine ⟨rfl, ?_⟩
          simp [newStmtNode, TreeNode.setChild, complete, nodeComplete, gc.1, gc.2, gb.1, gb.2]
    · intro s t b h hb
      rw [while_stmt] at h
      dsimp only at h
      split at h
      · cases h
      · rename_i bd s2 hbd
        split at h
        · cases h
        · rename_i c s4 hc
          cases h
          have e2 : s2.Error = false :=
            (exp_steps hc ((Steps.refl s2).matched _)).error_false hb
          have gb := h1 _ _ _ hbd e2
          have gc := (exp_block_good n).1 _ _ _ hc hb
          refine ⟨rfl, ?_⟩
          simp [newStmtNode, TreeNode.setChild, complete, nodeComplete, gc.1, gc.2, gb.1, gb.2]

theorem good_spine_ids (ids : List TreeNode) (h : ∀ q ∈ ids, ∃ x l, q = idNodeAt x l)
    (hne : ids ≠ []) : good (spine ids) := by
  induction ids with
  | nil => exact absurd rfl hne
  | cons q rest ih =>
    obtain ⟨x, l, rfl⟩ := h q (List.mem_cons_self _ _)
    cases rest with
    | nil => exact ⟨rfl, rfl⟩
    | cons m rest =>
      have hr := ih (fun y hy => h y (List.mem_cons_of_mem _ hy)) (by simp)
      rw [spine]
      refine ⟨rfl, ?_⟩
      simp [idNodeAt, TreeNode.setChild, complete, nodeComplete, Attr.isName, hr.2]

theorem link_ids {ids : List TreeNode} (h : ∀ q ∈ ids, ∃ x l, q = idNodeAt x l)
    (x : String) (l : Nat) :
    (∀ q ∈ link ids (idNodeAt x l), ∃ x l, q = idNodeAt x l) ∧ link ids (idNodeAt x l) ≠ [] := by
  have e : link ids (idNodeAt x l) = ids ++ [idNodeAt x l] := rfl
  rw [e]
  refine ⟨fun q hq => ?_, by simp⟩
  rcases List.mem_append.mp hq with hq | hq
  · exact h q hq
  · exact ⟨x, l, List.mem_singleton.mp hq⟩

theorem comma_loop_good (n : Nat) :
    ∀ ids s r b, comma_loop n ids s = some (r, b) → b.Error = false →
      (∀ q ∈ ids, ∃ x l, q = idNodeAt x l) → ids ≠ [] →
      (∀ q ∈ r, ∃ x l, q = idNodeAt x l) ∧ r ≠ [] := by
  induction n with
  | zero => simp [comma_loop]
  | succ n ih =>
    intro ids s r b h hb hi hne
    rw [comma_loop] at h
    split at h
    · dsimp only at h
      have e2 : (match_ TokenType.ID (match_ TokenType.COMMA s)).Error = false :=
        (comma_loop_steps n _ _ _ _ _ h (Steps.refl _)).error_false hb
      have h1 : (match_ TokenType.COMMA s).token = TokenType.ID := match_error_false e2
      rw [if_pos h1] at h
      have hl := link_ids hi (match_ TokenType.COMMA s).tokenString (match_ TokenType.COMMA s).lineno
      exact ih _ _ _ _ h hb hl.1 hl.2
    · cases h
      exact ⟨hi, hne⟩

theorem typed_decl_good {n : Nat} {s b : PState} {ids : List TreeNode} (kind : DeclKind)
    (keyword : TokenType)
    (h : comma_loop n
      [if (match_ keyword s).token = TokenType.ID
        then (newExpNode ExpKind.IdK (match_ keyword s)).setAttr
          (Attr.name (match_ keyword s).tokenString)
        else newExpNode ExpKind.IdK (match_ keyword s)]
      (match_ TokenType.ID (match_ keyword s)) = some (ids, b))
    (hb : b.Error = false) :
    good ((if s.token = TokenType.ID then (newDeclNode kind s).setAttr (Attr.name s.tokenString)
      else newDeclNode kind s).setChild 0 (spine ids)) := by
  have e2 : (match_ TokenType.ID (match_ keyword s)).Error = false :=
    (comma_loop_steps n _ _ _ _ _ h (Steps.refl _)).error_false hb
  have h1 : (match_ keyword s).token = TokenType.ID := match_error_false e2
  rw [if_pos h1] at h
  have hg := comma_loop_good n _ _ _ _ h hb
    (fun q hq => ⟨_, _, List.mem_singleton.mp hq⟩) (by simp)
  have hs := good_spine_ids ids hg.1 hg.2
  split
  · refine ⟨rfl, ?_⟩
    simp [newDeclNode, TreeNode.setAttr, TreeNode.setChild, complete, nodeComplete, hs.2]
  · refine ⟨rfl, ?_⟩
    simp [newDeclNode, TreeNode.setChild, complete, nodeComplete, hs.2]

theorem decl_good {n : Nat} {s b : PState} {t : TreeNode}
    (h : decl n s = some (t, b)) (hb : b.Error = false) : good t := by
  rw [decl] at h
  split at h
  · rw [int_stmt] at h
    split at h
    · cases h
    · rename_i ids s3 hc
      cases h
      exact typed_decl_good DeclKind.IntK TokenType.INT hc hb
  · rw [bool_stmt] at h
    split at h
    · cases h
    · rename_i ids s3 hc
      cases h
      exact typed_decl_good DeclKind.BoolK TokenType.BOOL hc hb
  · rw [string_stmt] at h
    split at h
    · cases h
    · rename_i ids s3 hc
      cases h
      exact typed_decl_good DeclKind.StringK TokenType.STRING hc hb
  · cases h
    rw [unexpected_error] at hb
    cases hb

theorem declarations_loop_good (n : Nat) :
    ∀ nodes s r b, declarations_loop n nodes s = some (r, b) → b.Error = false →
      (∀ q ∈ nodes, good q) → nodes ≠ [] → (∀ q ∈ r, good q) ∧ r ≠ [] := by
  induction n with
  | zero => simp [declarations_loop]
  | succ n ih =>
    intro nodes s r b h hb hn hne
    rw [declarations_loop] at h
    split at h
    · dsimp only at h
      split at h
      · cases h
        exact ⟨hn, hne⟩
      · split at h
        · cases h
        · rename_i q s2 hq
          have e2 : s2.Error = false :=
            (declarations_loop_steps n _ _ _ _ _ h (Steps.refl s2)).error_false hb
          have hl := good_link hn (decl_good hq e2)
          exact ih _ _ _ _ h hb hl.1 hl.2
    · cases h
      exact ⟨hn, hne⟩

theorem declarations_good {n : Nat} {s b : PState} {t : TreeNode}
    (h : declarations n s = some (t, b)) (hb : b.Error = false) : good t := by
  rw [declarations] at h
  split at h
  · cases h
  · rename_i q s1 hq
    split at h
    · cases h
    · rename_i r s2 hr
      cases h
      have e1 : s1.Error = false :=
        (declarations_loop_steps n _ _ _ _ _ hr (Steps.refl s1)).error_false hb
      have hl := good_link (fun x hx => absurd hx (List.not_mem_nil x)) (decl_good hq e1)
      have := declarations_loop_good n _ _ _ _ hr hb hl.1 hl.2
      exact good_chain _ this.1 this.2

theorem program_good {n : Nat} {s b : PState} {t : TreeNode}
    (h : program n s = some (t, b)) (hb : b.Error = false) :
    t.kind? = some NodeKind.RootK ∧ (t.child 0).isNode = true ∧
      (t.child 1).isNode = true ∧ complete t = true := by
  rw [program] at h
  dsimp only at h
  split at h
  · cases h
  · rename_i d s1 hd
    split at h
    · cases h
    · rename_i q s2 hq
      cases h
      have e1 : s1.Error = false := (stmt_sequence_steps hq (Steps.refl s1)).error_false hb
      have gd := declarations_good hd e1
      have gq := (stmt_block_good n).1 _ _ _ hq hb
      refine ⟨rfl, gd.1, gq.1, ?_⟩
      simp [newRootNode, TreeNode.setChild, complete, nodeComplete, gd.2, gq.2]

theorem parse_good {n : Nat} {s b : PState} {t : TreeNode}
    (h : parse n s = some (t, b)) (hb : b.Error = false) :
    s.Error = false ∧ b.token = TokenType.ENDFILE ∧ t.kind? = some NodeKind.RootK ∧
      (t.child 0).isNode = true ∧
      (t.child 1).isNode = true ∧ complete t = true := by
  have hs : s.Error = false := (parse_steps h (Steps.refl s)).error_false hb
  rw [parse] at h
  split at h
  · cases h
  · rename_i t1 s2 hp
    split at h
    · cases h
      simp [syntaxError] at hb
    · rename_i hne
      cases h
      exact ⟨hs, not_not.mp hne, program_good hp hb⟩

/-- C20: an error-free parse yields a complete tree.  From every state `parse`
returns, and if it returns with the error flag clear, then the flag was clear
at the start, the lookahead is the end-of-file token, the result is the root
node, both children of the root are nodes, and in the returned tree every
Operator node has both `child[0]` and `child[1]`, every If node its condition
and then-branch, every Repeat and While node its body and condition, every
Assign and Write node its `child[0]`, and every Assign, Read and Identifier
node has its name set; a child that is required is an initialised node, and
no never-written pointer and no raw storage occurs anywhere in the tree. -/
theorem parse_complete (s : PState) :
    ∃ r, Returns parse s r ∧
      (r.2.Error = false →
        s.Error = false ∧ r.2.token = TokenType.ENDFILE ∧
          r.1.kind? = some NodeKind.RootK ∧ (r.1.child 0).isNode = true ∧
          (r.1.child 1).isNode = true ∧ complete r.1 = true) := by
  obtain ⟨⟨t, e⟩, hr⟩ := (parse_halts s).result parse_stable
  refine ⟨(t, e), hr, fun he => ?_⟩
  obtain ⟨n, hn⟩ := hr.eq_of_le
  exact parse_good hn he

theorem parse_complete_witness :
    ∃ r, Returns parse (initial tokens_error_free) r ∧ r.2.Error = false ∧
      r.2.token = TokenType.ENDFILE ∧ r.1.kind? = some NodeKind.RootK ∧
      (r.1.child 0).isNode = true ∧
      (r.1.child 1).isNode = true ∧ complete r.1 = true := by
  obtain ⟨r, hr, h⟩ := parse_complete (initial tokens_error_free)
  obtain ⟨r', hr', hp⟩ := parse_stable.returns_check 12 (initial tokens_error_free)
    (fun r => r.2.Error == false) (by decide)
  obtain rfl := hr.unique hr'
  have he : r.2.Error = false := by simpa using hp
  exact ⟨r, hr, he, (h he).2⟩


end Parse
